import Mathlib

/-! WebSitem: content schemas, feed normaliser and admin editors

A shallow embedding of the parts of the portfolio site that carry a contract:

* `src/pages/Projects.jsx`  : `projectSchema`, `onSubmit` (tag normalisation, persistence);
* `src/pages/Blog.jsx`      : `blogSchema`;
* `src/pages/SocialMedia.jsx` : `fetchSocialMedia` and the platform list rendering;
* `src/pages/BlogPage.jsx`  : `fetchPosts` (sort, thumbnail fallback) and the debounced
  search effect.

JavaScript strings are modelled as lists of characters, `undefined` as `none`.
Builtins whose behaviour is fixed by the engine and not by this repository
(`toLowerCase`, the `URL` parser behind zod's `.url()`) are parameters of the definitions.
-/

namespace WebSitem

/-- A JavaScript string, as the sequence of its characters. -/
abbrev JsString := List Char

/-! ## `Projects.jsx`: normalisation of the `technologies` field -/

/-- The characters removed by `String.prototype.trim`: ECMAScript `WhiteSpace` and
`LineTerminator`. -/
def isJsWhiteSpace (c : Char) : Bool :=
  c.toNat ∈ [0x9, 0xA, 0xB, 0xC, 0xD, 0x20, 0xA0, 0x1680, 0x2028, 0x2029, 0x202F, 0x205F,
    0x3000, 0xFEFF] || (0x2000 ≤ c.toNat && c.toNat ≤ 0x200A)

/-- `s.trim()`: white space is removed from both ends. -/
def jsTrim (s : JsString) : JsString :=
  ((s.dropWhile isJsWhiteSpace).reverse.dropWhile isJsWhiteSpace).reverse

/-- `s.split(',')`: the segments between the commas, left to right; the empty string gives a
single empty segment. -/
def jsSplitComma : JsString → List JsString
  | [] => [[]]
  | c :: cs =>
    if c = ',' then [] :: jsSplitComma cs
    else
      match jsSplitComma cs with
      | [] => [[c]]
      | seg :: segs => (c :: seg) :: segs

/-- `Projects.jsx`, `onSubmit`, line 97:
`data.technologies ? data.technologies.split(',').map(tech => tech.trim()).filter(tech => tech !== '') : []`.
An absent and an empty string are both falsy. -/
def technologiesArray (technologies : Option JsString) : List JsString :=
  match technologies with
  | none => []
  | some s =>
    if s = [] then []
    else ((jsSplitComma s).map (fun tech => jsTrim tech)).filter (fun tech => tech ≠ [])

/-- The spec's normalisation: split on commas, trim each segment, drop the empty ones. -/
def specTags (s : JsString) : List JsString :=
  ((s.splitOn ',').map jsTrim).filter (fun seg => seg ≠ [])

/-! ## `BlogPage.jsx`: the feed normaliser -/

/-- The engine builtins the blog page calls. -/
structure Engine where
  /-- The time value of `new Date(s)` in milliseconds; `none` is an Invalid Date (`NaN`). -/
  dateValue : JsString → Option Int
  /-- The text of `new Date(s).toLocaleDateString('tr-TR', ...)`. -/
  toLocaleDateString : JsString → JsString
  /-- The text of `s.toLowerCase()`. -/
  toLowerCase : JsString → JsString

/-- An element of `response.data.items`: `title`, `link`, `pubDate` and the optional
`thumbnail`, `content`, `description`, `categories`. -/
structure FeedItem where
  title : JsString
  link : JsString
  pubDate : JsString
  thumbnail : Option JsString
  content : Option JsString
  description : Option JsString
  categories : Option (List JsString)
deriving DecidableEq

/-- An element of `postsWithImages`: `{ ...post, thumbnail: imageUrl, tags, formattedDate }`. -/
structure FeedPost extends FeedItem where
  tags : List JsString
  formattedDate : JsString
deriving DecidableEq

/-- Truthiness of an optional string: `undefined` and `''` are falsy. -/
def truthy (v : Option JsString) : Bool :=
  match v with
  | none => false
  | some s => !s.isEmpty

/-- The tail `src="([^">]+)"` of the image pattern, tried at the start of `s`; gives the
capture. The class excludes the closing quote, so only the longest run can be followed by it. -/
def matchSrcAttr (s : JsString) : Option JsString :=
  if "src=\"".toList.isPrefixOf s then
    let rest := s.drop 5
    let capture := rest.takeWhile (fun c => c != '"' && c != '>')
    if capture ≠ [] ∧ (rest.drop capture.length).head? = some '"' then some capture else none
  else none

/-- The greedy `[^>]+` of the image pattern over the run `r`: the longest length `k`, from
`k` down to 1, after which the tail of the pattern matches. -/
def matchGreedy (r : JsString) : Nat → Option JsString
  | 0 => none
  | k + 1 =>
    match matchSrcAttr (r.drop (k + 1)) with
    | some capture => some capture
    | none => matchGreedy r k

/-- The pattern `/<img[^>]+src="([^">]+)"/` anchored at the start of `s`. -/
def matchImgAt (s : JsString) : Option JsString :=
  if "<img".toList.isPrefixOf s then
    let r := s.drop 4
    matchGreedy r (r.takeWhile (fun c => c != '>')).length
  else none

/-- The first capture group of `s.match(/<img[^>]+src="([^">]+)"/)`: the leftmost position at
which the pattern matches; `none` when `match` gives `null`. -/
def imgMatch : JsString → Option JsString
  | [] => none
  | c :: cs =>
    match matchImgAt (c :: cs) with
    | some capture => some capture
    | none => imgMatch cs

/-- The `imageUrl` of the `map` callback in `fetchPosts`, lines 92-106. -/
def deriveThumbnail (post : FeedItem) : Option JsString :=
  let imageUrl := post.thumbnail
  let imageUrl :=
    if !truthy imageUrl && truthy post.content then
      match imgMatch (post.content.getD []) with
      | some src => some src
      | none => imageUrl
    else imageUrl
  let imageUrl :=
    if !truthy imageUrl && truthy post.description then
      match imgMatch (post.description.getD []) with
      | some src => some src
      | none => imageUrl
    else imageUrl
  imageUrl

/-- The `map` callback of `fetchPosts`, lines 91-120. -/
def withImage (E : Engine) (post : FeedItem) : FeedPost :=
  { post with
    thumbnail := deriveThumbnail post
    tags := post.categories.getD []
    formattedDate := E.toLocaleDateString post.pubDate }

/-- The comparator `(a, b) => new Date(b.pubDate) - new Date(a.pubDate)`; `none` is `NaN`. -/
def compareFn (E : Engine) (a b : FeedItem) : Option Int :=
  match E.dateValue b.pubDate, E.dateValue a.pubDate with
  | some tb, some ta => some (tb - ta)
  | _, _ => none

/-- The order `Array.prototype.sort` derives from a comparator: `a` may stay before `b` when
the comparator's value is not positive; a `NaN` value counts as `+0`. -/
def sortBefore (cmp : α → α → Option Int) (a b : α) : Prop :=
  match cmp a b with
  | some v => v ≤ 0
  | none => True

instance (cmp : α → α → Option Int) : DecidableRel (sortBefore cmp) := fun a b => by
  unfold sortBefore
  cases cmp a b <;> infer_instance

/-- `Array.prototype.sort(cmp)`. ECMAScript requires a stable sort; the result for a consistent
comparator is therefore the one of the stable insertion sort used here. For a comparator that
is not consistent (here: some date is invalid) ECMAScript leaves the order to the engine, and
this definition gives one such order; only its being a permutation is common to all engines. -/
def jsSort (cmp : α → α → Option Int) (l : List α) : List α :=
  l.insertionSort (sortBefore cmp)

/-- `l.slice(0, k)` for an integer `k`; a negative `k` counts from the end. -/
def jsSlice0 (l : List α) (k : Int) : List α :=
  if k < 0 then l.take (l.length - k.natAbs) else l.take k.toNat

/-- `showCount || 10`: `undefined` and `0` are falsy. -/
def showCountOr10 (showCount : Option Int) : Int :=
  match showCount with
  | none => 10
  | some n => if n = 0 then 10 else n

/-- The blog configuration document `blog/main`, as far as the page reads it. -/
structure BlogConfig where
  mediumUsername : Option JsString
  showCount : Option Int
deriving DecidableEq

/-- The outcome of `axios.get(feedUrl)`. -/
inductive FeedResponse where
  | threw (message : JsString)
  | data (status : JsString) (items : List FeedItem)

/-- A pending `setTimeout` of the search effect: its due time and the values its callback
closes over. -/
structure Timer where
  due : Nat
  posts : List FeedPost
  searchQuery : JsString
  showCount : Option Int
deriving DecidableEq

/-- One execution of the timer callback (a filter computation): when it ran and the query it
used. -/
structure Computation where
  firedAt : Nat
  query : JsString
deriving DecidableEq

/-- The state of `BlogPage`: its `useState` cells, the pending timer of the search effect and
the record of the filter computations executed so far. -/
structure BlogPageState where
  blogConfig : Option BlogConfig
  posts : List FeedPost
  filteredPosts : List FeedPost
  isLoading : Bool
  error : Option JsString
  mediumUrl : JsString
  searchQuery : JsString
  isSearching : Bool
  timer : Option Timer
  computations : List Computation
deriving DecidableEq

/-- The state at mount: the initial values of the `useState` cells. -/
def BlogPageState.initial : BlogPageState :=
  { blogConfig := none, posts := [], filteredPosts := [], isLoading := true, error := none,
    mediumUrl := [], searchQuery := [], isSearching := false, timer := none,
    computations := [] }

/-- Function `fetchPosts`, from the response on (lines 87-131). -/
def fetchPosts (E : Engine) (response : FeedResponse) (showCount : Option Int)
    (st : BlogPageState) : BlogPageState :=
  match response with
  | .threw message =>
    { st with error := some ("Yazıları getirme hatası: ".toList ++ message), isLoading := false }
  | .data status items =>
    if status = "ok".toList then
      let sortedPosts := jsSort (compareFn E) items
      let postsWithImages := sortedPosts.map (withImage E)
      { st with
        posts := postsWithImages
        filteredPosts := jsSlice0 postsWithImages (showCountOr10 showCount)
        isLoading := false }
    else
      { st with error := some "Medium yazılarını çekerken hata oluştu.".toList, isLoading := false }

/-- An exception raised by the engine. -/
inductive JsError where
  | typeError
deriving DecidableEq

/-- `s.includes(sub)`. -/
def jsIncludes (s sub : JsString) : Bool := decide (sub <:+: s)

/-- The predicate of the search filter, lines 141-144. Reading `toLowerCase` of an absent
description raises a `TypeError`; `||` does not evaluate its right side when the title
matches. -/
def matchesQuery (E : Engine) (searchQuery : JsString) (post : FeedPost) : Except JsError Bool :=
  if jsIncludes (E.toLowerCase post.title) (E.toLowerCase searchQuery) then .ok true
  else
    match post.description with
    | none => .error .typeError
    | some d => .ok (jsIncludes (E.toLowerCase d) (E.toLowerCase searchQuery))

/-- `Array.prototype.filter` with a callback that may throw: elements are visited in order
and the first exception ends the call. -/
def filterE (f : α → Except JsError Bool) : List α → Except JsError (List α)
  | [] => .ok []
  | a :: as =>
    match f a with
    | .error e => .error e
    | .ok keep =>
      match filterE f as with
      | .error e => .error e
      | .ok rest => .ok (if keep then a :: rest else rest)

/-- The body of the timer callback up to `setFilteredPosts` (lines 138-147): the list it
computes, or the exception that ends it. -/
def searchFilter (E : Engine) (posts : List FeedPost) (searchQuery : JsString)
    (showCount : Option Int) : Except JsError (List FeedPost) :=
  let filtered :=
    if searchQuery ≠ [] then filterE (matchesQuery E searchQuery) posts else .ok posts
  match filtered with
  | .error e => .error e
  | .ok filtered => .ok (jsSlice0 filtered (showCountOr10 showCount))

/-- The search effect (lines 135-152) run at time `now`: the cleanup of the previous run
clears its timer, then `setIsSearching(true)` and a new timer due 300 ms later. -/
def searchEffect (now : Nat) (st : BlogPageState) : BlogPageState :=
  { st with
    isSearching := true
    timer := some
      { due := now + 300, posts := st.posts, searchQuery := st.searchQuery,
        showCount := st.blogConfig.bind (fun c => c.showCount) } }

/-- The events of the search step model. -/
inductive SearchEvent where
  /-- The input's `onChange` at time `t`: `setSearchQuery(q)`. -/
  | queryChange (t : Nat) (q : JsString)
  /-- The event loop looks at the timers at time `t`. -/
  | timerFire (t : Nat)
deriving DecidableEq

/-- One step of the search model. A `setSearchQuery` with the current value does not re-render,
so the effect (whose dependencies are unchanged) does not run again. A timer runs its callback
once it is due: on success `setFilteredPosts` and `setIsSearching(false)`, on an exception
neither. -/
def searchStep (E : Engine) (st : BlogPageState) : SearchEvent → BlogPageState
  | .queryChange t q =>
    if q = st.searchQuery then st else searchEffect t { st with searchQuery := q }
  | .timerFire t =>
    match st.timer with
    | none => st
    | some tm =>
      if tm.due ≤ t then
        let st1 := { st with
          timer := none
          computations := st.computations ++ [{ firedAt := t, query := tm.searchQuery }] }
        match searchFilter E tm.posts tm.searchQuery tm.showCount with
        | .ok filtered => { st1 with filteredPosts := filtered, isSearching := false }
        | .error _ => st1
      else st

/-- Runs a sequence of events. -/
def searchRun (E : Engine) (st : BlogPageState) (events : List SearchEvent) : BlogPageState :=
  events.foldl (searchStep E) st

/-- The timestamp used as sort key; only read for valid dates. -/
def sortKey (E : Engine) (a : FeedItem) : Int := (E.dateValue a.pubDate).getD 0

/-- The time of an event. -/
def SearchEvent.time : SearchEvent → Nat
  | .queryChange t _ => t
  | .timerFire t => t

/-- The events that continue a burst whose latest change, to the query `q`, came at time `tc`,
the clock being at `now`: time does not go back, and every further change alters the query
and arrives less than 300 ms after the change before it. -/
def isBurst (tc now : Nat) (q : JsString) : List SearchEvent → Prop
  | [] => True
  | .queryChange t q' :: es => now ≤ t ∧ t < tc + 300 ∧ q' ≠ q ∧ isBurst t t q' es
  | .timerFire t :: es => now ≤ t ∧ isBurst tc t q es

instance decidableIsBurst : ∀ (es : List SearchEvent) (tc now : Nat) (q : JsString),
    Decidable (isBurst tc now q es)
  | [], _, _, _ => isTrue trivial
  | .queryChange t q' :: es, tc, now, q =>
    have := decidableIsBurst es t t q'
    inferInstanceAs (Decidable (now ≤ t ∧ t < tc + 300 ∧ q' ≠ q ∧ isBurst t t q' es))
  | .timerFire t :: es, tc, now, q =>
    have := decidableIsBurst es tc t q
    inferInstanceAs (Decidable (now ≤ t ∧ isBurst tc t q es))

/-- The time and the query of the last change of a burst. -/
def lastChange (tc : Nat) (q : JsString) : List SearchEvent → Nat × JsString
  | [] => (tc, q)
  | .queryChange t q' :: es => lastChange t q' es
  | .timerFire _ :: es => lastChange tc q es

/-- The times of the timer events of a trace that are not before `d`. -/
def firesFrom (d : Nat) : List SearchEvent → List Nat
  | [] => []
  | .queryChange _ _ :: es => firesFrom d es
  | .timerFire t :: es => if d ≤ t then t :: firesFrom d es else firesFrom d es

/-- An engine for the examples: dates are written as milliseconds in decimal digits, the
formatted date is the text itself, lower-casing is the one of the ASCII letters. -/
def exampleEngine : Engine :=
  { dateValue := fun s =>
      if s ≠ [] ∧ s.all Char.isDigit then
        some (Int.ofNat (s.foldl (fun n c => 10 * n + (c.toNat - 48)) 0))
      else none
    toLocaleDateString := fun s => s
    toLowerCase := fun s => s.map Char.toLower }

/-- A feed item with the given title, date and description and nothing else. -/
def exampleItem (title pubDate : String) (description : Option String) : FeedItem :=
  { title := title.toList, link := [], pubDate := pubDate.toList, thumbnail := none,
    content := none, description := description.map String.toList, categories := none }

/-- The spec's match: the title or the description (when there is one) contains the query,
both lower-cased. -/
def specMatches (E : Engine) (q : JsString) (post : FeedPost) : Bool :=
  jsIncludes (E.toLowerCase post.title) (E.toLowerCase q)
    || (match post.description with
        | some d => jsIncludes (E.toLowerCase d) (E.toLowerCase q)
        | none => false)

/-- The spec's search: filter the fetched sequence by the query when there is one, then
truncate to `n`. -/
def specSearch (E : Engine) (posts : List FeedPost) (q : JsString) (n : Int) : List FeedPost :=
  jsSlice0 (if q ≠ [] then posts.filter (specMatches E q) else posts) n

/-- The page once the configuration (with `showCount`) and the feed have arrived and the
search effect has run for them at time `now`. -/
def loadedPage (E : Engine) (items : List FeedItem) (showCount : Int) (now : Nat) :
    BlogPageState :=
  searchEffect now (fetchPosts E (.data "ok".toList items) (some showCount)
    { BlogPageState.initial with
      blogConfig := some { mediumUsername := some "user".toList, showCount := some showCount } })

/-- Four further changes 50 ms apart after a first one at time 0, then timer events 299 ms,
300 ms and 700 ms after the last change. -/
def exampleBurst : List SearchEvent :=
  [.queryChange 50 "re".toList, .queryChange 100 "rea".toList, .queryChange 150 "reac".toList,
    .queryChange 200 "react".toList, .timerFire 499, .timerFire 500, .timerFire 900]

/-- A feed of three items; the second has no description. -/
def exampleFeed : List FeedItem :=
  [exampleItem "ab" "3000" (some "zz"), exampleItem "Hello" "2000" none,
    exampleItem "xylophone" "1000" (some "music")]

/-- The coherence of a page state with the fetched sequence `P` and the configured count:
a pending timer closes over `P`, the current query and the count; with no timer pending the
displayed list is the spec's search for the current query. -/
def Coherent (E : Engine) (P : List FeedPost) (showCount : Option Int) (st : BlogPageState) :
    Prop :=
  st.posts = P ∧ st.blogConfig.bind (fun c => c.showCount) = showCount
  ∧ match st.timer with
    | some tm => tm.posts = P ∧ tm.searchQuery = st.searchQuery ∧ tm.showCount = showCount
    | none => st.filteredPosts = specSearch E P st.searchQuery (showCountOr10 showCount)

/-- The words of the image pattern: `s` holds `<img`, at least one character other than `>`,
`src="`, the non-empty capture `u` free of `"` and `>`, and a closing `"`. -/
def HasImgSrc (s u : JsString) : Prop :=
  ∃ pre a post : JsString,
    s = pre ++ "<img".toList ++ a ++ "src=\"".toList ++ u ++ '"' :: post
    ∧ a ≠ [] ∧ '>' ∉ a ∧ u ≠ [] ∧ ∀ c ∈ u, c ≠ '"' ∧ c ≠ '>'

/-! ## Content schemas (`zod`) -/

/-- A JavaScript number: `NaN`, the infinities, or a finite value. -/
inductive JsNumber where
  | nan
  | posInf
  | negInf
  | finite (q : ℚ)
deriving DecidableEq

/-- Comparison `x < k` of a number with a finite bound; false for `NaN`. -/
def JsNumber.ltRat (x : JsNumber) (k : ℚ) : Bool :=
  match x with
  | .nan => false
  | .posInf => false
  | .negInf => true
  | .finite q => decide (q < k)

/-- Comparison `x > k` of a number with a finite bound; false for `NaN`. -/
def JsNumber.gtRat (x : JsNumber) (k : ℚ) : Bool :=
  match x with
  | .nan => false
  | .posInf => true
  | .negInf => false
  | .finite q => decide (k < q)

/-- Comparison `x ≤ y` of two numbers; false when either is `NaN`. -/
def JsNumber.le (x y : JsNumber) : Bool :=
  match x, y with
  | .nan, _ => false
  | _, .nan => false
  | .negInf, _ => true
  | _, .posInf => true
  | .finite a, .finite b => decide (a ≤ b)
  | _, _ => false

/-- A value a form field or a stored field can hold. -/
inductive JsValue where
  | undefined
  | null
  | bool (b : Bool)
  | number (x : JsNumber)
  | string (s : JsString)
deriving DecidableEq

/-- The issue codes of `zod` that these schemas can produce. -/
inductive IssueCode where
  | invalid_type
  | too_small
  | too_big
  | invalid_string
  | invalid_union
deriving DecidableEq

/-- A validation issue: the field it is on, its code, and the message when the schema gives
one (otherwise the library's default text). -/
structure Issue where
  path : String
  code : IssueCode
  message : Option String
deriving DecidableEq

/-- The issues of a field result. -/
def issuesOf : Except (List Issue) α → List Issue
  | .ok _ => []
  | .error issues => issues

/-- Schema `z.string().min(1, message)`. -/
def zStringMin1 (path message : String) (v : JsValue) : Except (List Issue) JsString :=
  match v with
  | .string s =>
    if s.length < 1 then .error [{ path := path, code := .too_small, message := some message }]
    else .ok s
  | _ => .error [{ path := path, code := .invalid_type, message := none }]

/-- Schema `z.number().min(lo, loMessage).max(hi, hiMessage)`: a number other than `NaN`;
both checks are evaluated. -/
def zNumberMinMax (path : String) (lo : ℚ) (loMessage : String) (hi : ℚ) (hiMessage : String)
    (v : JsValue) : Except (List Issue) JsNumber :=
  match v with
  | .number .nan => .error [{ path := path, code := .invalid_type, message := none }]
  | .number x =>
    let issues :=
      (if x.ltRat lo then [{ path := path, code := .too_small, message := some loMessage }]
        else [])
      ++ (if x.gtRat hi then [{ path := path, code := .too_big, message := some hiMessage }]
        else [])
    if issues = [] then .ok x else .error issues
  | _ => .error [{ path := path, code := .invalid_type, message := none }]

/-- Schema `z.number()`: a number other than `NaN`. -/
def zNumber (path : String) (v : JsValue) : Except (List Issue) JsNumber :=
  match v with
  | .number .nan => .error [{ path := path, code := .invalid_type, message := none }]
  | .number x => .ok x
  | _ => .error [{ path := path, code := .invalid_type, message := none }]

/-- Schema `z.boolean()`. -/
def zBoolean (path : String) (v : JsValue) : Except (List Issue) Bool :=
  match v with
  | .bool b => .ok b
  | _ => .error [{ path := path, code := .invalid_type, message := none }]

/-- Schema `z.string().optional()`. -/
def zStringOptional (path : String) (v : JsValue) : Except (List Issue) (Option JsString) :=
  match v with
  | .undefined => .ok none
  | .string s => .ok (some s)
  | _ => .error [{ path := path, code := .invalid_type, message := none }]

/-- Schema `z.string().url(message).optional().or(z.literal(''))`: `undefined` passes the
first option, a well-formed URL too, the empty string passes the second; another string
fails with the `url` issue of the first option, another value fails both options. -/
def zUrlOptionalOrEmpty (isUrl : JsString → Bool) (path message : String) (v : JsValue) :
    Except (List Issue) (Option JsString) :=
  match v with
  | .undefined => .ok none
  | .string s =>
    if isUrl s then .ok (some s)
    else if s = [] then .ok (some [])
    else .error [{ path := path, code := .invalid_string, message := some message }]
  | _ => .error [{ path := path, code := .invalid_union, message := none }]

/-- The values of the blog settings form. -/
structure BlogInput where
  heading : JsValue
  description : JsValue
  mediumUsername : JsValue
  showCount : JsValue
  showProfile : JsValue
  showTags : JsValue
  enableSearch : JsValue
  heroImage : JsValue

/-- The parsed blog settings. -/
structure BlogData where
  heading : JsString
  description : JsString
  mediumUsername : JsString
  showCount : JsNumber
  showProfile : Bool
  showTags : Bool
  enableSearch : Bool
  heroImage : Option JsString
deriving DecidableEq

/-- Schema `blogSchema` of `Blog.jsx`, lines 12-21: every field is checked and the issues of
all fields are collected in the order of the keys. -/
def blogSchema (isUrl : JsString → Bool) (input : BlogInput) : Except (List Issue) BlogData :=
  let heading := zStringMin1 "heading" "Başlık gereklidir" input.heading
  let description := zStringMin1 "description" "Açıklama gereklidir" input.description
  let mediumUsername :=
    zStringMin1 "mediumUsername" "Medium kullanıcı adı gereklidir" input.mediumUsername
  let showCount := zNumberMinMax "showCount" 1 "En az 1 yazı gösterilmelidir" 50
    "En fazla 50 yazı gösterilebilir" input.showCount
  let showProfile := zBoolean "showProfile" input.showProfile
  let showTags := zBoolean "showTags" input.showTags
  let enableSearch := zBoolean "enableSearch" input.enableSearch
  let heroImage := zUrlOptionalOrEmpty isUrl "heroImage" "Geçerli bir resim URL\x27si giriniz"
    input.heroImage
  match heading, description, mediumUsername, showCount, showProfile, showTags, enableSearch,
    heroImage with
  | .ok h, .ok d, .ok u, .ok n, .ok p, .ok t, .ok e, .ok img =>
    .ok { heading := h, description := d, mediumUsername := u, showCount := n,
          showProfile := p, showTags := t, enableSearch := e, heroImage := img }
  | _, _, _, _, _, _, _, _ =>
    .error (issuesOf heading ++ issuesOf description ++ issuesOf mediumUsername
      ++ issuesOf showCount ++ issuesOf showProfile ++ issuesOf showTags
      ++ issuesOf enableSearch ++ issuesOf heroImage)

/-- A URL test for the examples: the text starts with `http://` or `https://`. -/
def exampleIsUrl (s : JsString) : Bool :=
  "http://".toList.isPrefixOf s || "https://".toList.isPrefixOf s

/-! ## `Projects.jsx`: the project editor -/

/-- The values of the project form. -/
structure ProjectInput where
  title : JsValue
  description : JsValue
  githubUrl : JsValue
  demoUrl : JsValue
  technologies : JsValue

/-- The parsed project form: the `data` passed to `onSubmit`. -/
structure ProjectFormData where
  title : JsString
  description : JsString
  githubUrl : Option JsString
  demoUrl : Option JsString
  technologies : Option JsString
deriving DecidableEq

/-- Schema `projectSchema` of `Projects.jsx`, lines 17-23. -/
def projectSchema (isUrl : JsString → Bool) (input : ProjectInput) :
    Except (List Issue) ProjectFormData :=
  let title := zStringMin1 "title" "Başlık gereklidir" input.title
  let description := zStringMin1 "description" "Açıklama gereklidir" input.description
  let githubUrl := zUrlOptionalOrEmpty isUrl "githubUrl"
    "Geçerli bir GitHub URL\x27si giriniz" input.githubUrl
  let demoUrl := zUrlOptionalOrEmpty isUrl "demoUrl"
    "Geçerli bir demo URL\x27si giriniz" input.demoUrl
  let technologies := zStringOptional "technologies" input.technologies
  match title, description, githubUrl, demoUrl, technologies with
  | .ok t, .ok d, .ok g, .ok l, .ok tech =>
    .ok { title := t, description := d, githubUrl := g, demoUrl := l, technologies := tech }
  | _, _, _, _, _ =>
    .error (issuesOf title ++ issuesOf description ++ issuesOf githubUrl ++ issuesOf demoUrl
      ++ issuesOf technologies)

/-- The document `onSubmit` writes: `{ ...data, technologies, imageUrl, updatedAt }`, with
`createdAt` added for a new project. -/
structure ProjectData where
  title : JsString
  description : JsString
  githubUrl : Option JsString
  demoUrl : Option JsString
  technologies : List JsString
  imageUrl : JsValue
  updatedAt : JsString
  createdAt : Option JsString
deriving DecidableEq

/-- A call the editor makes on the document store or the blob store. -/
inductive RepoCall where
  /-- `uploadBytes(ref(storage, path), file)`. -/
  | uploadBytes (path : JsString)
  /-- `getDownloadURL(ref(storage, path))`. -/
  | getDownloadURL (path : JsString)
  /-- `addDoc(collection(db, c), data)`. -/
  | createDocument (collection : JsString) (data : ProjectData)
  /-- `updateDoc(doc(db, c, id), data)`. -/
  | updateDocument (collection id : JsString) (data : ProjectData)
  /-- `getDocs(collection(db, c))`. -/
  | listDocuments (collection : JsString)
deriving DecidableEq

/-- Whether a call writes a new document. -/
def RepoCall.isCreate : RepoCall → Bool
  | .createDocument _ _ => true
  | _ => false

/-- Whether a call updates a document. -/
def RepoCall.isUpdate : RepoCall → Bool
  | .updateDocument _ _ _ => true
  | _ => false

/-- Whether a call goes to the blob store. -/
def RepoCall.isBlob : RepoCall → Bool
  | .uploadBytes _ => true
  | .getDownloadURL _ => true
  | _ => false

/-- What the environment answers during one submission: the clock and whether the awaited
calls are fulfilled. -/
structure SubmitEnv where
  /-- `Date.now()` as text. -/
  nowMillis : JsString
  /-- `new Date().toISOString()`. -/
  nowIso : JsString
  /-- Whether `uploadBytes` is fulfilled. -/
  uploadOk : Bool
  /-- The URL `getDownloadURL` resolves to; `none` when it is rejected. -/
  downloadUrl : Option JsString
  /-- Whether the `addDoc` or `updateDoc` call is fulfilled. -/
  writeOk : Bool

/-- The project being edited, as far as `onSubmit` reads it. -/
structure SelectedProject where
  id : JsString
  imageUrl : JsValue
deriving DecidableEq

/-- The state of the project editor that `onSubmit` reads and writes. -/
structure ProjectsState where
  selectedProject : Option SelectedProject
  /-- The name of the chosen file, when one was chosen. -/
  uploadedImage : Option JsString
  imagePreview : Option JsString
  isModalOpen : Bool
  isLoading : Bool
deriving DecidableEq

/-- Function `uploadImage` for a chosen file: the calls made and the URL, `none` when one of
the awaited calls is rejected. -/
def uploadImage (env : SubmitEnv) (fileName : JsString) : List RepoCall × Option JsString :=
  let path := "projects/".toList ++ env.nowMillis ++ "_".toList ++ fileName
  if env.uploadOk then
    ([.uploadBytes path, .getDownloadURL path], env.downloadUrl)
  else ([.uploadBytes path], none)

/-- Function `onSubmit` of `Projects.jsx`, lines 85-132: the state after it and the calls it
made, in order. An exception in the `try` block skips to `catch` and `finally`. -/
def onSubmit (env : SubmitEnv) (st : ProjectsState) (data : ProjectFormData) :
    ProjectsState × List RepoCall :=
  let imageUrl : JsValue :=
    match st.selectedProject with
    | some project => project.imageUrl
    | none => .undefined
  let upload : List RepoCall × Option JsValue :=
    match st.uploadedImage with
    | some fileName =>
      let r := uploadImage env fileName
      (r.1, r.2.map JsValue.string)
    | none =>
      if st.selectedProject.isSome && !truthy st.imagePreview then ([], some .null)
      else ([], some imageUrl)
  match upload with
  | (calls, none) => ({ st with isLoading := false }, calls)
  | (calls, some imageUrl) =>
    let technologiesArray := technologiesArray data.technologies
    let projectData : ProjectData :=
      { title := data.title, description := data.description, githubUrl := data.githubUrl,
        demoUrl := data.demoUrl, technologies := technologiesArray, imageUrl := imageUrl,
        updatedAt := env.nowIso, createdAt := none }
    let write : RepoCall :=
      match st.selectedProject with
      | some project => .updateDocument "projects".toList project.id projectData
      | none => .createDocument "projects".toList { projectData with createdAt := some env.nowIso }
    if env.writeOk then
      ({ selectedProject := none, uploadedImage := none, imagePreview := none,
         isModalOpen := false, isLoading := false },
        calls ++ [write, .listDocuments "projects".toList])
    else ({ st with isLoading := false }, calls ++ [write])

/-- The result of pressing submit. -/
structure SubmitResult where
  state : ProjectsState
  errors : List Issue
  calls : List RepoCall

/-- The form's `handleSubmit(onSubmit)` with the `zodResolver(projectSchema)`: the values are
validated first; with issues, `onSubmit` is not called and the issues become the form errors. -/
def handleSubmit (isUrl : JsString → Bool) (env : SubmitEnv) (st : ProjectsState)
    (input : ProjectInput) : SubmitResult :=
  match projectSchema isUrl input with
  | .error issues => { state := st, errors := issues, calls := [] }
  | .ok data =>
    let r := onSubmit env st data
    { state := r.1, errors := [], calls := r.2 }

/-! ## `SocialMedia.jsx`: the social media editor -/

/-- An element of the `platforms` array. -/
structure Platform where
  name : JsString
  url : JsString
  icon : JsString
  order : JsNumber
deriving DecidableEq

/-- The outcome of `getDoc`: rejected, no such document, or the document's data. -/
inductive FetchOutcome (α : Type) where
  | threw
  | absent
  | found (data : α)

/-- The state of the editor: the `useState` cells and the `platforms` value of the form. -/
structure SocialMediaState where
  isLoading : Bool
  platforms : List Platform
  formPlatforms : List Platform
deriving DecidableEq

/-- Function `fetchSocialMedia`, lines 36-51; the argument is the `platforms` field of the
document, `none` when the field is missing. -/
def fetchSocialMedia (outcome : FetchOutcome (Option (List Platform))) (st : SocialMediaState) :
    SocialMediaState :=
  match outcome with
  | .found platforms =>
    { isLoading := false, platforms := platforms.getD [], formPlatforms := platforms.getD [] }
  | .absent => { st with isLoading := false }
  | .threw => { st with isLoading := false }

/-- The cards of `platforms.map((platform, index) => ...)`, lines 99-165, in the order they are
rendered: each card has its index as key and shows, through the inputs registered under
`platforms.${index}`, the form's value at that index. -/
def renderPlatforms (st : SocialMediaState) : List (Nat × Option Platform) :=
  st.platforms.enum.map (fun ip => (ip.1, st.formPlatforms[ip.1]?))

/-- The spec's display order: the platforms sorted ascending by `order`, stably. -/
def specPlatformOrder (platforms : List Platform) : List Platform :=
  platforms.insertionSort (fun a b => a.order.le b.order = true)

/-- The image upload of a submission does not fail: no file was chosen, or both awaited calls
of `uploadImage` are fulfilled. -/
def uploadSucceeds (env : SubmitEnv) (st : ProjectsState) : Prop :=
  st.uploadedImage = none ∨ (env.uploadOk = true ∧ env.downloadUrl.isSome = true)

instance (env : SubmitEnv) (st : ProjectsState) : Decidable (uploadSucceeds env st) :=
  inferInstanceAs (Decidable (st.uploadedImage = none
    ∨ (env.uploadOk = true ∧ env.downloadUrl.isSome = true)))

/-- A valid project form for the examples. -/
def exampleProjectInput : ProjectInput :=
  { title := .string "Site".toList, description := .string "A portfolio".toList,
    githubUrl := .string [], demoUrl := .string "https://example.org".toList,
    technologies := .string "React,  Tailwind CSS ,Firebase".toList }

/-- The editor with the modal open for a new project and the given chosen file. -/
def exampleNewProject (file : Option String) : ProjectsState :=
  { selectedProject := none, uploadedImage := file.map String.toList, imagePreview := none,
    isModalOpen := true, isLoading := false }

/-- Two stored platforms, the one with the larger `order` first. -/
def examplePlatforms : List Platform :=
  [{ name := "GitHub".toList, url := "https://github.com/u".toList, icon := "fa-github".toList,
     order := .finite 2 },
   { name := "LinkedIn".toList, url := "https://linkedin.com/in/u".toList,
     icon := "fa-linkedin".toList, order := .finite 1 }]

/-- The environment of the examples: every awaited call is fulfilled. -/
def exampleEnv : SubmitEnv :=
  { nowMillis := "1700000000000".toList, nowIso := "2023-11-14T22:13:20.000Z".toList,
    uploadOk := true, downloadUrl := some "https://cdn.example.org/logo.png".toList,
    writeOk := true }

/-- The parsed form of `exampleProjectInput`. -/
def exampleProjectData : ProjectFormData :=
  { title := "Site".toList, description := "A portfolio".toList, githubUrl := some [],
    demoUrl := some "https://example.org".toList,
    technologies := some "React,  Tailwind CSS ,Firebase".toList }

/-- A feed item without a thumbnail whose content and description both hold an image. -/
def exampleImageItem : FeedItem :=
  { title := "Post".toList, link := [], pubDate := "1000".toList, thumbnail := some [],
    content := some "<p>text</p><img alt=\"a\" src=\"https://cdn/content.png\">".toList,
    description := some "<img src=\"https://cdn/description.png\">".toList,
    categories := none }

/-- A valid blog settings form with the given `showCount`. -/
def exampleBlogInput (showCount : JsNumber) : BlogInput :=
  { heading := .string "Blog".toList, description := .string "Posts".toList,
    mediumUsername := .string "someone".toList, showCount := .number showCount,
    showProfile := .bool true, showTags := .bool true, enableSearch := .bool false,
    heroImage := .string [] }

/-- Whether a value is a non-empty string. -/
def JsValue.isNonEmptyString : JsValue → Bool
  | .string s => !s.isEmpty
  | _ => false

/-- Whether a value is absent (`undefined`), the empty string, or a well-formed URL. -/
def JsValue.isAbsentEmptyOrUrl (isUrl : JsString → Bool) : JsValue → Bool
  | .undefined => true
  | .string s => isUrl s || s.isEmpty
  | _ => false

/-- The value of an optional text field: `undefined` when absent. -/
def JsValue.ofOptionString : Option JsString → JsValue
  | none => .undefined
  | some s => .string s

/-! ## The list editors: `SocialMedia.jsx` and `Technologies.jsx` -/

/-- `list.filter((_, i) => i !== index)`. -/
def filterIndexNe (l : List α) (index : Nat) : List α :=
  (l.enum.filter (fun ip => ip.1 != index)).map Prod.snd

/-- The item `addPlatform` appends: `{ name: '', url: '', icon: '', order: platforms.length }`. -/
def blankPlatform (length : Nat) : Platform :=
  { name := [], url := [], icon := [], order := .finite length }

/-- Function `addPlatform` of `SocialMedia.jsx`, lines 66-70: the new list is built from the
`platforms` state and written to the state and, with `setValue`, to the form. -/
def addPlatform (st : SocialMediaState) : SocialMediaState :=
  let newPlatforms := st.platforms ++ [blankPlatform st.platforms.length]
  { st with platforms := newPlatforms, formPlatforms := newPlatforms }

/-- Function `removePlatform` of `SocialMedia.jsx`, lines 72-76. -/
def removePlatform (index : Nat) (st : SocialMediaState) : SocialMediaState :=
  let newPlatforms := filterIndexNe st.platforms index
  { st with platforms := newPlatforms, formPlatforms := newPlatforms }

/-- The operator types into the inputs registered under `platforms.${index}`: the form's value
at that index becomes `value`; the `platforms` state is not touched. -/
def editPlatform (index : Nat) (value : Platform) (st : SocialMediaState) : SocialMediaState :=
  { st with formPlatforms := st.formPlatforms.set index value }

/-- An element of the `categories` array. -/
structure Category where
  name : JsString
  technologies : List JsString
deriving DecidableEq

/-- The state of the technologies editor: the `useState` cells and the `categories` value of
the form. -/
structure TechnologiesState where
  isLoading : Bool
  categories : List Category
  formCategories : List Category
deriving DecidableEq

/-- Function `fetchTechnologies` of `Technologies.jsx`, lines 34-50; the argument is the
`categories` field of the document, `none` when the field is missing. -/
def fetchTechnologies (outcome : FetchOutcome (Option (List Category)))
    (st : TechnologiesState) : TechnologiesState :=
  match outcome with
  | .found categories =>
    { isLoading := false, categories := categories.getD [],
      formCategories := categories.getD [] }
  | .absent => { st with isLoading := false }
  | .threw => { st with isLoading := false }

/-- The item `addCategory` appends: `{ name: '', technologies: [''] }`. -/
def blankCategory : Category := { name := [], technologies := [[]] }

/-- Function `addCategory` of `Technologies.jsx`, lines 64-68. -/
def addCategory (st : TechnologiesState) : TechnologiesState :=
  let newCategories := st.categories ++ [blankCategory]
  { st with categories := newCategories, formCategories := newCategories }

/-- Function `removeCategory` of `Technologies.jsx`, lines 70-74. -/
def removeCategory (index : Nat) (st : TechnologiesState) : TechnologiesState :=
  let newCategories := filterIndexNe st.categories index
  { st with categories := newCategories, formCategories := newCategories }

/-- Function `addTechnology` of `Technologies.jsx`, lines 76-81: `''` is pushed on the
technologies of the category at `categoryIndex`; reading a category that is not there raises a
`TypeError`. -/
def addTechnology (categoryIndex : Nat) (st : TechnologiesState) :
    Except JsError TechnologiesState :=
  match st.categories[categoryIndex]? with
  | none => .error .typeError
  | some category =>
    let newCategories := st.categories.set categoryIndex
      { category with technologies := category.technologies ++ [[]] }
    .ok { st with categories := newCategories, formCategories := newCategories }

/-- The operator types into the inputs registered under `categories.${index}`: only the form's
value changes. -/
def editCategory (index : Nat) (value : Category) (st : TechnologiesState) :
    TechnologiesState :=
  { st with formCategories := st.formCategories.set index value }

/-- The path of a field of an array element, as the form names it: `array.index.field`. -/
def elementPath (array : String) (index : Nat) (field : String) : String :=
  array ++ "." ++ toString index ++ field

/-- Schema `z.array(element)` from index `start` on: every element is parsed, the issues of
all elements are collected in order. -/
def zArrayFrom (element : Nat → ι → Except (List Issue) ο) (start : Nat) :
    List ι → Except (List Issue) (List ο)
  | [] => .ok []
  | x :: xs =>
    match element start x, zArrayFrom element (start + 1) xs with
    | .ok v, .ok vs => .ok (v :: vs)
    | r, rs => .error (issuesOf r ++ issuesOf rs)

/-- Schema `z.array(element)`. -/
def zArray (element : Nat → ι → Except (List Issue) ο) (l : List ι) :
    Except (List Issue) (List ο) :=
  zArrayFrom element 0 l

/-- Schema `z.string()`. -/
def zString (path : String) (v : JsValue) : Except (List Issue) JsString :=
  match v with
  | .string s => .ok s
  | _ => .error [{ path := path, code := .invalid_type, message := none }]

/-- Schema `z.string().url(message)`. -/
def zStringUrl (isUrl : JsString → Bool) (path message : String) (v : JsValue) :
    Except (List Issue) JsString :=
  match v with
  | .string s =>
    if isUrl s then .ok s
    else .error [{ path := path, code := .invalid_string, message := some message }]
  | _ => .error [{ path := path, code := .invalid_type, message := none }]

/-- The values of one platform card of the form. -/
structure PlatformInput where
  name : JsValue
  url : JsValue
  icon : JsValue
  order : JsValue

/-- The element schema of `socialMediaSchema`, for the element at `index`. -/
def platformSchema (isUrl : JsString → Bool) (index : Nat) (input : PlatformInput) :
    Except (List Issue) Platform :=
  let name := zStringMin1 (elementPath "platforms" index ".name") "Platform adı gereklidir"
    input.name
  let url := zStringUrl isUrl (elementPath "platforms" index ".url") "Geçerli bir URL giriniz"
    input.url
  let icon := zStringMin1 (elementPath "platforms" index ".icon") "İkon gereklidir" input.icon
  let order := zNumber (elementPath "platforms" index ".order") input.order
  match name, url, icon, order with
  | .ok n, .ok u, .ok i, .ok o => .ok { name := n, url := u, icon := i, order := o }
  | _, _, _, _ => .error (issuesOf name ++ issuesOf url ++ issuesOf icon ++ issuesOf order)

/-- Schema `socialMediaSchema` of `SocialMedia.jsx`, lines 12-19, on the `platforms` array. -/
def socialMediaSchema (isUrl : JsString → Bool) (platforms : List PlatformInput) :
    Except (List Issue) (List Platform) :=
  zArray (platformSchema isUrl) platforms

/-- The values of one category card of the form. -/
structure CategoryInput where
  name : JsValue
  technologies : List JsValue

/-- Schema `z.array(z.string()).min(1, message)` at `path`: the length check and the elements
are both evaluated. -/
def zStringArrayMin1 (path message : String) (l : List JsValue) :
    Except (List Issue) (List JsString) :=
  let tooSmall : List Issue :=
    if l.length < 1 then [{ path := path, code := .too_small, message := some message }]
    else []
  match zArray (fun i v => zString (path ++ "." ++ toString i) v) l with
  | .ok vs => if tooSmall = [] then .ok vs else .error tooSmall
  | .error issues => .error (tooSmall ++ issues)

/-- The element schema of `technologySchema`, for the element at `index`. -/
def categorySchema (index : Nat) (input : CategoryInput) : Except (List Issue) Category :=
  let name := zStringMin1 (elementPath "categories" index ".name") "Kategori adı gereklidir"
    input.name
  let technologies := zStringArrayMin1 (elementPath "categories" index ".technologies")
    "En az bir teknoloji giriniz" input.technologies
  match name, technologies with
  | .ok n, .ok t => .ok { name := n, technologies := t }
  | _, _ => .error (issuesOf name ++ issuesOf technologies)

/-- Schema `technologySchema` of `Technologies.jsx`, lines 12-17, on the `categories` array. -/
def technologySchema (categories : List CategoryInput) : Except (List Issue) (List Category) :=
  zArray categorySchema categories

/-- The form's values of a platform, as the schema receives them. -/
def Platform.toInput (p : Platform) : PlatformInput :=
  { name := .string p.name, url := .string p.url, icon := .string p.icon,
    order := .number p.order }

/-- The form's values of a category, as the schema receives them. -/
def Category.toInput (c : Category) : CategoryInput :=
  { name := .string c.name, technologies := c.technologies.map JsValue.string }

/-- What the environment answers during one submission of a list editor. -/
structure EditorEnv where
  /-- Whether the `updateDoc` call reaches the store. -/
  updateFulfilled : Bool
  /-- Whether the `getDoc` call of the re-fetch is fulfilled. -/
  fetchFulfilled : Bool

/-- The document of a list editor in the store: `none` when it does not exist, otherwise its
array field (`none` when the field is missing). -/
abbrev StoredDoc (α : Type) := Option (Option (List α))

/-- A call a list editor makes on the document store. -/
inductive EditorCall (α : Type) where
  /-- `updateDoc(doc(db, collection, id), { [field]: value })`. -/
  | updateDocument (collection id field : JsString) (value : List α)
  /-- `getDoc(doc(db, collection, id))`. -/
  | getDocument (collection id : JsString)
deriving DecidableEq

/-- Whether a call is an update. -/
def EditorCall.isUpdate : EditorCall α → Bool
  | .updateDocument _ _ _ _ => true
  | .getDocument _ _ => false

/-- The store's `updateDoc`: it overwrites the array field of an existing document; it is
rejected when the document does not exist or the call fails. Gives the store after the call
and whether the call was fulfilled. -/
def storeUpdate (env : EditorEnv) (store : StoredDoc α) (value : List α) : StoredDoc α × Bool :=
  match store with
  | some _ => if env.updateFulfilled then (some (some value), true) else (store, false)
  | none => (store, false)

/-- The store's `getDoc`. -/
def storeGet (env : EditorEnv) (store : StoredDoc α) : FetchOutcome (Option (List α)) :=
  if env.fetchFulfilled then
    match store with
    | some field => .found field
    | none => .absent
  else .threw

/-- The result of a submission of a list editor. -/
structure EditorResult (σ α : Type) where
  state : σ
  store : StoredDoc α
  calls : List (EditorCall α)
  errors : List Issue

/-- Function `onSubmit` of `SocialMedia.jsx`, lines 53-64. -/
def SocialMedia.onSubmit (env : EditorEnv) (store : StoredDoc Platform) (st : SocialMediaState)
    (platforms : List Platform) : EditorResult SocialMediaState Platform :=
  let update : EditorCall Platform :=
    .updateDocument "socialMedia".toList "main".toList "platforms".toList platforms
  match storeUpdate env store platforms with
  | (store', true) =>
    { state := fetchSocialMedia (storeGet env store') st, store := store',
      calls := [update, .getDocument "socialMedia".toList "main".toList], errors := [] }
  | (store', false) => { state := st, store := store', calls := [update], errors := [] }

/-- The form's `handleSubmit(onSubmit)` of `SocialMedia.jsx` with the
`zodResolver(socialMediaSchema)`. -/
def SocialMedia.handleSubmit (isUrl : JsString → Bool) (env : EditorEnv)
    (store : StoredDoc Platform) (st : SocialMediaState) :
    EditorResult SocialMediaState Platform :=
  match socialMediaSchema isUrl (st.formPlatforms.map Platform.toInput) with
  | .error issues => { state := st, store := store, calls := [], errors := issues }
  | .ok platforms => SocialMedia.onSubmit env store st platforms

/-- Function `onSubmit` of `Technologies.jsx`, lines 52-62. -/
def Technologies.onSubmit (env : EditorEnv) (store : StoredDoc Category)
    (st : TechnologiesState) (categories : List Category) :
    EditorResult TechnologiesState Category :=
  let update : EditorCall Category :=
    .updateDocument "technologies".toList "main".toList "categories".toList categories
  match storeUpdate env store categories with
  | (store', true) =>
    { state := fetchTechnologies (storeGet env store') st, store := store',
      calls := [update, .getDocument "technologies".toList "main".toList], errors := [] }
  | (store', false) => { state := st, store := store', calls := [update], errors := [] }

/-- The form's `handleSubmit(onSubmit)` of `Technologies.jsx` with the
`zodResolver(technologySchema)`. -/
def Technologies.handleSubmit (env : EditorEnv) (store : StoredDoc Category)
    (st : TechnologiesState) : EditorResult TechnologiesState Category :=
  match technologySchema (st.formCategories.map Category.toInput) with
  | .error issues => { state := st, store := store, calls := [], errors := issues }
  | .ok categories => Technologies.onSubmit env store st categories

/-- A stored platform with the given name. -/
def examplePlatform (name : String) : Platform :=
  { name := name.toList, url := "https://github.com/u".toList, icon := "fa-github".toList,
    order := .finite 0 }

/-- The spec's submit of a list editor, for the valid array `submitted`: exactly one update,
on the editor's document, setting the array field to the entire array; when it is fulfilled the
document is re-fetched, the store holds the submitted array and the local list becomes the
fetched array (it stays as it was when the re-fetch is rejected); when the update fails there
is no re-fetch and neither the local state nor the store changes. -/
def SubmitSpec (collection field : String) (env : EditorEnv) (store : StoredDoc α)
    (submitted : List α) (items : σ → List α) (before : σ) (r : EditorResult σ α) : Prop :=
  r.calls.filter EditorCall.isUpdate
      = [.updateDocument collection.toList "main".toList field.toList submitted]
  ∧ (store.isSome = true ∧ env.updateFulfilled = true →
      r.calls = [.updateDocument collection.toList "main".toList field.toList submitted,
        .getDocument collection.toList "main".toList]
      ∧ r.store = some (some submitted)
      ∧ (env.fetchFulfilled = true → items r.state = submitted)
      ∧ (env.fetchFulfilled = false → items r.state = items before))
  ∧ (¬ (store.isSome = true ∧ env.updateFulfilled = true) →
      r.calls = [.updateDocument collection.toList "main".toList field.toList submitted]
      ∧ r.state = before ∧ r.store = store)

/-- The social media editor after loading one platform named `GitHub`. -/
def exampleSocialLoaded : SocialMediaState :=
  fetchSocialMedia (.found (some [examplePlatform "GitHub"]))
    { isLoading := true, platforms := [], formPlatforms := [] }

/-- A category with the given name and the one technology `React`. -/
def exampleCategory (name : String) : Category :=
  { name := name.toList, technologies := ["React".toList] }

/-- The technologies editor after loading one category named `Frontend`. -/
def exampleTechnologiesLoaded : TechnologiesState :=
  fetchTechnologies (.found (some [exampleCategory "Frontend"]))
    { isLoading := true, categories := [], formCategories := [] }

/-- The environment of the editor examples: every call is fulfilled. -/
def exampleEditorEnv : EditorEnv := { updateFulfilled := true, fetchFulfilled := true }

/-! ## The mount of the public pages -/

/-- The outcome of the `getDoc` of the blog configuration. -/
inductive ConfigOutcome where
  | threw (message : JsString)
  | absent
  | found (configData : BlogConfig)

/-- Function `fetchConfig` of `BlogPage.jsx`, lines 52-74; `feed` is what `axios.get` answers
when `fetchPosts` is reached. -/
def fetchConfig (E : Engine) (config : ConfigOutcome) (feed : FeedResponse)
    (st : BlogPageState) : BlogPageState :=
  match config with
  | .found configData =>
    let st := { st with blogConfig := some configData }
    if truthy configData.mediumUsername then
      fetchPosts E feed configData.showCount
        { st with
          mediumUrl := "https://medium.com/@".toList ++ configData.mediumUsername.getD [] }
    else
      { st with error := some "Firebase\x27de Medium kullanıcı adı tanımlanmamış.".toList }
  | .absent => { st with error := some "Firebase\x27de blog konfigürasyonu bulunamadı.".toList }
  | .threw message =>
    { st with error := some ("Konfigürasyon getirme hatası: ".toList ++ message) }

/-- What `BlogPage` renders. -/
inductive BlogView where
  | skeleton
  | error (message : JsString)
  | page (shown : List FeedPost)
deriving DecidableEq

/-- The render of `BlogPage`, lines 155-208: the skeleton while `isLoading`, else the error
view when an error is set, else the page. -/
def blogPageView (st : BlogPageState) : BlogView :=
  if st.isLoading then .skeleton
  else if truthy st.error then .error (st.error.getD [])
  else .page st.filteredPosts

/-- The state of a public page that shows one document. -/
structure DocPageState (δ : Type) where
  content : Option δ
  isLoading : Bool
deriving DecidableEq

/-- The state of such a page at mount. -/
def DocPageState.initial : DocPageState δ := { content := none, isLoading := true }

/-- Function `fetchContent` of `AboutPage.jsx`, lines 162-177. -/
def AboutPage.fetchContent (outcome : FetchOutcome δ) (st : DocPageState δ) : DocPageState δ :=
  match outcome with
  | .found data => { content := some data, isLoading := false }
  | .absent => { st with isLoading := false }
  | .threw => { st with isLoading := false }

/-- Function `fetchContactData` of `ContactPage.jsx`, lines 204-220. -/
def ContactPage.fetchContactData (outcome : FetchOutcome δ) (st : DocPageState δ) :
    DocPageState δ :=
  match outcome with
  | .found data => { content := some data, isLoading := false }
  | .absent => { st with isLoading := false }
  | .threw => { st with isLoading := false }

/-- The state of `ProjectsPage`; `ρ` is the type of the records `{ id: doc.id, ...doc.data() }`. -/
structure ProjectsPageState (ρ : Type) where
  projects : List ρ
  loading : Bool
deriving DecidableEq

/-- Function `fetchProjects` of `ProjectsPage.jsx`, lines 14-27; `docs` is the list of the
documents (id and data) of the snapshot, `none` when `getDocs` is rejected; `mkRecord` builds
`{ id: doc.id, ...doc.data() }`. -/
def ProjectsPage.fetchProjects (mkRecord : JsString → δ → ρ) (docs : Option (List (JsString × δ)))
    (st : ProjectsPageState ρ) : ProjectsPageState ρ :=
  match docs with
  | some docs => { projects := docs.map (fun d => mkRecord d.1 d.2), loading := false }
  | none => { st with loading := false }

/-- The state of `ProjectDetail`, with the calls of `navigate` made so far. -/
structure ProjectDetailState (ρ : Type) where
  project : Option ρ
  loading : Bool
  navigations : List JsString
deriving DecidableEq

/-- Function `fetchProject` of `ProjectDetail.jsx`, lines 23-38, for the path parameter `id`. -/
def ProjectDetail.fetchProject (mkRecord : JsString → δ → ρ) (id : JsString)
    (outcome : FetchOutcome δ) (st : ProjectDetailState ρ) : ProjectDetailState ρ :=
  match outcome with
  | .found data => { st with project := some (mkRecord id data), loading := false }
  | .absent =>
    { st with navigations := st.navigations ++ ["/projects".toList], loading := false }
  | .threw => { st with loading := false }

/-- The state of `HeroSection`; `technologies` is `none` for the empty value (`[]` at mount,
`{}` for an absent document). -/
structure HeroSectionState (δh δt : Type) where
  content : Option δh
  technologies : Option δt
  projectCount : Nat
  isLoading : Bool
deriving DecidableEq

/-- Function `fetchData` of `HeroSection.jsx`, lines 117-143: the three fetches are awaited in
turn inside one `try`, the three setters run after the last one; `projects` is the size of the
`projects` snapshot, `none` when `getDocs` is rejected. -/
def HeroSection.fetchData (home : FetchOutcome δh) (projects : Option Nat)
    (tech : FetchOutcome δt) (st : HeroSectionState δh δt) : HeroSectionState δh δt :=
  let homeData : Option (Option δh) :=
    match home with
    | .found data => some (some data)
    | .absent => some none
    | .threw => none
  let techData : Option (Option δt) :=
    match tech with
    | .found data => some (some data)
    | .absent => some none
    | .threw => none
  match homeData, projects, techData with
  | some homeData, some projectCount, some techData =>
    { content := homeData, technologies := techData, projectCount := projectCount,
      isLoading := false }
  | _, _, _ => { st with isLoading := false }

/-! ## Documents as field mappings -/

/-- A field value of a stored document: a scalar, or a sequence of strings. -/
inductive FieldValue where
  | scalar (v : JsValue)
  | list (items : List JsString)
deriving DecidableEq

/-- An object as the list of its own properties, in insertion order; the keys are distinct. -/
abbrev Fields := List (JsString × FieldValue)

/-- Property write `object[key] = value`: a key the object has keeps its place, a new key goes
to the end. -/
def setProperty : Fields → JsString → FieldValue → Fields
  | [], key, value => [(key, value)]
  | (k, v) :: rest, key, value =>
    if k = key then (key, value) :: rest else (k, v) :: setProperty rest key value

/-- Spread `{ ...target, ...source }`: the properties of `source` are written in turn. -/
def objectSpread (target source : Fields) : Fields :=
  source.foldl (fun acc kv => setProperty acc kv.1 kv.2) target

/-- The record `{ id: doc.id, ...doc.data() }` of `ProjectsPage.jsx` lines 18-21,
`ProjectDetail.jsx` line 29 and `Projects.jsx` lines 47-50. -/
def projectRecord (id : JsString) (data : Fields) : Fields :=
  objectSpread [("id".toList, .scalar (.string id))] data

/-- The cells of the admin project list that `fetchProjects` writes. -/
structure ProjectListState where
  projects : List Fields
  isLoading : Bool
  error : Option JsString
deriving DecidableEq

/-- Function `fetchProjects` of `Projects.jsx`, lines 42-61; `docs` is `none` when `getDocs` is
rejected. -/
def Projects.fetchProjects (docs : Option (List (JsString × Fields))) (st : ProjectListState) :
    ProjectListState :=
  match docs with
  | some docs =>
    { st with projects := docs.map (fun doc => projectRecord doc.1 doc.2), isLoading := false }
  | none =>
    { st with error := some "Projeler yüklenirken bir hata oluştu.".toList, isLoading := false }

/-- The state of `ProjectsPage` at mount. -/
def ProjectsPageState.initial : ProjectsPageState ρ := { projects := [], loading := true }

/-- The state of `ProjectDetail` at mount. -/
def ProjectDetailState.initial : ProjectDetailState ρ :=
  { project := none, loading := true, navigations := [] }

/-- What `ProjectDetail` renders. -/
inductive ProjectDetailView (ρ : Type) where
  | skeleton
  /-- The render of `null`: nothing on the page. -/
  | blank
  | page (project : ρ)
deriving DecidableEq

/-- The render of `ProjectDetail.jsx`, lines 44-61: the skeleton while loading, then `null`
when there is no project. -/
def projectDetailView (st : ProjectDetailState ρ) : ProjectDetailView ρ :=
  if st.loading then .skeleton
  else
    match st.project with
    | none => .blank
    | some project => .page project

/-- The mount effect of `ProjectDetail.jsx`, lines 22-42: the document references it asks
`getDoc` for, and the state when it has settled. -/
def ProjectDetail.mount (getDoc : JsString → JsString → FetchOutcome Fields) (id : JsString)
    (st : ProjectDetailState Fields) : List (JsString × JsString) × ProjectDetailState Fields :=
  let docRef : JsString × JsString := ("projects".toList, id)
  ([docRef], ProjectDetail.fetchProject projectRecord id (getDoc docRef.1 docRef.2) st)

/-- A stored project document whose data has a field named `id`. -/
def exampleDocWithId : Fields :=
  [("id".toList, .scalar (.string "other".toList)),
   ("title".toList, .scalar (.string "Site".toList))]

/-- A stored project document without a field named `id`. -/
def exampleDoc : Fields :=
  [("title".toList, .scalar (.string "Site".toList)),
   ("techStack".toList, .list ["React".toList, "Vite".toList])]

/-! ## `HeroSection.jsx`: the figures of the stat cards -/

/-- The state of `HeroSection` at mount. -/
def HeroSectionState.initial : HeroSectionState δh δt :=
  { content := none, technologies := none, projectCount := 0, isLoading := true }

/-- The outcome of `getDoc` for a document with the data `data`, absent when there is none. -/
def FetchOutcome.ofData : Option α → FetchOutcome α
  | some data => .found data
  | none => .absent

/-- A technology of the catalog's mapping shape: `{ name, icon }`. -/
structure TechItem where
  name : JsString
  icon : JsString
deriving DecidableEq

/-- A field value of the document `technologies/main`. -/
inductive TechValue where
  /-- An array of `{ name, icon }`: the value of a category in the mapping shape. -/
  | items (technologies : List TechItem)
  /-- An array of `{ name, technologies }`: the `categories` field the admin editor writes. -/
  | categories (categories : List Category)
  /-- A value that is not an array. -/
  | scalar (v : JsValue)
deriving DecidableEq

/-- The data of the document `technologies/main`: its fields in order. -/
abbrev TechDoc := List (JsString × TechValue)

/-- `Array.isArray(category) ? category.length : 0`. -/
def TechValue.arrayLength : TechValue → Nat
  | .items array => array.length
  | .categories array => array.length
  | .scalar _ => 0

/-- `totalTechnologies` of `HeroSection.jsx`, lines 147-151: the lengths of the array values of
the object are added up; the empty value (`none`) has no values. -/
def totalTechnologies (technologies : Option TechDoc) : Nat :=
  match technologies with
  | some technologies =>
    (technologies.map Prod.snd).foldl (fun total category => total + category.arrayLength) 0
  | none => 0

/-- The catalog in its mapping shape: a field per category, holding its technologies. -/
def catalogOfMapping (mapping : List (JsString × List TechItem)) : TechDoc :=
  mapping.map (fun category => (category.1, .items category.2))

/-- The catalog in its `categories` shape: what `onSubmit` of `Technologies.jsx` writes. -/
def catalogOfCategories (categories : List Category) : TechDoc :=
  [("categories".toList, .categories categories)]

/-- What `getDoc(doc(db, 'technologies', 'main'))` answers for the document the technologies
editor keeps in the store. -/
def techDocOfStore (store : StoredDoc Category) : FetchOutcome TechDoc :=
  match store with
  | none => .absent
  | some none => .found []
  | some (some categories) => .found (catalogOfCategories categories)

/-- Two categories holding three technologies. -/
def exampleCategories : List Category :=
  [{ name := "Frontend".toList, technologies := ["React".toList, "Vue".toList] },
   { name := "Backend".toList, technologies := ["Node".toList] }]

/-! ## `ThemeContext.jsx` -/

/-- The initial value of `isDarkMode`, lines 6-13: `savedTheme` is what
`localStorage.getItem('theme')` gives (`none` for `null`), `prefersDark` the match of the
media query `(prefers-color-scheme: dark)`. -/
def initialDarkMode (savedTheme : Option JsString) (prefersDark : Bool) : Bool :=
  if truthy savedTheme then decide (savedTheme = some "dark".toList) else prefersDark

/-- What the provider writes in the browser: the saved theme and whether the root element has
the class `dark`. -/
structure ThemeBrowser where
  savedTheme : Option JsString
  darkClass : Bool
deriving DecidableEq

/-- The effect on `isDarkMode`, lines 15-24. -/
def themeEffect (isDarkMode : Bool) (_browser : ThemeBrowser) : ThemeBrowser :=
  if isDarkMode then { savedTheme := some "dark".toList, darkClass := true }
  else { savedTheme := some "light".toList, darkClass := false }

/-- Function `toggleTheme`, lines 26-28. -/
def toggleTheme (isDarkMode : Bool) : Bool := !isDarkMode

/-! ## `Projects.jsx`: opening a project in the editor -/

/-- `array.join(separator)`. -/
def jsJoin (separator : JsString) (array : List JsString) : JsString :=
  separator.intercalate array

/-- The `technologies` value `handleEdit` resets the form to, line 138:
`project.technologies ? project.technologies.join(', ') : ''`; `none` is a project without the
field. An empty array is truthy. -/
def handleEditTechnologies (technologies : Option (List JsString)) : JsString :=
  match technologies with
  | some technologies => jsJoin ", ".toList technologies
  | none => []

/-- Function `handleEdit` of `Projects.jsx`, lines 134-142, for a listed project with the
given `technologies`: the state after it and the `technologies` value of the form. -/
def handleEdit (project : SelectedProject) (technologies : Option (List JsString))
    (st : ProjectsState) : ProjectsState × JsString :=
  ({ st with
     selectedProject := some project
     imagePreview :=
       match project.imageUrl with
       | .string url => some url
       | _ => none
     isModalOpen := true },
    handleEditTechnologies technologies)

/-! ## The project document, from the admin editor to the public pages -/

/-- The property for an optional string of the form data: none when the value is absent. -/
def optionalField (key : String) (value : Option JsString) : Fields :=
  match value with
  | some v => [(key.toList, .scalar (.string v))]
  | none => []

/-- The fields of the document `onSubmit` writes (`Projects.jsx`, lines 99-104 and 110-113):
the keys of the form data, `technologies`, `imageUrl`, `updatedAt` and, for a new project,
`createdAt`. -/
def ProjectData.toFields (doc : ProjectData) : Fields :=
  [("title".toList, .scalar (.string doc.title)),
   ("description".toList, .scalar (.string doc.description))]
    ++ optionalField "githubUrl" doc.githubUrl ++ optionalField "demoUrl" doc.demoUrl
    ++ [("technologies".toList, .list doc.technologies), ("imageUrl".toList, .scalar doc.imageUrl),
        ("updatedAt".toList, .scalar (.string doc.updatedAt))]
    ++ optionalField "createdAt" doc.createdAt

/-- The data of a document write. -/
def RepoCall.written : RepoCall → Option ProjectData
  | .createDocument _ data => some data
  | .updateDocument _ _ data => some data
  | _ => none

/-- The tags of a project card of `ProjectsPage.jsx`, lines 80-93: the chips
`project.techStack?.slice(0, 3).map(...)` and the number on the `+k` badge, shown when
`project.techStack?.length > 3`. A value other than an array, `null` or `undefined` has no
`slice(...).map` to call. -/
def ProjectsPage.techStackChips (project : Fields) :
    Except JsError (List JsString × Option Nat) :=
  match project.lookup "techStack".toList with
  | some (.list techStack) =>
    .ok (techStack.take 3, if techStack.length > 3 then some (techStack.length - 3) else none)
  | none => .ok ([], none)
  | some (.scalar .undefined) => .ok ([], none)
  | some (.scalar .null) => .ok ([], none)
  | some (.scalar _) => .error .typeError

/-- The tags of `ProjectDetail.jsx`, lines 99-108: `project.techStack?.map(...)`. -/
def ProjectDetail.techStackChips (project : Fields) : Except JsError (List JsString) :=
  match project.lookup "techStack".toList with
  | some (.list techStack) => .ok techStack
  | none => .ok []
  | some (.scalar .undefined) => .ok []
  | some (.scalar .null) => .ok []
  | some (.scalar _) => .error .typeError

/-- Two well-formed tags. -/
def exampleTags : List JsString := ["React".toList, "Tailwind CSS".toList]

/-! ## The sort of `fetchPosts` and the engine -/

/-- ECMAScript's consistent comparator for the values `S`: the value is never `NaN`; `=` (value
0) is reflexive, symmetric and transitive; `<` (negative value) and `>` (positive value) are
transitive. -/
def ConsistentComparator (cmp : α → α → Option Int) (S : List α) : Prop :=
  (∀ a ∈ S, ∀ b ∈ S, ∃ v, cmp a b = some v)
  ∧ (∀ a ∈ S, cmp a a = some 0)
  ∧ (∀ a ∈ S, ∀ b ∈ S, cmp a b = some 0 → cmp b a = some 0)
  ∧ (∀ a ∈ S, ∀ b ∈ S, ∀ c ∈ S, cmp a b = some 0 → cmp b c = some 0 → cmp a c = some 0)
  ∧ (∀ a ∈ S, ∀ b ∈ S, ∀ c ∈ S, ∀ v w, cmp a b = some v → cmp b c = some w → v < 0 → w < 0 →
      ∃ u, cmp a c = some u ∧ u < 0)
  ∧ (∀ a ∈ S, ∀ b ∈ S, ∀ c ∈ S, ∀ v w, cmp a b = some v → cmp b c = some w → 0 < v → 0 < w →
      ∃ u, cmp a c = some u ∧ 0 < u)

/-- The number an engine's sort takes from the comparator: a `NaN` value counts as 0. -/
def sortCompare (cmp : α → α → Option Int) (a b : α) : Int := (cmp a b).getD 0

/-- The scan for the initial run: the elements that continue it, and the rest. An ascending run
goes on while the next element does not compare below the previous one, a descending run while
it does. -/
def takeRun (cmp : α → α → Option Int) (descending : Bool) (previous : α) :
    List α → List α × List α
  | [] => ([], [])
  | x :: xs =>
    let order := sortCompare cmp x previous
    if (if descending then decide (order < 0) else decide (0 ≤ order)) then
      let r := takeRun cmp descending x xs
      (x :: r.1, r.2)
    else ([], x :: xs)

/-- The initial run of the array, put in ascending order (a strictly descending run is
reversed), and the elements after it. -/
def countAndMakeRun (cmp : α → α → Option Int) : List α → List α × List α
  | [] => ([], [])
  | [x] => ([x], [])
  | x0 :: x1 :: xs =>
    let descending := decide (sortCompare cmp x1 x0 < 0)
    let r := takeRun cmp descending x1 xs
    let run := x0 :: x1 :: r.1
    (if descending then run.reverse else run, r.2)

/-- The binary search for the place of `pivot` in the sorted `run` between `left` and `right`:
the left half is taken when `pivot` compares below the middle element. The interval halves at
every step, so `run.length + 1` steps are enough. -/
def binarySearch (cmp : α → α → Option Int) (pivot : α) (run : List α) : Nat → Nat → Nat → Nat
  | 0, left, _ => left
  | fuel + 1, left, right =>
    if left < right then
      let mid := left + (right - left) / 2
      match run[mid]? with
      | some x =>
        if sortCompare cmp pivot x < 0 then binarySearch cmp pivot run fuel left mid
        else binarySearch cmp pivot run fuel (mid + 1) right
      | none => left
    else left

/-- One step of the binary insertion sort: `pivot` is put at its place in `run`. -/
def binaryInsert (cmp : α → α → Option Int) (run : List α) (pivot : α) : List α :=
  let place := binarySearch cmp pivot run (run.length + 1) 0 run.length
  run.take place ++ pivot :: run.drop place

/-- The `Array.prototype.sort` of an engine that sorts a short array the way V8 does (an array
of fewer than 64 elements is a single run): the initial run is found, then every further
element is inserted by binary search. -/
def shortArraySort (cmp : α → α → Option Int) (l : List α) : List α :=
  let r := countAndMakeRun cmp l
  r.2.foldl (binaryInsert cmp) r.1

/-- Function `fetchPosts` (lines 87-131) with the engine's `Array.prototype.sort` as the
parameter `sort`; `fetchPosts` is this function at `jsSort`. -/
def fetchPostsWith (sort : (FeedItem → FeedItem → Option Int) → List FeedItem → List FeedItem)
    (E : Engine) (response : FeedResponse) (showCount : Option Int) (st : BlogPageState) :
    BlogPageState :=
  match response with
  | .threw message =>
    { st with error := some ("Yazıları getirme hatası: ".toList ++ message), isLoading := false }
  | .data status items =>
    if status = "ok".toList then
      let sortedPosts := sort (compareFn E) items
      let postsWithImages := sortedPosts.map (withImage E)
      { st with
        posts := postsWithImages
        filteredPosts := jsSlice0 postsWithImages (showCountOr10 showCount)
        isLoading := false }
    else
      { st with error := some "Medium yazılarını çekerken hata oluştu.".toList, isLoading := false }

/-- A feed of seven items; the fourth has an invalid date, the fifth (`a`) and the seventh (`b`)
carry the same date. -/
def exampleFeedInvalidDate : List FeedItem :=
  [exampleItem "q" "1" none, exampleItem "m" "1" none, exampleItem "m2" "1" none,
    exampleItem "n" "soon" none, exampleItem "a" "5" none, exampleItem "z" "9" none,
    exampleItem "b" "5" none]

/-! # Theorems -/

example : technologiesArray (some "React,  Tailwind CSS ,Firebase".toList)
    = ["React".toList, "Tailwind CSS".toList, "Firebase".toList] := by decide

example : technologiesArray (some " , ,,a b,".toList) = ["a b".toList] := by decide

/-! ### Facts about `split`, `trim` -/

theorem jsSplitComma_ne_nil (s : JsString) : jsSplitComma s ≠ [] := by
  cases s with
  | nil => simp [jsSplitComma]
  | cons c cs =>
    simp only [jsSplitComma]
    split
    · simp
    · split <;> simp

theorem comma_not_mem_jsSplitComma (s : JsString) : ∀ seg ∈ jsSplitComma s, ',' ∉ seg := by
  induction s with
  | nil => simp [jsSplitComma]
  | cons c cs ih =>
    intro seg hseg
    simp only [jsSplitComma] at hseg
    split at hseg
    · rcases List.mem_cons.1 hseg with h | h
      · simp [h]
      · exact ih seg h
    · rename_i hc
      split at hseg
      · rename_i hnil
        exact absurd hnil (jsSplitComma_ne_nil cs)
      · rename_i seg0 segs heq
        rcases List.mem_cons.1 hseg with h | h
        · subst h
          have h0 := ih seg0 (by rw [heq]; exact List.mem_cons_self _ _)
          intro hmem
          rcases List.mem_cons.1 hmem with h1 | h1
          · exact hc h1.symm
          · exact h0 h1
        · exact ih seg (by rw [heq]; exact List.mem_cons_of_mem _ h)

theorem intercalate_jsSplitComma (s : JsString) : [','].intercalate (jsSplitComma s) = s := by
  induction s with
  | nil => simp [jsSplitComma, List.intercalate]
  | cons c cs ih =>
    simp only [jsSplitComma]
    split
    · rename_i hc
      have hne := jsSplitComma_ne_nil cs
      cases hsp : jsSplitComma cs with
      | nil => exact absurd hsp hne
      | cons seg segs =>
        rw [hsp] at ih
        rw [← ih, hc]
        simp [List.intercalate, List.intersperse]
    · cases hsp : jsSplitComma cs with
      | nil => exact absurd hsp (jsSplitComma_ne_nil cs)
      | cons seg segs =>
        rw [hsp] at ih
        rw [← ih]
        cases segs <;> simp [List.intercalate, List.intersperse]

/-- The hand-written scan agrees with the library's `splitOn`. -/
theorem jsSplitComma_eq_splitOn (s : JsString) : jsSplitComma s = s.splitOn ',' := by
  have h := List.splitOn_intercalate (jsSplitComma s) ',' (comma_not_mem_jsSplitComma s) (jsSplitComma_ne_nil s)
  rw [intercalate_jsSplitComma] at h
  exact h.symm

theorem jsTrim_sublist (s : JsString) : (jsTrim s).Sublist s := by
  unfold jsTrim
  have h1 : ((s.dropWhile isJsWhiteSpace).reverse.dropWhile isJsWhiteSpace).Sublist
      (s.dropWhile isJsWhiteSpace).reverse := List.dropWhile_sublist _
  have h2 := List.reverse_sublist.2 h1
  rw [List.reverse_reverse] at h2
  exact h2.trans (List.dropWhile_sublist _)

theorem jsTrim_head (s : JsString) (c : Char) (h : (jsTrim s).head? = some c) :
    isJsWhiteSpace c = false := by
  have hpre : jsTrim s <+: s.dropWhile isJsWhiteSpace := by
    unfold jsTrim
    exact List.rdropWhile_prefix _ _
  obtain ⟨t, ht⟩ := hpre
  cases hj : jsTrim s with
  | nil => rw [hj] at h; simp at h
  | cons a as =>
    rw [hj] at h ht
    simp only [List.head?_cons, Option.some.injEq] at h
    subst h
    have hd : (s.dropWhile isJsWhiteSpace).head? = some a := by rw [← ht]; rfl
    have := List.head?_dropWhile_not isJsWhiteSpace s
    rw [hd] at this
    simpa using this

theorem jsTrim_getLast (s : JsString) (c : Char) (h : (jsTrim s).getLast? = some c) :
    isJsWhiteSpace c = false := by
  have hne : List.rdropWhile isJsWhiteSpace (s.dropWhile isJsWhiteSpace) ≠ [] := by
    intro h0
    have : jsTrim s = [] := h0
    rw [this] at h
    simp at h
  have hl := List.rdropWhile_last_not isJsWhiteSpace (s.dropWhile isJsWhiteSpace) hne
  have hc : (jsTrim s).getLast? = some
      ((List.rdropWhile isJsWhiteSpace (s.dropWhile isJsWhiteSpace)).getLast hne) :=
    List.getLast?_eq_getLast _ hne
  rw [hc] at h
  simp only [Option.some.injEq] at h
  rw [← h]
  simpa using hl

/-- C1: the tags `onSubmit` persists for a `technologies` string are the comma-separated
segments, trimmed, without the empty ones, in their order; so each tag is non-empty, free of
commas and of leading and trailing white space; an absent or empty string gives no tags; and
`"React,  Tailwind CSS ,Firebase"` gives `React`, `Tailwind CSS`, `Firebase`. -/
theorem technologiesArray_normalised (s : JsString) :
    technologiesArray (some s) = specTags s
    ∧ (∀ t ∈ technologiesArray (some s), t ≠ [] ∧ ',' ∉ t
        ∧ (∀ c, t.head? = some c → isJsWhiteSpace c = false)
        ∧ (∀ c, t.getLast? = some c → isJsWhiteSpace c = false))
    ∧ technologiesArray none = [] ∧ technologiesArray (some []) = []
    ∧ technologiesArray (some "React,  Tailwind CSS ,Firebase".toList)
        = ["React".toList, "Tailwind CSS".toList, "Firebase".toList] := by
  refine ⟨?_, ?_, rfl, rfl, by decide⟩
  · by_cases hs : s = []
    · subst hs; decide
    · simp only [technologiesArray, specTags, if_neg hs, jsSplitComma_eq_splitOn]
  · intro t ht
    by_cases hs : s = []
    · subst hs; simp [technologiesArray] at ht
    · simp only [technologiesArray, if_neg hs, List.mem_filter, List.mem_map] at ht
      obtain ⟨⟨seg, hseg, rfl⟩, hne⟩ := ht
      refine ⟨by simpa using hne, ?_, jsTrim_head seg, jsTrim_getLast seg⟩
      intro hmem
      exact comma_not_mem_jsSplitComma s seg hseg ((jsTrim_sublist seg).subset hmem)

/-! ### The newest-first sort of `fetchPosts` -/

theorem orderedInsert_congr {r r' : α → α → Prop} [DecidableRel r] [DecidableRel r'] (a : α) :
    ∀ l : List α, (∀ b ∈ l, r a b ↔ r' a b) → l.orderedInsert r a = l.orderedInsert r' a
  | [], _ => rfl
  | b :: l, h => by
    have hb := h b (List.mem_cons_self _ _)
    have ih := orderedInsert_congr a l (fun c hc => h c (List.mem_cons_of_mem _ hc))
    by_cases hr : r a b
    · simp [List.orderedInsert, hr, hb.1 hr]
    · have hr' : ¬ r' a b := fun h' => hr (hb.2 h')
      simp [List.orderedInsert, hr, hr', ih]

theorem insertionSort_congr {r r' : α → α → Prop} [DecidableRel r] [DecidableRel r'] :
    ∀ l : List α, (∀ a ∈ l, ∀ b ∈ l, r a b ↔ r' a b) → l.insertionSort r = l.insertionSort r'
  | [], _ => rfl
  | a :: l, h => by
    have ih := insertionSort_congr l
      (fun x hx y hy => h x (List.mem_cons_of_mem _ hx) y (List.mem_cons_of_mem _ hy))
    simp only [List.insertionSort]
    rw [ih]
    apply orderedInsert_congr
    intro b hb
    have hb' : b ∈ l := (List.perm_insertionSort r' l).subset hb
    exact h a (List.mem_cons_self _ _) b (List.mem_cons_of_mem _ hb')

theorem sortBefore_compareFn_iff (E : Engine) (a b : FeedItem)
    (ha : (E.dateValue a.pubDate).isSome) (hb : (E.dateValue b.pubDate).isSome) :
    sortBefore (compareFn E) a b ↔ sortKey E b ≤ sortKey E a := by
  obtain ⟨ta, hta⟩ := Option.isSome_iff_exists.1 ha
  obtain ⟨tb, htb⟩ := Option.isSome_iff_exists.1 hb
  simp [sortBefore, compareFn, sortKey, hta, htb]

theorem jsSort_perm (cmp : α → α → Option Int) (l : List α) : (jsSort cmp l).Perm l :=
  List.perm_insertionSort _ l

theorem jsSort_compareFn_sorted (E : Engine) (items : List FeedItem)
    (hvalid : ∀ it ∈ items, (E.dateValue it.pubDate).isSome) :
    (jsSort (compareFn E) items).Sorted (fun a b => sortKey E b ≤ sortKey E a) := by
  have hcongr : jsSort (compareFn E) items
      = items.insertionSort (fun a b => sortKey E b ≤ sortKey E a) :=
    insertionSort_congr items
      (fun a ha b hb => sortBefore_compareFn_iff E a b (hvalid a ha) (hvalid b hb))
  rw [hcongr]
  haveI : IsTotal FeedItem (fun a b => sortKey E b ≤ sortKey E a) := ⟨fun a b => le_total _ _⟩
  haveI : IsTrans FeedItem (fun a b => sortKey E b ≤ sortKey E a) :=
    ⟨fun a b c h1 h2 => le_trans h2 h1⟩
  exact List.sorted_insertionSort _ items

/-- C2: when every item of the feed has a valid publish date, the posts `fetchPosts` stores
are the feed's items in some permutation (each carried through the `map` callback) and every
post's publish date is at least the one of the post after it. -/
theorem fetchPosts_newest_first (E : Engine) (items : List FeedItem) (showCount : Option Int)
    (st : BlogPageState) (hvalid : ∀ it ∈ items, (E.dateValue it.pubDate).isSome) :
    let result := (fetchPosts E (.data "ok".toList items) showCount st).posts
    (∃ p : List FeedItem, p.Perm items ∧ result = p.map (withImage E))
    ∧ result.length = items.length
    ∧ ∀ i (h : i + 1 < result.length), ∃ ti tj : Int,
        E.dateValue (result.get ⟨i, Nat.lt_of_succ_lt h⟩).pubDate = some ti
        ∧ E.dateValue (result.get ⟨i + 1, h⟩).pubDate = some tj ∧ tj ≤ ti := by
  intro result
  have hres : result = (jsSort (compareFn E) items).map (withImage E) := by
    simp [result, fetchPosts]
  clear_value result
  subst hres
  refine ⟨⟨_, jsSort_perm _ items, rfl⟩, ?_, ?_⟩
  · rw [List.length_map]; exact (jsSort_perm _ items).length_eq
  · intro i h
    have hlen : (List.map (withImage E) (jsSort (compareFn E) items)).length
        = (jsSort (compareFn E) items).length := List.length_map _ _
    have h' : i + 1 < (jsSort (compareFn E) items).length := hlen ▸ h
    have hsorted := jsSort_compareFn_sorted E items hvalid
    have hrel := List.pairwise_iff_get.1 hsorted ⟨i, Nat.lt_of_succ_lt h'⟩ ⟨i + 1, h'⟩
      (by simp [Fin.lt_def])
    have hi := hvalid _ ((jsSort_perm (compareFn E) items).subset
      (List.get_mem _ i (Nat.lt_of_succ_lt h')))
    have hj := hvalid _ ((jsSort_perm (compareFn E) items).subset (List.get_mem _ (i + 1) h'))
    obtain ⟨ti, hti⟩ := Option.isSome_iff_exists.1 hi
    obtain ⟨tj, htj⟩ := Option.isSome_iff_exists.1 hj
    refine ⟨ti, tj, ?_, ?_, ?_⟩
    · simpa [withImage] using hti
    · simpa [withImage] using htj
    · simp only [List.get_eq_getElem] at hti htj hrel
      simpa [sortKey, hti, htj] using hrel

/-- C2 at a feed of three items given oldest first. -/
theorem fetchPosts_newest_first_witness :
    (∀ it ∈ [exampleItem "a" "1000" none, exampleItem "b" "3000" none,
        exampleItem "c" "2000" none], (exampleEngine.dateValue it.pubDate).isSome)
    ∧ (let result := (fetchPosts exampleEngine (.data "ok".toList
          [exampleItem "a" "1000" none, exampleItem "b" "3000" none,
            exampleItem "c" "2000" none]) none BlogPageState.initial).posts
      (∃ p : List FeedItem, p.Perm [exampleItem "a" "1000" none, exampleItem "b" "3000" none,
          exampleItem "c" "2000" none] ∧ result = p.map (withImage exampleEngine))
      ∧ result.length = [exampleItem "a" "1000" none, exampleItem "b" "3000" none,
          exampleItem "c" "2000" none].length
      ∧ ∀ i (h : i + 1 < result.length), ∃ ti tj : Int,
          exampleEngine.dateValue (result.get ⟨i, Nat.lt_of_succ_lt h⟩).pubDate = some ti
          ∧ exampleEngine.dateValue (result.get ⟨i + 1, h⟩).pubDate = some tj ∧ tj ≤ ti) :=
  ⟨by decide, fetchPosts_newest_first exampleEngine _ none BlogPageState.initial (by decide)⟩

example : ((fetchPosts exampleEngine (.data "ok".toList
    [exampleItem "a" "1000" none, exampleItem "b" "3000" none, exampleItem "c" "2000" none])
    none BlogPageState.initial).posts.map (fun p => p.title))
    = ["b".toList, "c".toList, "a".toList] := by decide

/-! ### The debounce of the search effect -/

theorem searchRun_cons (E : Engine) (st : BlogPageState) (e : SearchEvent)
    (es : List SearchEvent) : searchRun E st (e :: es) = searchRun E (searchStep E st e) es :=
  rfl

theorem lastChange_time_le : ∀ (es : List SearchEvent) (tc now : Nat) (q : JsString),
    tc ≤ now → isBurst tc now q es → tc ≤ (lastChange tc q es).1
  | [], _, _, _, _, _ => Nat.le_refl _
  | .queryChange t q' :: es, tc, now, q, hle, hb => by
    obtain ⟨h1, _, _, h4⟩ := hb
    exact Nat.le_trans (Nat.le_trans hle h1) (lastChange_time_le es t t q' (Nat.le_refl _) h4)
  | .timerFire t :: es, tc, now, q, hle, hb => by
    obtain ⟨h1, h2⟩ := hb
    exact lastChange_time_le es tc t q (Nat.le_trans hle h1) h2

/-- Once the timer has run and the quiet period is over, the trace holds no further change and
no further computation. -/
theorem searchRun_idle (E : Engine) : ∀ (es : List SearchEvent) (st : BlogPageState)
    (tc now : Nat) (q : JsString), st.timer = none → tc + 300 ≤ now → isBurst tc now q es →
    (searchRun E st es).computations = st.computations ∧ lastChange tc q es = (tc, q)
  | [], _, _, _, _, _, _, _ => ⟨rfl, rfl⟩
  | .queryChange t q' :: es, st, tc, now, q, _, hnow, hb => by
    obtain ⟨h1, h2, _, _⟩ := hb
    omega
  | .timerFire t :: es, st, tc, now, q, htimer, hnow, hb => by
    obtain ⟨h1, h2⟩ := hb
    have hstep : searchStep E st (.timerFire t) = st := by simp [searchStep, htimer]
    rw [searchRun_cons, hstep]
    exact searchRun_idle E es st tc t q htimer (Nat.le_trans hnow h1) h2

/-- While the timer of the latest change is pending: the computations a burst adds are the
single run of that timer at the first timer event not before its due time. -/
theorem searchRun_pending (E : Engine) : ∀ (es : List SearchEvent) (st : BlogPageState)
    (tm : Timer) (tc now : Nat) (q : JsString), st.timer = some tm → tm.due = tc + 300 →
    tm.searchQuery = q → st.searchQuery = q → tc ≤ now → isBurst tc now q es →
    (searchRun E st es).computations = st.computations
      ++ ((firesFrom ((lastChange tc q es).1 + 300) es).head?.toList.map
          (fun T => { firedAt := T, query := (lastChange tc q es).2 }))
  | [], _, _, _, _, _, _, _, _, _, _, _ => by simp [searchRun, firesFrom]
  | .queryChange t q' :: es, st, tm, tc, now, q, _, _, _, hq, _, hb => by
    obtain ⟨_, _, h3, h4⟩ := hb
    have hne : ¬ q' = st.searchQuery := by rw [hq]; exact h3
    rw [searchRun_cons]
    have hstep : searchStep E st (.queryChange t q')
        = searchEffect t { st with searchQuery := q' } := by simp [searchStep, hne]
    rw [hstep]
    have ih := searchRun_pending E es (searchEffect t { st with searchQuery := q' })
      { due := t + 300, posts := st.posts, searchQuery := q',
        showCount := st.blogConfig.bind (fun c => c.showCount) } t t q' rfl rfl rfl rfl
      (Nat.le_refl _) h4
    simpa [searchEffect, lastChange, firesFrom] using ih
  | .timerFire t :: es, st, tm, tc, now, q, htimer, hdue, htq, hq, hle, hb => by
    obtain ⟨h1, h2⟩ := hb
    rw [searchRun_cons]
    by_cases hfire : tm.due ≤ t
    · -- the timer runs now; nothing follows
      have hidle := fun s (hs : s.timer = none) =>
        searchRun_idle E es s tc t q hs (by omega) h2
      have hlast : lastChange tc q (.timerFire t :: es) = (tc, q) := by
        have := (hidle { st with timer := none } rfl).2
        simpa [lastChange] using this
      have hfrom : (firesFrom (tc + 300) (.timerFire t :: es)).head? = some t := by
        have : tc + 300 ≤ t := by omega
        simp [firesFrom, this]
      rw [hlast, hfrom]
      cases hres : searchFilter E tm.posts tm.searchQuery tm.showCount with
      | ok filtered =>
        have hstep : searchStep E st (.timerFire t) =
            { st with timer := none
                      computations := st.computations ++ [{ firedAt := t, query := tm.searchQuery }]
                      filteredPosts := filtered, isSearching := false } := by
          simp [searchStep, htimer, hfire, hres]
        rw [hstep, (hidle _ rfl).1]
        simp [htq]
      | error e =>
        have hstep : searchStep E st (.timerFire t) =
            { st with timer := none
                      computations := st.computations ++ [{ firedAt := t, query := tm.searchQuery }] } := by
          simp [searchStep, htimer, hfire, hres]
        rw [hstep, (hidle _ rfl).1]
        simp [htq]
    · have hstep : searchStep E st (.timerFire t) = st := by simp [searchStep, htimer, hfire]
      rw [hstep]
      have ih := searchRun_pending E es st tm tc t q htimer hdue htq hq (Nat.le_trans hle h1) h2
      have hk := lastChange_time_le es tc t q (Nat.le_trans hle h1) h2
      have hnot : ¬ (lastChange tc q es).1 + 300 ≤ t := by omega
      simpa [lastChange, firesFrom, hnot] using ih

theorem mem_firesFrom (d t : Nat) : ∀ es : List SearchEvent,
    t ∈ firesFrom d es ↔ SearchEvent.timerFire t ∈ es ∧ d ≤ t
  | [] => by simp [firesFrom]
  | .queryChange _ _ :: es => by simp [firesFrom, mem_firesFrom d t es]
  | .timerFire u :: es => by
    by_cases hu : d ≤ u
    · simp only [firesFrom, if_pos hu, List.mem_cons, mem_firesFrom d t es,
        SearchEvent.timerFire.injEq]
      constructor
      · rintro (h | h)
        · exact ⟨Or.inl h, h ▸ hu⟩
        · exact ⟨Or.inr h.1, h.2⟩
      · rintro ⟨h | h, h2⟩
        · exact Or.inl h
        · exact Or.inr ⟨h, h2⟩
    · simp only [firesFrom, if_neg hu, List.mem_cons, mem_firesFrom d t es,
        SearchEvent.timerFire.injEq]
      constructor
      · rintro ⟨h1, h2⟩
        exact ⟨Or.inr h1, h2⟩
      · rintro ⟨h | h, h2⟩
        · exact absurd (h ▸ h2) hu
        · exact ⟨h, h2⟩

/-- C4: a burst of query changes, each altering the query and arriving less than 300 ms after
the one before, whatever timer events are interleaved: the computations executed from the
first change on are at most one;
it is the run of the last change's timer, at the first timer event that is at least 300 ms
after the last change, and it uses the last query; when the trace holds such a timer event
there is exactly one. No timer of an earlier change (or pending before the burst) runs. -/
theorem debounce_single_computation (E : Engine) (st : BlogPageState) (t1 : Nat)
    (q1 : JsString) (es : List SearchEvent) (hq : q1 ≠ st.searchQuery)
    (hb : isBurst t1 t1 q1 es) :
    ∃ new : List Computation,
      (searchRun E st (.queryChange t1 q1 :: es)).computations = st.computations ++ new
      ∧ new = (firesFrom ((lastChange t1 q1 es).1 + 300) es).head?.toList.map
          (fun T => { firedAt := T, query := (lastChange t1 q1 es).2 })
      ∧ new.length ≤ 1
      ∧ (∀ c ∈ new, c.query = (lastChange t1 q1 es).2
          ∧ (lastChange t1 q1 es).1 + 300 ≤ c.firedAt)
      ∧ ((∃ t, SearchEvent.timerFire t ∈ es ∧ (lastChange t1 q1 es).1 + 300 ≤ t)
          → new.length = 1) := by
  refine ⟨_, ?_, rfl, ?_, ?_, ?_⟩
  · rw [searchRun_cons]
    have hstep : searchStep E st (.queryChange t1 q1)
        = searchEffect t1 { st with searchQuery := q1 } := by simp [searchStep, hq]
    rw [hstep]
    have h := searchRun_pending E es (searchEffect t1 { st with searchQuery := q1 })
      { due := t1 + 300, posts := st.posts, searchQuery := q1,
        showCount := st.blogConfig.bind (fun c => c.showCount) } t1 t1 q1 rfl rfl rfl rfl
      (Nat.le_refl _) hb
    simpa [searchEffect] using h
  · cases (firesFrom ((lastChange t1 q1 es).1 + 300) es).head? <;> simp
  · intro c hc
    cases hh : (firesFrom ((lastChange t1 q1 es).1 + 300) es).head? with
    | none => simp [hh] at hc
    | some T =>
      simp only [hh, Option.toList_some, List.map_cons, List.map_nil, List.mem_singleton] at hc
      subst hc
      exact ⟨rfl, ((mem_firesFrom _ T es).1 (List.mem_of_mem_head? hh)).2⟩
  · rintro ⟨t, ht, hle⟩
    have hmem := (mem_firesFrom _ t es).2 ⟨ht, hle⟩
    cases hf : firesFrom ((lastChange t1 q1 es).1 + 300) es with
    | nil => rw [hf] at hmem; simp at hmem
    | cons a l => simp

/-- C4 at five changes 50 ms apart, with timer events 299 ms and 300 ms after the last one:
the one computation runs at time 500 with the query `react`. -/
theorem debounce_single_computation_witness :
    ("r".toList ≠ BlogPageState.initial.searchQuery ∧ isBurst 0 0 "r".toList exampleBurst)
    ∧ ∃ new : List Computation,
      (searchRun exampleEngine BlogPageState.initial
          (.queryChange 0 "r".toList :: exampleBurst)).computations
        = BlogPageState.initial.computations ++ new
      ∧ new = (firesFrom ((lastChange 0 "r".toList exampleBurst).1 + 300)
          exampleBurst).head?.toList.map
          (fun T => { firedAt := T, query := (lastChange 0 "r".toList exampleBurst).2 })
      ∧ new.length ≤ 1
      ∧ (∀ c ∈ new, c.query = (lastChange 0 "r".toList exampleBurst).2
          ∧ (lastChange 0 "r".toList exampleBurst).1 + 300 ≤ c.firedAt)
      ∧ ((∃ t, SearchEvent.timerFire t ∈ exampleBurst
            ∧ (lastChange 0 "r".toList exampleBurst).1 + 300 ≤ t)
          → new.length = 1) :=
  ⟨⟨by decide, by decide⟩,
    debounce_single_computation exampleEngine BlogPageState.initial 0 "r".toList exampleBurst
      (by decide) (by decide)⟩

example : (searchRun exampleEngine BlogPageState.initial
    (.queryChange 0 "r".toList :: exampleBurst)).computations
    = [{ firedAt := 500, query := "react".toList }] := by decide

example : lastChange 0 "r".toList exampleBurst = (200, "react".toList) := by decide

/-! ### The search filter -/

theorem filterE_matchesQuery_of_described (E : Engine) (q : JsString) :
    ∀ posts : List FeedPost, (∀ p ∈ posts, p.description ≠ none) →
      filterE (matchesQuery E q) posts = .ok (posts.filter (specMatches E q))
  | [], _ => rfl
  | p :: ps, h => by
    have ih := filterE_matchesQuery_of_described E q ps
      (fun x hx => h x (List.mem_cons_of_mem _ hx))
    have hp := h p (List.mem_cons_self _ _)
    obtain ⟨d, hd⟩ := Option.ne_none_iff_exists'.1 hp
    by_cases ht : jsIncludes (E.toLowerCase p.title) (E.toLowerCase q) = true
    · simp [filterE, matchesQuery, specMatches, ht, ih]
    · simp only [Bool.not_eq_true] at ht
      by_cases hdm : jsIncludes (E.toLowerCase d) (E.toLowerCase q) = true
      · simp [filterE, matchesQuery, specMatches, ht, hd, hdm, ih, List.filter]
      · simp only [Bool.not_eq_true] at hdm
        simp [filterE, matchesQuery, specMatches, ht, hd, hdm, ih, List.filter]

/-- On a sequence in which every post has a description the timer callback computes the
spec's search. -/
theorem searchFilter_of_described (E : Engine) (posts : List FeedPost) (q : JsString)
    (showCount : Option Int) (h : ∀ p ∈ posts, p.description ≠ none) :
    searchFilter E posts q showCount = .ok (specSearch E posts q (showCountOr10 showCount)) := by
  by_cases hq : q = []
  · simp [searchFilter, specSearch, hq]
  · simp [searchFilter, specSearch, hq, filterE_matchesQuery_of_described E q posts h]

/-- Without a query the callback never fails: it gives the first posts of the sequence. -/
theorem searchFilter_no_query (E : Engine) (posts : List FeedPost) (showCount : Option Int) :
    searchFilter E posts [] showCount = .ok (jsSlice0 posts (showCountOr10 showCount)) := by
  simp [searchFilter]

/-- The callback fails exactly when a query is active and some post has no description and a
title that does not match. -/
theorem filterE_matchesQuery_error_iff (E : Engine) (q : JsString) :
    ∀ posts : List FeedPost, filterE (matchesQuery E q) posts = .error .typeError ↔
      ∃ p ∈ posts, p.description = none
        ∧ jsIncludes (E.toLowerCase p.title) (E.toLowerCase q) = false
  | [] => by simp [filterE]
  | p :: ps => by
    have ih := filterE_matchesQuery_error_iff E q ps
    by_cases ht : jsIncludes (E.toLowerCase p.title) (E.toLowerCase q) = true
    · have hm : matchesQuery E q p = .ok true := by simp [matchesQuery, ht]
      simp only [filterE, hm, List.mem_cons, exists_eq_or_imp, ht, Bool.true_eq_false,
        and_false, false_or]
      rw [← ih]
      cases filterE (matchesQuery E q) ps <;> simp
    · simp only [Bool.not_eq_true] at ht
      cases hd : p.description with
      | none =>
        have hm : matchesQuery E q p = .error .typeError := by simp [matchesQuery, ht, hd]
        simp [filterE, hm, ht, hd]
      | some d =>
        have hm : matchesQuery E q p
            = .ok (jsIncludes (E.toLowerCase d) (E.toLowerCase q)) := by
          simp [matchesQuery, ht, hd]
        simp only [filterE, hm, List.mem_cons, exists_eq_or_imp, hd, false_and, false_or,
          reduceCtorEq]
        rw [← ih]
        cases filterE (matchesQuery E q) ps <;> simp

theorem coherent_searchStep (E : Engine) (P : List FeedPost) (showCount : Option Int)
    (hP : ∀ p ∈ P, p.description ≠ none) (st : BlogPageState) (e : SearchEvent)
    (h : Coherent E P showCount st) : Coherent E P showCount (searchStep E st e) := by
  obtain ⟨h1, h2, h3⟩ := h
  cases e with
  | queryChange t q =>
    by_cases hq : q = st.searchQuery
    · simp only [searchStep, if_pos hq]
      exact ⟨h1, h2, h3⟩
    · simp only [searchStep, if_neg hq]
      exact ⟨h1, h2, h1, rfl, h2⟩
  | timerFire t =>
    cases htm : st.timer with
    | none =>
      simp only [searchStep, htm]
      exact ⟨h1, h2, h3⟩
    | some tm =>
      rw [htm] at h3
      obtain ⟨h4, h5, h6⟩ := h3
      by_cases hdue : tm.due ≤ t
      · have hres := searchFilter_of_described E P tm.searchQuery showCount hP
        simp only [searchStep, htm, if_pos hdue, h4, h6, hres]
        exact ⟨h1, h2, by simp [h5]⟩
      · simp only [searchStep, htm, if_neg hdue]
        refine ⟨h1, h2, ?_⟩
        rw [htm]
        exact ⟨h4, h5, h6⟩

theorem coherent_searchRun (E : Engine) (P : List FeedPost) (showCount : Option Int)
    (hP : ∀ p ∈ P, p.description ≠ none) : ∀ (es : List SearchEvent) (st : BlogPageState),
    Coherent E P showCount st → Coherent E P showCount (searchRun E st es)
  | [], _, h => h
  | e :: es, st, h =>
    coherent_searchRun E P showCount hP es (searchStep E st e)
      (coherent_searchStep E P showCount hP st e h)

/-- When every item of the feed has a description: after any events, once the pending timer
(if any) has run, the displayed list is the spec's search of the fetched sequence for the
current query, whatever the earlier queries were; the fetched sequence is unchanged. -/
theorem displayed_list_of_described (E : Engine) (items : List FeedItem) (n : Int) (t0 : Nat)
    (es : List SearchEvent) (T : Nat) (hdesc : ∀ it ∈ items, it.description ≠ none)
    (hT : ∀ tm, (searchRun E (loadedPage E items n t0) es).timer = some tm → tm.due ≤ T) :
    (searchRun E (loadedPage E items n t0) (es ++ [.timerFire T])).filteredPosts
        = specSearch E (loadedPage E items n t0).posts
            (searchRun E (loadedPage E items n t0) es).searchQuery (showCountOr10 (some n))
    ∧ (searchRun E (loadedPage E items n t0) (es ++ [.timerFire T])).posts
        = (loadedPage E items n t0).posts := by
  have hP : ∀ p ∈ (loadedPage E items n t0).posts, p.description ≠ none := by
    intro p hp
    simp only [loadedPage, searchEffect, fetchPosts, if_true, List.mem_map] at hp
    obtain ⟨it, hit, rfl⟩ := hp
    exact hdesc it ((jsSort_perm _ items).subset hit)
  have h0 : Coherent E (loadedPage E items n t0).posts (some n) (loadedPage E items n t0) :=
    ⟨rfl, rfl, rfl, rfl, rfl⟩
  have h1 := coherent_searchRun E _ (some n) hP es _ h0
  have hrun : searchRun E (loadedPage E items n t0) (es ++ [.timerFire T])
      = searchStep E (searchRun E (loadedPage E items n t0) es) (.timerFire T) := by
    simp [searchRun, List.foldl_append]
  rw [hrun]
  have h2 := coherent_searchStep E _ (some n) hP _ (.timerFire T) h1
  obtain ⟨k1, k2, k3⟩ := h1
  cases htm : (searchRun E (loadedPage E items n t0) es).timer with
  | none =>
    rw [htm] at k3
    simp only [searchStep, htm]
    exact ⟨k3, k1⟩
  | some tm =>
    rw [htm] at k3
    obtain ⟨k4, k5, k6⟩ := k3
    have hdue := hT tm htm
    have hres := searchFilter_of_described E (loadedPage E items n t0).posts tm.searchQuery
      (some n) hP
    simp only [searchStep, htm, if_pos hdue, k4, k6, hres]
    exact ⟨by simp [k5], k1⟩

/-- C9: a sequence holding one post without a description, searched for `x`: the claim has
the post compared on its title alone (no match, an empty list); the callback raises a
`TypeError` instead, so the displayed list is not replaced and `isSearching` stays true. -/
theorem searchFilter_typeError_without_description :
    searchFilter exampleEngine [withImage exampleEngine (exampleItem "Hello" "1000" none)]
        "x".toList (some 10) = .error .typeError
    ∧ specSearch exampleEngine [withImage exampleEngine (exampleItem "Hello" "1000" none)]
        "x".toList 10 = []
    ∧ (searchRun exampleEngine
        (loadedPage exampleEngine [exampleItem "Hello" "1000" none] 10 0)
        [.queryChange 1000 "x".toList, .timerFire 1300]).isSearching = true
    ∧ ((searchRun exampleEngine
        (loadedPage exampleEngine [exampleItem "Hello" "1000" none] 10 0)
        [.queryChange 1000 "x".toList, .timerFire 1300]).filteredPosts.map (fun p => p.title))
        = ["Hello".toList] := by
  refine ⟨by rfl, by decide, by decide, by decide⟩

/-- C8: the fetched sequence `ab`, `Hello` (no description), `xylophone`, searched for `x` with
`showCount` 10: the claim gives the list holding `xylophone`; the callback raises a `TypeError`
at `Hello` and computes no list. -/
theorem searchFilter_misses_spec_list :
    (loadedPage exampleEngine exampleFeed 10 0).posts.map (fun p => p.title)
        = ["ab".toList, "Hello".toList, "xylophone".toList]
    ∧ (specSearch exampleEngine (loadedPage exampleEngine exampleFeed 10 0).posts
        "x".toList 10).map (fun p => p.title) = ["xylophone".toList]
    ∧ searchFilter exampleEngine (loadedPage exampleEngine exampleFeed 10 0).posts
        "x".toList (some 10) = .error .typeError := by
  refine ⟨by decide, by decide, by rfl⟩

/-- C3: the fetched sequence `ab`, `Hello` (no description), `xylophone` and the final query
`x`, reached by two histories. The claim gives the list holding `xylophone` after both. The
callback of the last change raises a `TypeError` at `Hello`, so the displayed list is the one
left by the computation before it: all three posts after the first history, `Hello` and
`xylophone` (the matches of the earlier query `h`) after the second. -/
theorem displayed_list_depends_on_history :
    ((searchRun exampleEngine (loadedPage exampleEngine exampleFeed 10 0)
        [.timerFire 300, .queryChange 1000 "x".toList, .timerFire 1300]).filteredPosts.map
        (fun p => p.title)) = ["ab".toList, "Hello".toList, "xylophone".toList]
    ∧ ((searchRun exampleEngine (loadedPage exampleEngine exampleFeed 10 0)
        [.timerFire 300, .queryChange 1000 "h".toList, .timerFire 1300,
          .queryChange 2000 "x".toList, .timerFire 2300]).filteredPosts.map
        (fun p => p.title)) = ["Hello".toList, "xylophone".toList]
    ∧ (searchRun exampleEngine (loadedPage exampleEngine exampleFeed 10 0)
        [.timerFire 300, .queryChange 1000 "x".toList, .timerFire 1300]).searchQuery
        = "x".toList
    ∧ (searchRun exampleEngine (loadedPage exampleEngine exampleFeed 10 0)
        [.timerFire 300, .queryChange 1000 "h".toList, .timerFire 1300,
          .queryChange 2000 "x".toList, .timerFire 2300]).searchQuery = "x".toList
    ∧ (specSearch exampleEngine (loadedPage exampleEngine exampleFeed 10 0).posts
        "x".toList 10).map (fun p => p.title) = ["xylophone".toList] := by
  refine ⟨by decide, by decide, by decide, by decide, by decide⟩

/-! ### The thumbnail fallback of `fetchPosts` -/

theorem matchSrcAttr_some {s u : JsString} (h : matchSrcAttr s = some u) :
    ∃ post, s = "src=\"".toList ++ u ++ '"' :: post ∧ u ≠ [] ∧ ∀ c ∈ u, c ≠ '"' ∧ c ≠ '>' := by
  unfold matchSrcAttr at h
  split at h
  · rename_i hpre
    obtain ⟨rest, hrest⟩ := List.isPrefixOf_iff_prefix.1 hpre
    subst hrest
    simp only [List.drop_left'] at h
    have hd : List.drop 5 ("src=\"".toList ++ rest) = rest := by
      have : ("src=\"".toList).length = 5 := by decide
      rw [← this, List.drop_left]
    rw [hd] at h
    split at h
    · rename_i hc
      simp only [Option.some.injEq] at h
      subst h
      obtain ⟨hne, hhead⟩ := hc
      have hsplit := List.takeWhile_append_dropWhile (fun c => c != '"' && c != '>') rest
      have hdrop : List.drop (List.takeWhile (fun c => c != '"' && c != '>') rest).length rest
          = List.dropWhile (fun c => c != '"' && c != '>') rest := by
        have := List.drop_left (List.takeWhile (fun c => c != '"' && c != '>') rest)
          (List.dropWhile (fun c => c != '"' && c != '>') rest)
        rw [hsplit] at this
        exact this
      rw [hdrop] at hhead
      cases hdw : List.dropWhile (fun c => c != '"' && c != '>') rest with
      | nil => rw [hdw] at hhead; simp at hhead
      | cons x post =>
        rw [hdw] at hhead hsplit
        simp only [List.head?_cons, Option.some.injEq] at hhead
        subst hhead
        refine ⟨post, ?_, hne, ?_⟩
        · rw [List.append_assoc, hsplit]
        · intro c hc
          have := List.mem_takeWhile_imp hc
          simpa using this
    · simp at h
  · simp at h

theorem matchGreedy_some {r u : JsString} : ∀ {k : Nat}, matchGreedy r k = some u →
    ∃ j, 1 ≤ j ∧ j ≤ k ∧ matchSrcAttr (r.drop j) = some u
  | 0, h => by simp [matchGreedy] at h
  | k + 1, h => by
    unfold matchGreedy at h
    split at h
    · rename_i capture hc
      simp only [Option.some.injEq] at h
      subst h
      exact ⟨k + 1, by omega, Nat.le_refl _, hc⟩
    · obtain ⟨j, h1, h2, h3⟩ := matchGreedy_some h
      exact ⟨j, h1, by omega, h3⟩

/-- Soundness of the matcher: a capture comes from an occurrence of the pattern. -/
theorem imgMatch_some {u : JsString} : ∀ {s : JsString}, imgMatch s = some u → HasImgSrc s u
  | [], h => by simp [imgMatch] at h
  | c :: cs, h => by
    unfold imgMatch at h
    split at h
    · rename_i capture hc
      simp only [Option.some.injEq] at h
      subst h
      unfold matchImgAt at hc
      split at hc
      · rename_i hpre
        obtain ⟨r, hr⟩ := List.isPrefixOf_iff_prefix.1 hpre
        have hd : List.drop 4 (c :: cs) = r := by
          have : ("<img".toList).length = 4 := by decide
          rw [← hr, ← this, List.drop_left]
        simp only [hd] at hc
        obtain ⟨j, hj1, hj2, hj3⟩ := matchGreedy_some hc
        obtain ⟨post, hpost, hne, hu⟩ := matchSrcAttr_some hj3
        refine ⟨[], r.take j, post, ?_, ?_, ?_, hne, hu⟩
        · rw [← hr, List.nil_append, List.append_assoc, List.append_assoc, List.append_assoc]
          congr 1
          rw [List.append_assoc] at hpost
          rw [← hpost, List.take_append_drop]
        · intro h0
          have hlen : (List.take j r).length = 0 := by rw [h0]; rfl
          rw [List.length_take] at hlen
          have : j ≤ r.length :=
            Nat.le_trans hj2 (List.takeWhile_sublist _).length_le
          omega
        · intro hmem
          have hpre2 : List.take j r <+: List.takeWhile (fun c => c != '>') r := by
            have h1 : List.take j r <+: r := List.take_prefix _ _
            have h2 : List.takeWhile (fun c => c != '>') r <+: r := List.takeWhile_prefix _
            refine List.prefix_of_prefix_length_le h1 h2 ?_
            rw [List.length_take]
            omega
          have := List.mem_takeWhile_imp (hpre2.subset hmem)
          simp at this
      · simp at hc
    · obtain ⟨pre, a, post, hs, h2⟩ := imgMatch_some h
      exact ⟨c :: pre, a, post, by rw [hs]; simp, h2⟩

theorem imgMatch_ne_nil {s u : JsString} (h : imgMatch s = some u) : u ≠ [] := by
  obtain ⟨_, _, _, _, _, _, hne, _⟩ := imgMatch_some h
  exact hne

theorem matchSrcAttr_complete (u post : JsString) (hne : u ≠ [])
    (hu : ∀ c ∈ u, c ≠ '"' ∧ c ≠ '>') :
    matchSrcAttr ("src=\"".toList ++ u ++ '"' :: post) = some u := by
  have hpre : "src=\"".toList.isPrefixOf ("src=\"".toList ++ u ++ '"' :: post) = true :=
    List.isPrefixOf_iff_prefix.2 ⟨u ++ '"' :: post, by simp⟩
  have hd : List.drop 5 ("src=\"".toList ++ u ++ '"' :: post) = u ++ '"' :: post := by
    have : ("src=\"".toList).length = 5 := by decide
    rw [List.append_assoc, ← this, List.drop_left]
  have htw : List.takeWhile (fun c => c != '"' && c != '>') (u ++ '"' :: post) = u := by
    rw [List.takeWhile_append_of_pos (by
      intro c hc
      have := hu c hc
      simp [this.1, this.2])]
    simp
  unfold matchSrcAttr
  rw [if_pos hpre]
  simp only [hd, htw, List.drop_left]
  simp [hne]

theorem matchGreedy_complete (r : JsString) (j : Nat) (hj : 1 ≤ j)
    (hm : matchSrcAttr (r.drop j) ≠ none) : ∀ k, j ≤ k → matchGreedy r k ≠ none
  | 0, hk => by omega
  | k + 1, hk => by
    unfold matchGreedy
    split
    · simp
    · rename_i hnone
      by_cases hjk : j = k + 1
      · subst hjk
        exact absurd hnone hm
      · exact matchGreedy_complete r j hj hm k (by omega)

theorem matchImgAt_complete (a u post : JsString) (ha : a ≠ []) (hgt : '>' ∉ a)
    (hne : u ≠ []) (hu : ∀ c ∈ u, c ≠ '"' ∧ c ≠ '>') :
    matchImgAt ("<img".toList ++ a ++ "src=\"".toList ++ u ++ '"' :: post) ≠ none := by
  have hassoc : "<img".toList ++ a ++ "src=\"".toList ++ u ++ '"' :: post
      = "<img".toList ++ (a ++ ("src=\"".toList ++ u ++ '"' :: post)) := by
    simp only [List.append_assoc]
  have hpre : "<img".toList.isPrefixOf
      ("<img".toList ++ (a ++ ("src=\"".toList ++ u ++ '"' :: post))) = true :=
    List.isPrefixOf_iff_prefix.2 ⟨_, rfl⟩
  have hd : List.drop 4 ("<img".toList ++ (a ++ ("src=\"".toList ++ u ++ '"' :: post)))
      = a ++ ("src=\"".toList ++ u ++ '"' :: post) := by
    have : ("<img".toList).length = 4 := by decide
    rw [← this, List.drop_left]
  rw [hassoc]
  unfold matchImgAt
  rw [if_pos hpre]
  simp only [hd]
  apply matchGreedy_complete _ a.length
  · cases a with
    | nil => exact absurd rfl ha
    | cons x xs => simp
  · rw [List.drop_left, matchSrcAttr_complete u post hne hu]
    simp
  · rw [List.takeWhile_append_of_pos (by
      intro c hc
      have : c ≠ '>' := fun h => hgt (h ▸ hc)
      simp [this])]
    simp

theorem imgMatch_of_matchImgAt (s' : JsString) (h : matchImgAt s' ≠ none) :
    ∀ pre : JsString, imgMatch (pre ++ s') ≠ none
  | [] => by
    cases s' with
    | nil => simp [matchImgAt] at h
    | cons c cs =>
      simp only [List.nil_append]
      unfold imgMatch
      split
      · simp
      · rename_i hnone
        exact absurd hnone h
  | c :: pre => by
    simp only [List.cons_append]
    unfold imgMatch
    split
    · simp
    · exact imgMatch_of_matchImgAt s' h pre

/-- Completeness of the matcher: `match` gives `null` only when the pattern occurs nowhere. -/
theorem imgMatch_eq_none_iff (s : JsString) : imgMatch s = none ↔ ¬ ∃ u, HasImgSrc s u := by
  constructor
  · rintro h ⟨u, pre, a, post, hs, ha, hgt, hne, hu⟩
    have h1 := matchImgAt_complete a u post ha hgt hne hu
    have h2 := imgMatch_of_matchImgAt _ h1 pre
    apply h2
    rw [← h, hs]
    simp only [List.append_assoc]
  · intro h
    cases hm : imgMatch s with
    | none => rfl
    | some u => exact absurd ⟨u, imgMatch_some hm⟩ h

theorem truthy_some_of_ne_nil {u : JsString} (h : u ≠ []) : truthy (some u) = true := by
  cases u with
  | nil => exact absurd rfl h
  | cons c cs => rfl

/-- C10: the thumbnail `fetchPosts` derives for a feed item is the explicit thumbnail when that
is present and non-empty; otherwise the capture of the image pattern in the content when the
pattern occurs there; otherwise its capture in the description when it occurs there;
otherwise the item has no usable thumbnail (the field stays as it was, absent or empty). -/
theorem thumbnail_fallback (E : Engine) (post : FeedItem) :
    (truthy post.thumbnail = true → (withImage E post).thumbnail = post.thumbnail)
    ∧ (truthy post.thumbnail = false → ∀ src, post.content.bind imgMatch = some src →
        (withImage E post).thumbnail = some src)
    ∧ (truthy post.thumbnail = false → post.content.bind imgMatch = none →
        ∀ src, post.description.bind imgMatch = some src →
          (withImage E post).thumbnail = some src)
    ∧ (truthy post.thumbnail = false → post.content.bind imgMatch = none →
        post.description.bind imgMatch = none →
          (withImage E post).thumbnail = post.thumbnail
          ∧ truthy (withImage E post).thumbnail = false) := by
  have himg : ∀ o : Option JsString, truthy o = false → imgMatch (o.getD []) = none := by
    intro o ho
    cases o with
    | none => rfl
    | some x =>
      cases x with
      | nil => rfl
      | cons c cs => simp [truthy] at ho
  have hbind : ∀ o : Option JsString, o.bind imgMatch = imgMatch (o.getD []) := by
    intro o
    cases o <;> rfl
  simp only [hbind]
  refine ⟨?_, ?_, ?_, ?_⟩
  · intro h
    simp [withImage, deriveThumbnail, h]
  · intro h src hc
    have hct : truthy post.content = true := by
      by_contra hn
      simp only [Bool.not_eq_true] at hn
      rw [himg _ hn] at hc
      simp at hc
    have hsrc := truthy_some_of_ne_nil (imgMatch_ne_nil hc)
    simp [withImage, deriveThumbnail, h, hct, hc, hsrc]
  · intro h hc src hd
    have hdt : truthy post.description = true := by
      by_contra hn
      simp only [Bool.not_eq_true] at hn
      rw [himg _ hn] at hd
      simp at hd
    simp [withImage, deriveThumbnail, h, hc, hd, hdt]
  · intro h hc hd
    simp [withImage, deriveThumbnail, h, hc, hd]

/-- C10 at an item with an empty thumbnail field and an image in both the content and the
description: the image of the content is used. -/
theorem thumbnail_fallback_witness :
    (truthy exampleImageItem.thumbnail = false
      ∧ exampleImageItem.content.bind imgMatch = some "https://cdn/content.png".toList)
    ∧ (withImage exampleEngine exampleImageItem).thumbnail
        = some "https://cdn/content.png".toList :=
  ⟨⟨by decide, by decide⟩,
    (thumbnail_fallback exampleEngine exampleImageItem).2.1 (by decide) _ (by decide)⟩

example : imgMatch "<p>x</p><img alt=\"a\" src=\"https://cdn/a.png\" width=\"1\"><img src=\"b\">".toList
    = some "https://cdn/a.png".toList := by decide

example : imgMatch "<img src=\"a\" data-src=\"b\">".toList = some "b".toList := by decide

example : imgMatch "<imgsrc=\"a\">".toList = none := by decide

/-! ### `blogSchema` -/

example : blogSchema exampleIsUrl
    { heading := .string "Blog".toList, description := .string "d".toList,
      mediumUsername := .string "u".toList, showCount := .number (.finite 0),
      showProfile := .bool true, showTags := .bool true, enableSearch := .bool true,
      heroImage := .string [] }
    = .error [{ path := "showCount", code := .too_small,
                message := some "En az 1 yazı gösterilmelidir" }] := by
  rfl

theorem zStringMin1_ok (path message : String) (s : JsString) (h : s ≠ []) :
    zStringMin1 path message (.string s) = .ok s := by
  cases s with
  | nil => exact absurd rfl h
  | cons c cs => simp [zStringMin1]

theorem zUrlOptionalOrEmpty_ok (isUrl : JsString → Bool) (path message : String)
    (hero : JsValue)
    (h : hero = .undefined ∨ hero = .string [] ∨ ∃ s, hero = .string s ∧ isUrl s = true) :
    ∃ img, zUrlOptionalOrEmpty isUrl path message hero = .ok img := by
  rcases h with h | h | ⟨s, h, hs⟩
  · subst h; exact ⟨none, rfl⟩
  · subst h
    by_cases hu : isUrl [] = true
    · exact ⟨some [], by simp [zUrlOptionalOrEmpty, hu]⟩
    · exact ⟨some [], by simp [zUrlOptionalOrEmpty, hu]⟩
  · subst h; exact ⟨some s, by simp [zUrlOptionalOrEmpty, hs]⟩

theorem zNumberMinMax_int (path : String) (lo hi : Int) (loMessage hiMessage : String)
    (k : Int) :
    zNumberMinMax path lo loMessage hi hiMessage (.number (.finite k))
      = if k < lo then
          if hi < k then
            .error [{ path := path, code := .too_small, message := some loMessage },
              { path := path, code := .too_big, message := some hiMessage }]
          else .error [{ path := path, code := .too_small, message := some loMessage }]
        else if hi < k then .error [{ path := path, code := .too_big, message := some hiMessage }]
        else .ok (.finite k) := by
  by_cases h1 : k < lo <;> by_cases h2 : hi < k <;>
    simp [zNumberMinMax, JsNumber.ltRat, JsNumber.gtRat, h1, h2]

/-- C5: for a form input with non-empty heading, description and Medium user name, boolean
flags, a hero image that is absent, empty or a well-formed URL, and an integer `showCount`,
`blogSchema` accepts exactly when `1 ≤ showCount ≤ 50`; otherwise it rejects and every issue
(there is at least one) is on the field `showCount`. -/
theorem blogSchema_showCount_range (isUrl : JsString → Bool) (h d u : JsString)
    (p t e : Bool) (hero : JsValue) (k : Int) (hh : h ≠ []) (hd : d ≠ []) (hu : u ≠ [])
    (hhero : hero = .undefined ∨ hero = .string []
      ∨ ∃ s, hero = .string s ∧ isUrl s = true) :
    ((∃ data, blogSchema isUrl
        { heading := .string h, description := .string d, mediumUsername := .string u,
          showCount := .number (.finite k), showProfile := .bool p, showTags := .bool t,
          enableSearch := .bool e, heroImage := hero } = .ok data) ↔ (1 ≤ k ∧ k ≤ 50))
    ∧ (¬ (1 ≤ k ∧ k ≤ 50) → ∃ issues, blogSchema isUrl
        { heading := .string h, description := .string d, mediumUsername := .string u,
          showCount := .number (.finite k), showProfile := .bool p, showTags := .bool t,
          enableSearch := .bool e, heroImage := hero } = .error issues
        ∧ issues ≠ [] ∧ ∀ i ∈ issues, i.path = "showCount") := by
  obtain ⟨img, himg⟩ := zUrlOptionalOrEmpty_ok isUrl "heroImage"
    "Geçerli bir resim URL\x27si giriniz" hero hhero
  have hnum := zNumberMinMax_int "showCount" 1 50 "En az 1 yazı gösterilmelidir"
    "En fazla 50 yazı gösterilebilir" k
  simp only [Int.cast_one, Int.cast_ofNat] at hnum
  by_cases h1 : k < 1
  · have h2 : ¬ 50 < k := by omega
    rw [if_pos h1, if_neg h2] at hnum
    have hres : blogSchema isUrl
        { heading := .string h, description := .string d, mediumUsername := .string u,
          showCount := .number (.finite k), showProfile := .bool p, showTags := .bool t,
          enableSearch := .bool e, heroImage := hero }
        = .error [{ path := "showCount", code := .too_small,
                    message := some "En az 1 yazı gösterilmelidir" }] := by
      simp [blogSchema, zStringMin1_ok, hh, hd, hu, hnum, himg, zBoolean, issuesOf]
    rw [hres]
    refine ⟨⟨by simp, fun hk => by omega⟩, fun _ => ⟨_, rfl, by simp, by simp⟩⟩
  · by_cases h2 : 50 < k
    · rw [if_neg h1, if_pos h2] at hnum
      have hres : blogSchema isUrl
          { heading := .string h, description := .string d, mediumUsername := .string u,
            showCount := .number (.finite k), showProfile := .bool p, showTags := .bool t,
            enableSearch := .bool e, heroImage := hero }
          = .error [{ path := "showCount", code := .too_big,
                      message := some "En fazla 50 yazı gösterilebilir" }] := by
        simp [blogSchema, zStringMin1_ok, hh, hd, hu, hnum, himg, zBoolean, issuesOf]
      rw [hres]
      refine ⟨⟨by simp, fun hk => by omega⟩, fun _ => ⟨_, rfl, by simp, by simp⟩⟩
    · rw [if_neg h1, if_neg h2] at hnum
      have hres : blogSchema isUrl
          { heading := .string h, description := .string d, mediumUsername := .string u,
            showCount := .number (.finite k), showProfile := .bool p, showTags := .bool t,
            enableSearch := .bool e, heroImage := hero }
          = .ok { heading := h, description := d, mediumUsername := u, showCount := .finite k,
                  showProfile := p, showTags := t, enableSearch := e, heroImage := img } := by
        simp [blogSchema, zStringMin1_ok, hh, hd, hu, hnum, himg, zBoolean]
      rw [hres]
      refine ⟨⟨fun _ => by omega, fun _ => ⟨_, rfl⟩⟩, fun hk => absurd (by omega) hk⟩

/-- C5 at `showCount = 51`: rejected with an issue on `showCount`. -/
theorem blogSchema_showCount_range_witness :
    ("Blog".toList ≠ [] ∧ "Posts".toList ≠ [] ∧ "someone".toList ≠ []
      ∧ (JsValue.string [] = .undefined ∨ JsValue.string [] = .string []
        ∨ ∃ s, JsValue.string [] = .string s ∧ exampleIsUrl s = true))
    ∧ ((∃ data, blogSchema exampleIsUrl
          { heading := .string "Blog".toList, description := .string "Posts".toList,
            mediumUsername := .string "someone".toList,
            showCount := .number (.finite ((51 : Int) : ℚ)), showProfile := .bool true,
            showTags := .bool true, enableSearch := .bool false, heroImage := .string [] }
          = .ok data) ↔ (1 ≤ (51 : Int) ∧ (51 : Int) ≤ 50))
    ∧ (¬ (1 ≤ (51 : Int) ∧ (51 : Int) ≤ 50) → ∃ issues, blogSchema exampleIsUrl
          { heading := .string "Blog".toList, description := .string "Posts".toList,
            mediumUsername := .string "someone".toList,
            showCount := .number (.finite ((51 : Int) : ℚ)), showProfile := .bool true,
            showTags := .bool true, enableSearch := .bool false, heroImage := .string [] }
          = .error issues
        ∧ issues ≠ [] ∧ ∀ i ∈ issues, i.path = "showCount") :=
  ⟨⟨by decide, by decide, by decide, Or.inr (Or.inl rfl)⟩,
    blogSchema_showCount_range exampleIsUrl "Blog".toList "Posts".toList "someone".toList
      true true false (.string []) 51 (by decide) (by decide) (by decide)
      (Or.inr (Or.inl rfl))⟩

/-! ### The platform list -/

example : (renderPlatforms (fetchSocialMedia (.found (some
    [{ name := "GitHub".toList, url := [], icon := [], order := .finite 2 },
      { name := "LinkedIn".toList, url := [], icon := [], order := .finite 1 }]))
    { isLoading := true, platforms := [], formPlatforms := [] })).map
      (fun c => c.2.map (fun p => p.name))
    = [some "GitHub".toList, some "LinkedIn".toList] := by decide

example : (specPlatformOrder
    [{ name := "GitHub".toList, url := [], icon := [], order := .finite 2 },
      { name := "LinkedIn".toList, url := [], icon := [], order := .finite 1 }]).map
      (fun p => p.name)
    = ["LinkedIn".toList, "GitHub".toList] := by decide

/-- C7, as the claim states it, fails: the stored platforms `GitHub` (order 2), `LinkedIn`
(order 1) are rendered in that order, while sorted ascending by `order` they are `LinkedIn`,
`GitHub`. -/
theorem platforms_rendered_unsorted :
    (renderPlatforms (fetchSocialMedia (.found (some examplePlatforms))
        { isLoading := true, platforms := [], formPlatforms := [] })).map
        (fun card => card.2.map (fun p => p.name))
      = [some "GitHub".toList, some "LinkedIn".toList]
    ∧ (specPlatformOrder examplePlatforms).map (fun p => p.name)
      = ["LinkedIn".toList, "GitHub".toList] := by
  refine ⟨by decide, by decide⟩

/-- C7, amended: the platforms are rendered in the order of the stored `platforms` array: the
card at position `i` shows the element at index `i` of the array, whatever the `order` fields
hold; a document without the field renders no card. -/
theorem platforms_rendered_in_array_order (platforms : Option (List Platform))
    (st : SocialMediaState) :
    renderPlatforms (fetchSocialMedia (.found platforms) st)
      = (platforms.getD []).enum.map (fun ip => (ip.1, some ip.2))
    ∧ (renderPlatforms (fetchSocialMedia (.found platforms) st)).map (fun card => card.2)
      = (platforms.getD []).map some := by
  have h1 : renderPlatforms (fetchSocialMedia (.found platforms) st)
      = (platforms.getD []).enum.map (fun ip => (ip.1, some ip.2)) := by
    simp only [renderPlatforms, fetchSocialMedia]
    apply List.map_congr_left
    intro ip hip
    rw [List.mem_enum_iff_getElem?.1 hip]
  refine ⟨h1, ?_⟩
  rw [h1, List.map_map]
  have : ((fun card : Nat × Option Platform => card.2) ∘ fun ip : Nat × Platform =>
      (ip.1, some ip.2)) = some ∘ Prod.snd := rfl
  rw [this, ← List.map_map, List.enum_map_snd]

/-! ### Submitting the project form -/

/-- C6, as the claim states it, fails: a valid form for a new project with a chosen image
whose upload is rejected makes no `createDocument` call; and when the `addDoc` call is
rejected no re-fetch follows it. -/
theorem submit_without_create_or_refetch :
    (∃ data, projectSchema exampleIsUrl exampleProjectInput = .ok data)
    ∧ ((handleSubmit exampleIsUrl
          { nowMillis := "1700000000000".toList, nowIso := "2023-11-14T22:13:20.000Z".toList,
            uploadOk := false, downloadUrl := none, writeOk := true }
          (exampleNewProject (some "logo.png")) exampleProjectInput).calls.filter
          RepoCall.isCreate) = []
    ∧ ((handleSubmit exampleIsUrl
          { nowMillis := "1700000000000".toList, nowIso := "2023-11-14T22:13:20.000Z".toList,
            uploadOk := true, downloadUrl := none, writeOk := false }
          (exampleNewProject none) exampleProjectInput).calls.filter
          (fun c => decide (c = .listDocuments "projects".toList))) = [] := by
  refine ⟨⟨_, rfl⟩, by decide, by decide⟩

theorem onSubmit_calls_of_upload (env : SubmitEnv) (st : ProjectsState)
    (data : ProjectFormData) (hup : uploadSucceeds env st) :
    ∃ (pre : List RepoCall) (doc : ProjectData),
      (∀ c ∈ pre, c.isBlob = true)
      ∧ doc.technologies = technologiesArray data.technologies
      ∧ doc.title = data.title ∧ doc.description = data.description
      ∧ (onSubmit env st data).2
        = pre ++ (match st.selectedProject with
            | some project => RepoCall.updateDocument "projects".toList project.id doc
            | none => RepoCall.createDocument "projects".toList
                { doc with createdAt := some env.nowIso })
          :: (if env.writeOk then [.listDocuments "projects".toList] else []) := by
  have hdoc : ∀ img : JsValue, ∃ doc : ProjectData, doc =
      { title := data.title, description := data.description,
        githubUrl := data.githubUrl, demoUrl := data.demoUrl,
        technologies := technologiesArray data.technologies, imageUrl := img,
        updatedAt := env.nowIso, createdAt := none } := fun img => ⟨_, rfl⟩
  cases hfile : st.uploadedImage with
  | none =>
    by_cases hnull : (st.selectedProject.isSome && !truthy st.imagePreview) = true
    · obtain ⟨doc, hd⟩ := hdoc .null
      refine ⟨[], doc, by simp, by rw [hd], by rw [hd], by rw [hd], ?_⟩
      subst hd
      by_cases hw : env.writeOk = true <;> simp [onSubmit, hfile, hnull, hw]
    · cases hsel : st.selectedProject with
      | none =>
        obtain ⟨doc, hd⟩ := hdoc .undefined
        refine ⟨[], doc, by simp, by rw [hd], by rw [hd], by rw [hd], ?_⟩
        subst hd
        rw [hsel] at hnull
        by_cases hw : env.writeOk = true <;> simp [onSubmit, hfile, hsel, hw]
      | some project =>
        obtain ⟨doc, hd⟩ := hdoc project.imageUrl
        refine ⟨[], doc, by simp, by rw [hd], by rw [hd], by rw [hd], ?_⟩
        subst hd
        rw [hsel] at hnull
        simp only [Option.isSome_some, Bool.true_and, Bool.not_eq_true', Bool.not_eq_false,
          Bool.not_eq_true] at hnull
        by_cases hw : env.writeOk = true <;> simp [onSubmit, hfile, hsel, hnull, hw]
  | some fileName =>
    rcases hup with hup | ⟨hok, hurl⟩
    · rw [hfile] at hup; simp at hup
    · obtain ⟨url, hurl'⟩ := Option.isSome_iff_exists.1 hurl
      obtain ⟨doc, hd⟩ := hdoc (.string url)
      refine ⟨[.uploadBytes ("projects/".toList ++ env.nowMillis ++ "_".toList ++ fileName),
        .getDownloadURL ("projects/".toList ++ env.nowMillis ++ "_".toList ++ fileName)],
        doc, ?_, by rw [hd], by rw [hd], by rw [hd], ?_⟩
      · intro c hc
        simp only [List.mem_cons, List.mem_singleton, List.not_mem_nil, or_false] at hc
        rcases hc with rfl | rfl <;> rfl
      · subst hd
        by_cases hw : env.writeOk = true <;>
          simp [onSubmit, uploadImage, hfile, hok, hurl', hw]

theorem filter_isCreate_blob (pre : List RepoCall) (h : ∀ c ∈ pre, c.isBlob = true) :
    pre.filter RepoCall.isCreate = [] ∧ pre.filter RepoCall.isUpdate = [] := by
  constructor <;>
  · rw [List.filter_eq_nil_iff]
    intro c hc
    have := h c hc
    cases c <;> simp_all [RepoCall.isBlob, RepoCall.isCreate, RepoCall.isUpdate]

/-- C6, amended: a form input that fails `projectSchema` makes no repository call and its
issues become the form errors. A valid input whose image upload (when a file was chosen)
succeeds makes, after the blob-store calls of the upload, exactly one document write: with no
project selected a `createDocument` on `projects` and no `updateDocument`, with a project
selected an `updateDocument` on `projects` at that project's id and no `createDocument`; the
written tags are the normalised `technologies`; the re-fetch `listDocuments` on `projects`
follows the write exactly when the write is fulfilled. When the upload fails, no document is
created or updated. -/
theorem handleSubmit_repository_calls (isUrl : JsString → Bool) (env : SubmitEnv)
    (st : ProjectsState) (input : ProjectInput) :
    (∀ issues, projectSchema isUrl input = .error issues →
        (handleSubmit isUrl env st input).calls = []
        ∧ (handleSubmit isUrl env st input).errors = issues)
    ∧ (∀ data, projectSchema isUrl input = .ok data → uploadSucceeds env st →
        st.selectedProject = none →
        ∃ (pre : List RepoCall) (doc : ProjectData),
          (handleSubmit isUrl env st input).calls
            = pre ++ .createDocument "projects".toList doc
              :: (if env.writeOk then [.listDocuments "projects".toList] else [])
          ∧ (∀ c ∈ pre, c.isBlob = true)
          ∧ doc.technologies = technologiesArray data.technologies
          ∧ ((handleSubmit isUrl env st input).calls.filter RepoCall.isCreate).length = 1
          ∧ (handleSubmit isUrl env st input).calls.filter RepoCall.isUpdate = [])
    ∧ (∀ data project, projectSchema isUrl input = .ok data → uploadSucceeds env st →
        st.selectedProject = some project →
        ∃ (pre : List RepoCall) (doc : ProjectData),
          (handleSubmit isUrl env st input).calls
            = pre ++ .updateDocument "projects".toList project.id doc
              :: (if env.writeOk then [.listDocuments "projects".toList] else [])
          ∧ (∀ c ∈ pre, c.isBlob = true)
          ∧ doc.technologies = technologiesArray data.technologies
          ∧ ((handleSubmit isUrl env st input).calls.filter RepoCall.isUpdate).length = 1
          ∧ (handleSubmit isUrl env st input).calls.filter RepoCall.isCreate = [])
    ∧ (∀ data, projectSchema isUrl input = .ok data → ¬ uploadSucceeds env st →
        (handleSubmit isUrl env st input).calls.filter RepoCall.isCreate = []
        ∧ (handleSubmit isUrl env st input).calls.filter RepoCall.isUpdate = []
        ∧ (handleSubmit isUrl env st input).calls.filter
            (fun c => decide (c = .listDocuments "projects".toList)) = []) := by
  refine ⟨?_, ?_, ?_, ?_⟩
  · intro issues h
    simp [handleSubmit, h]
  · intro data h hup hsel
    obtain ⟨pre, doc, hpre, htech, _, _, hcalls⟩ := onSubmit_calls_of_upload env st data hup
    rw [hsel] at hcalls
    have hc : (handleSubmit isUrl env st input).calls = (onSubmit env st data).2 := by
      simp [handleSubmit, h]
    obtain ⟨f1, f2⟩ := filter_isCreate_blob pre hpre
    refine ⟨pre, { doc with createdAt := some env.nowIso }, hc.trans hcalls, hpre, htech, ?_, ?_⟩
    · rw [hc, hcalls, List.filter_append, f1]
      by_cases hw : env.writeOk = true <;> simp [hw, RepoCall.isCreate, List.filter]
    · rw [hc, hcalls, List.filter_append, f2]
      by_cases hw : env.writeOk = true <;> simp [hw, RepoCall.isUpdate, List.filter]
  · intro data project h hup hsel
    obtain ⟨pre, doc, hpre, htech, _, _, hcalls⟩ := onSubmit_calls_of_upload env st data hup
    rw [hsel] at hcalls
    have hc : (handleSubmit isUrl env st input).calls = (onSubmit env st data).2 := by
      simp [handleSubmit, h]
    obtain ⟨f1, f2⟩ := filter_isCreate_blob pre hpre
    refine ⟨pre, doc, hc.trans hcalls, hpre, htech, ?_, ?_⟩
    · rw [hc, hcalls, List.filter_append, f2]
      by_cases hw : env.writeOk = true <;> simp [hw, RepoCall.isUpdate, List.filter]
    · rw [hc, hcalls, List.filter_append, f1]
      by_cases hw : env.writeOk = true <;> simp [hw, RepoCall.isCreate, List.filter]
  · intro data h hup
    have hc : (handleSubmit isUrl env st input).calls = (onSubmit env st data).2 := by
      simp [handleSubmit, h]
    rw [hc]
    cases hfile : st.uploadedImage with
    | none => exact absurd (Or.inl hfile) hup
    | some fileName =>
      by_cases hok : env.uploadOk = true
      · cases hurl : env.downloadUrl with
        | none =>
          simp [onSubmit, uploadImage, hfile, hok, hurl, RepoCall.isCreate, RepoCall.isUpdate,
            List.filter]
        | some url => exact absurd (Or.inr ⟨hok, by simp [hurl]⟩) hup
      · simp [onSubmit, uploadImage, hfile, hok, RepoCall.isCreate, RepoCall.isUpdate,
          List.filter]

/-- C6 (amended) at a valid new project with a chosen image, every call fulfilled. -/
theorem handleSubmit_repository_calls_witness :
    (projectSchema exampleIsUrl exampleProjectInput = .ok exampleProjectData
      ∧ uploadSucceeds exampleEnv (exampleNewProject (some "logo.png"))
      ∧ (exampleNewProject (some "logo.png")).selectedProject = none)
    ∧ ∃ (pre : List RepoCall) (doc : ProjectData),
        (handleSubmit exampleIsUrl exampleEnv (exampleNewProject (some "logo.png"))
            exampleProjectInput).calls
          = pre ++ .createDocument "projects".toList doc
            :: (if exampleEnv.writeOk then [.listDocuments "projects".toList] else [])
        ∧ (∀ c ∈ pre, c.isBlob = true)
        ∧ doc.technologies = technologiesArray exampleProjectData.technologies
        ∧ ((handleSubmit exampleIsUrl exampleEnv (exampleNewProject (some "logo.png"))
            exampleProjectInput).calls.filter RepoCall.isCreate).length = 1
        ∧ (handleSubmit exampleIsUrl exampleEnv (exampleNewProject (some "logo.png"))
            exampleProjectInput).calls.filter RepoCall.isUpdate = [] :=
  ⟨⟨rfl, Or.inr ⟨rfl, rfl⟩, rfl⟩,
    (handleSubmit_repository_calls exampleIsUrl exampleEnv (exampleNewProject (some "logo.png"))
      exampleProjectInput).2.1 exampleProjectData rfl (Or.inr ⟨rfl, rfl⟩) rfl⟩

example : (handleSubmit exampleIsUrl exampleEnv (exampleNewProject none)
    { exampleProjectInput with title := .string [] }).calls = []
    ∧ (handleSubmit exampleIsUrl exampleEnv (exampleNewProject none)
    { exampleProjectInput with title := .string [] }).errors.map (fun i => i.path)
      = ["title"] := by
  decide

/-! ### Stability and multiplicity of the sort of `fetchPosts` -/

theorem filter_orderedInsert {r : α → α → Prop} [DecidableRel r] (p : α → Bool) (a : α)
    (l : List α) (h : p a = true → ∀ c ∈ l, p c = true → r a c) :
    (l.orderedInsert r a).filter p = if p a then a :: l.filter p else l.filter p := by
  induction l with
  | nil => by_cases hp : p a = true <;> simp [hp]
  | cons b l ih =>
    have ih' := ih (fun hp c hc hpc => h hp c (List.mem_cons_of_mem _ hc) hpc)
    by_cases hr : r a b
    · simp only [List.orderedInsert, if_pos hr]
      by_cases hp : p a = true <;> simp [List.filter_cons, hp]
    · simp only [List.orderedInsert, if_neg hr, List.filter_cons, ih']
      by_cases hp : p a = true
      · have hpb : p b = false := by
          by_contra hb
          simp only [Bool.not_eq_false] at hb
          exact hr (h hp b (List.mem_cons_self _ _) hb)
        simp [hp, hpb]
      · by_cases hpb : p b = true <;> simp [hp, hpb]

theorem filter_insertionSort {r : α → α → Prop} [DecidableRel r] (p : α → Bool)
    (h : ∀ a c, p a = true → p c = true → r a c) :
    ∀ l : List α, (l.insertionSort r).filter p = l.filter p
  | [] => rfl
  | a :: l => by
    simp only [List.insertionSort]
    rw [filter_orderedInsert p a _ (fun hp c _ hpc => h a c hp hpc), filter_insertionSort p h l]
    by_cases hp : p a = true <;> simp [List.filter_cons, hp]

theorem fetchPosts_posts_ok (E : Engine) (items : List FeedItem) (showCount : Option Int)
    (st : BlogPageState) :
    (fetchPosts E (.data "ok".toList items) showCount st).posts
      = (jsSort (compareFn E) items).map (withImage E) := by
  simp [fetchPosts]

theorem fetchPostsWith_jsSort (E : Engine) (response : FeedResponse) (showCount : Option Int)
    (st : BlogPageState) : fetchPostsWith jsSort E response showCount st
      = fetchPosts E response showCount st := rfl

/-- With every date valid the comparator of `fetchPosts` is a consistent comparator. -/
theorem compareFn_consistent (E : Engine) (items : List FeedItem)
    (hvalid : ∀ it ∈ items, (E.dateValue it.pubDate).isSome) :
    ConsistentComparator (compareFn E) items := by
  have hv : ∀ it ∈ items, ∃ t, E.dateValue it.pubDate = some t :=
    fun it h => Option.isSome_iff_exists.1 (hvalid it h)
  refine ⟨?_, ?_, ?_, ?_, ?_, ?_⟩
  · intro a ha b hb
    obtain ⟨ta, hta⟩ := hv a ha
    obtain ⟨tb, htb⟩ := hv b hb
    exact ⟨tb - ta, by simp [compareFn, hta, htb]⟩
  · intro a ha
    obtain ⟨ta, hta⟩ := hv a ha
    simp [compareFn, hta]
  · intro a ha b hb
    obtain ⟨ta, hta⟩ := hv a ha
    obtain ⟨tb, htb⟩ := hv b hb
    simp only [compareFn, hta, htb, Option.some.injEq]
    intro h
    omega
  · intro a ha b hb c hc
    obtain ⟨ta, hta⟩ := hv a ha
    obtain ⟨tb, htb⟩ := hv b hb
    obtain ⟨tc, htc⟩ := hv c hc
    simp only [compareFn, hta, htb, htc, Option.some.injEq]
    intro h1 h2
    omega
  · intro a ha b hb c hc v w
    obtain ⟨ta, hta⟩ := hv a ha
    obtain ⟨tb, htb⟩ := hv b hb
    obtain ⟨tc, htc⟩ := hv c hc
    simp only [compareFn, hta, htb, htc, Option.some.injEq]
    intro h1 h2 h3 h4
    exact ⟨tc - ta, rfl, by omega⟩
  · intro a ha b hb c hc v w
    obtain ⟨ta, hta⟩ := hv a ha
    obtain ⟨tb, htb⟩ := hv b hb
    obtain ⟨tc, htc⟩ := hv c hc
    simp only [compareFn, hta, htb, htc, Option.some.injEq]
    intro h1 h2 h3 h4
    exact ⟨tc - ta, rfl, by omega⟩

/-- Two lists sorted by a key, largest first, that hold for every key the same elements in
the same order are equal. -/
theorem sorted_filter_unique (key : α → Int) : ∀ (r s : List α),
    r.Sorted (fun a b => key b ≤ key a) → s.Sorted (fun a b => key b ≤ key a) →
    (∀ t, r.filter (fun x => decide (key x = t)) = s.filter (fun x => decide (key x = t))) →
    r = s
  | [], [], _, _, _ => rfl
  | [], b :: s, _, _, h => by
    have := h (key b)
    simp [List.filter_cons] at this
  | a :: r, [], _, _, h => by
    have := h (key a)
    simp [List.filter_cons] at this
  | a :: r, b :: s, hr, hs, h => by
    have hr' := List.sorted_cons.1 hr
    have hs' := List.sorted_cons.1 hs
    have hba : key b ≤ key a := by
      have hmem : b ∈ (a :: r).filter (fun x => decide (key x = key b)) := by
        rw [h (key b)]
        simp [List.filter_cons]
      have hb := (List.mem_filter.1 hmem).1
      rcases List.mem_cons.1 hb with hb | hb
      · rw [hb]
      · exact hr'.1 b hb
    have hab : key a ≤ key b := by
      have hmem : a ∈ (b :: s).filter (fun x => decide (key x = key a)) := by
        rw [← h (key a)]
        simp [List.filter_cons]
      have ha := (List.mem_filter.1 hmem).1
      rcases List.mem_cons.1 ha with ha | ha
      · rw [ha]
      · exact hs'.1 a ha
    have hkey : key b = key a := le_antisymm hba hab
    have h0 := h (key a)
    simp only [List.filter_cons, hkey, decide_True, if_true, List.cons.injEq] at h0
    obtain ⟨hhead, htail⟩ := h0
    subst hhead
    have hrest : ∀ t, r.filter (fun x => decide (key x = t))
        = s.filter (fun x => decide (key x = t)) := by
      intro t
      by_cases ht : key a = t
      · subst ht; exact htail
      · have := h t
        simpa [List.filter_cons, ht] using this
    rw [sorted_filter_unique key r s hr'.2 hs'.2 hrest]

/-- With every date valid, the sort of the model is the only list that is sorted newest first
and holds, for every timestamp, the feed's items of that timestamp in the order of the feed:
whatever a stable sort returns for this comparator, it is this list. -/
theorem jsSort_unique_stable (E : Engine) (items r : List FeedItem)
    (hvalid : ∀ it ∈ items, (E.dateValue it.pubDate).isSome)
    (hsorted : r.Sorted (fun a b => sortKey E b ≤ sortKey E a))
    (hstable : ∀ t, r.filter (fun x => decide (sortKey E x = t))
      = items.filter (fun x => decide (sortKey E x = t))) :
    r = jsSort (compareFn E) items := by
  apply sorted_filter_unique (sortKey E) r _ hsorted (jsSort_compareFn_sorted E items hvalid)
  intro t
  rw [hstable t]
  have hcongr : jsSort (compareFn E) items
      = items.insertionSort (fun a b => sortKey E b ≤ sortKey E a) :=
    insertionSort_congr items
      (fun a ha b hb => sortBefore_compareFn_iff E a b (hvalid a ha) (hvalid b hb))
  rw [hcongr]
  symm
  apply filter_insertionSort
  intro x y hx hy
  simp only [decide_eq_true_eq] at hx hy
  omega

/-- C11, as the claim states it, fails: a feed in which `a` comes before `b`, both with the
timestamp 5, and one other item has an invalid date. The comparator gives `NaN` on that item,
so it is not consistent and the engine need not keep ties in order: the binary insertion an
engine uses for short arrays puts `b` before `a`. -/
theorem engine_sort_unstable_with_invalid_date :
    ((fetchPostsWith shortArraySort exampleEngine (.data "ok".toList exampleFeedInvalidDate)
        none BlogPageState.initial).posts.map (fun p => p.title))
      = ["z".toList, "b".toList, "q".toList, "m".toList, "m2".toList, "n".toList, "a".toList]
    ∧ exampleEngine.dateValue (exampleItem "a" "5" none).pubDate = some 5
    ∧ exampleEngine.dateValue (exampleItem "b" "5" none).pubDate = some 5
    ∧ [exampleItem "a" "5" none, exampleItem "b" "5" none].Sublist exampleFeedInvalidDate
    ∧ ¬ [withImage exampleEngine (exampleItem "a" "5" none),
          withImage exampleEngine (exampleItem "b" "5" none)].Sublist
        (fetchPostsWith shortArraySort exampleEngine (.data "ok".toList exampleFeedInvalidDate)
          none BlogPageState.initial).posts
    ∧ compareFn exampleEngine (exampleItem "n" "soon" none) (exampleItem "a" "5" none) = none
    ∧ ¬ ConsistentComparator (compareFn exampleEngine) exampleFeedInvalidDate := by
  refine ⟨by decide, by decide, by decide, by decide, by decide, by decide, ?_⟩
  intro h
  obtain ⟨v, hv⟩ := h.1 (exampleItem "n" "soon" none) (by decide) (exampleItem "a" "5" none)
    (by decide)
  have hnone : compareFn exampleEngine (exampleItem "n" "soon" none) (exampleItem "a" "5" none)
      = none := by decide
  rw [hnone] at hv
  exact Option.noConfusion hv

/-- C11, amended: on a feed whose items all carry a valid publish date the comparator of
`fetchPosts` is consistent and the newest-first sort is stable: two items of the feed with the
same publish timestamp, the first before the second in the feed, are in that order in the
stored posts; and for each timestamp the posts carrying it are the feed's items carrying it, in
the order of the feed. -/
theorem fetchPosts_sort_stable (E : Engine) (items : List FeedItem) (showCount : Option Int)
    (st : BlogPageState) (a b : FeedItem) (t : Int)
    (hvalid : ∀ it ∈ items, (E.dateValue it.pubDate).isSome)
    (ha : E.dateValue a.pubDate = some t) (hb : E.dateValue b.pubDate = some t)
    (hab : [a, b].Sublist items) :
    ConsistentComparator (compareFn E) items
    ∧ [withImage E a, withImage E b].Sublist
        (fetchPosts E (.data "ok".toList items) showCount st).posts
    ∧ (fetchPosts E (.data "ok".toList items) showCount st).posts.filter
          (fun post => decide (E.dateValue post.pubDate = some t))
        = (items.filter (fun it => decide (E.dateValue it.pubDate = some t))).map
            (withImage E) := by
  rw [fetchPosts_posts_ok]
  refine ⟨compareFn_consistent E items hvalid, ?_, ?_⟩
  · have hr : sortBefore (compareFn E) a b := by simp [sortBefore, compareFn, ha, hb]
    have h := List.pair_sublist_insertionSort hr hab
    exact h.map (withImage E)
  · have hf : ∀ l : List FeedItem,
        (l.map (withImage E)).filter (fun post => decide (E.dateValue post.pubDate = some t))
          = (l.filter (fun it => decide (E.dateValue it.pubDate = some t))).map
              (withImage E) := by
      intro l
      rw [List.filter_map]
      rfl
    rw [hf]
    congr 1
    apply filter_insertionSort
    intro x y hx hy
    simp only [decide_eq_true_eq] at hx hy
    simp [sortBefore, compareFn, hx, hy]

/-- C11 (amended) at a feed of valid dates whose second and third items carry the same date. -/
theorem fetchPosts_sort_stable_witness :
    ((∀ it ∈ [exampleItem "a" "1000" none, exampleItem "b" "3000" none,
          exampleItem "c" "3000" none], (exampleEngine.dateValue it.pubDate).isSome)
      ∧ exampleEngine.dateValue (exampleItem "b" "3000" none).pubDate = some 3000
      ∧ exampleEngine.dateValue (exampleItem "c" "3000" none).pubDate = some 3000
      ∧ [exampleItem "b" "3000" none, exampleItem "c" "3000" none].Sublist
          [exampleItem "a" "1000" none, exampleItem "b" "3000" none,
            exampleItem "c" "3000" none])
    ∧ [withImage exampleEngine (exampleItem "b" "3000" none),
        withImage exampleEngine (exampleItem "c" "3000" none)].Sublist
        (fetchPosts exampleEngine (.data "ok".toList
            [exampleItem "a" "1000" none, exampleItem "b" "3000" none,
              exampleItem "c" "3000" none]) none BlogPageState.initial).posts
    ∧ (fetchPosts exampleEngine (.data "ok".toList
            [exampleItem "a" "1000" none, exampleItem "b" "3000" none,
              exampleItem "c" "3000" none]) none BlogPageState.initial).posts.filter
          (fun post => decide (exampleEngine.dateValue post.pubDate = some 3000))
        = ([exampleItem "a" "1000" none, exampleItem "b" "3000" none,
              exampleItem "c" "3000" none].filter
            (fun it => decide (exampleEngine.dateValue it.pubDate = some 3000))).map
            (withImage exampleEngine) :=
  ⟨⟨by decide, by decide, by decide, by decide⟩,
    (fetchPosts_sort_stable exampleEngine _ none BlogPageState.initial _ _ 3000
      (by decide) (by decide) (by decide) (by decide)).2⟩

/-- On a feed of valid dates the binary insertion gives the list of the model. -/
example : shortArraySort (compareFn exampleEngine)
      [exampleItem "a" "1000" none, exampleItem "b" "3000" none, exampleItem "c" "3000" none,
        exampleItem "d" "2000" none]
    = jsSort (compareFn exampleEngine)
      [exampleItem "a" "1000" none, exampleItem "b" "3000" none, exampleItem "c" "3000" none,
        exampleItem "d" "2000" none] := by decide

example : ((fetchPosts exampleEngine (.data "ok".toList
    [exampleItem "a" "1000" none, exampleItem "b" "3000" none, exampleItem "c" "3000" none])
    none BlogPageState.initial).posts.map (fun p => p.title))
    = ["b".toList, "c".toList, "a".toList] := by decide

/-- C12, as the claim states it, fails: a feed that lists one item twice gives two posts with
the same link. -/
theorem fetchPosts_keeps_duplicates :
    ((fetchPosts exampleEngine (.data "ok".toList
        [{ exampleItem "Post" "1000" none with link := "https://medium.com/p/1".toList },
          { exampleItem "Post" "1000" none with link := "https://medium.com/p/1".toList }])
        none BlogPageState.initial).posts.map (fun p => p.link))
      = ["https://medium.com/p/1".toList, "https://medium.com/p/1".toList]
    ∧ ¬ ((fetchPosts exampleEngine (.data "ok".toList
        [{ exampleItem "Post" "1000" none with link := "https://medium.com/p/1".toList },
          { exampleItem "Post" "1000" none with link := "https://medium.com/p/1".toList }])
        none BlogPageState.initial).posts.map (fun p => p.link)).Nodup := by
  refine ⟨by decide, by decide⟩

/-- C12, amended: `fetchPosts` stores one post for every item of the feed, repeated items
included: the links of the posts are the links of the feed's items with the same
multiplicities, so no link occurs twice among the posts exactly when none occurs twice in the
feed. -/
theorem fetchPosts_preserves_multiplicity (E : Engine) (items : List FeedItem)
    (showCount : Option Int) (st : BlogPageState) :
    ((fetchPosts E (.data "ok".toList items) showCount st).posts.map (fun p => p.link)).Perm
        (items.map (fun it => it.link))
    ∧ (fetchPosts E (.data "ok".toList items) showCount st).posts.length = items.length
    ∧ (((fetchPosts E (.data "ok".toList items) showCount st).posts.map
          (fun p => p.link)).Nodup ↔ (items.map (fun it => it.link)).Nodup) := by
  rw [fetchPosts_posts_ok]
  have hmap : ((jsSort (compareFn E) items).map (withImage E)).map (fun p => p.link)
      = (jsSort (compareFn E) items).map (fun it => it.link) := by
    rw [List.map_map]
    rfl
  have hperm : ((jsSort (compareFn E) items).map (fun it => it.link)).Perm
      (items.map (fun it => it.link)) := (jsSort_perm _ items).map _
  rw [hmap]
  refine ⟨hperm, ?_, hperm.nodup_iff⟩
  rw [List.length_map]
  exact (jsSort_perm _ items).length_eq

/-! ### `blogSchema` on numbers that are not integers -/

theorem zNumberMinMax_ok_iff (path : String) (lo hi : ℚ) (loMessage hiMessage : String)
    (x : JsNumber) :
    (∃ n, zNumberMinMax path lo loMessage hi hiMessage (.number x) = .ok n)
      ↔ x.ltRat lo = false ∧ x.gtRat hi = false ∧ x ≠ .nan := by
  cases x with
  | nan => simp [zNumberMinMax]
  | posInf => simp [zNumberMinMax, JsNumber.ltRat, JsNumber.gtRat]
  | negInf => simp [zNumberMinMax, JsNumber.ltRat, JsNumber.gtRat]
  | finite q =>
    by_cases h1 : q < lo <;> by_cases h2 : hi < q <;>
      simp [zNumberMinMax, JsNumber.ltRat, JsNumber.gtRat, h1, h2]

/-- With every other field valid, `blogSchema` accepts exactly when the `showCount` field
parses. -/
theorem blogSchema_ok_iff_showCount (isUrl : JsString → Bool) (h d u : JsString)
    (p t e : Bool) (hero : JsValue) (v : JsValue) (hh : h ≠ []) (hd : d ≠ []) (hu : u ≠ [])
    (hhero : hero = .undefined ∨ hero = .string []
      ∨ ∃ s, hero = .string s ∧ isUrl s = true) :
    (∃ data, blogSchema isUrl
        { heading := .string h, description := .string d, mediumUsername := .string u,
          showCount := v, showProfile := .bool p, showTags := .bool t,
          enableSearch := .bool e, heroImage := hero } = .ok data)
      ↔ ∃ n, zNumberMinMax "showCount" 1 "En az 1 yazı gösterilmelidir" 50
          "En fazla 50 yazı gösterilebilir" v = .ok n := by
  obtain ⟨img, himg⟩ := zUrlOptionalOrEmpty_ok isUrl "heroImage"
    "Geçerli bir resim URL\x27si giriniz" hero hhero
  cases hn : zNumberMinMax "showCount" 1 "En az 1 yazı gösterilmelidir" 50
      "En fazla 50 yazı gösterilebilir" v with
  | ok n => simp [blogSchema, zStringMin1_ok, hh, hd, hu, hn, himg, zBoolean]
  | error issues => simp [blogSchema, zStringMin1_ok, hh, hd, hu, hn, himg, zBoolean]

/-- C13, as the claim states it, fails: with every other field valid, the non-integer
`showCount` 2.5 is accepted. -/
theorem blogSchema_accepts_fraction :
    blogSchema exampleIsUrl (exampleBlogInput (.finite (5 / 2)))
      = .ok { heading := "Blog".toList, description := "Posts".toList,
              mediumUsername := "someone".toList, showCount := .finite (5 / 2),
              showProfile := true, showTags := true, enableSearch := false,
              heroImage := some [] } := by
  norm_num [blogSchema, exampleBlogInput, zStringMin1, zNumberMinMax, JsNumber.ltRat,
    JsNumber.gtRat, zBoolean, zUrlOptionalOrEmpty, exampleIsUrl]

/-- C13, amended: with every other field valid, `blogSchema` accepts a `showCount` exactly
when it is a finite number `q` with `1 ≤ q ≤ 50`, whether `q` is an integer or not; `NaN`,
the infinities and values that are not numbers are rejected. -/
theorem blogSchema_showCount_any_number (isUrl : JsString → Bool) (h d u : JsString)
    (p t e : Bool) (hero : JsValue) (v : JsValue) (hh : h ≠ []) (hd : d ≠ []) (hu : u ≠ [])
    (hhero : hero = .undefined ∨ hero = .string []
      ∨ ∃ s, hero = .string s ∧ isUrl s = true) :
    (∃ data, blogSchema isUrl
        { heading := .string h, description := .string d, mediumUsername := .string u,
          showCount := v, showProfile := .bool p, showTags := .bool t,
          enableSearch := .bool e, heroImage := hero } = .ok data)
      ↔ ∃ q : ℚ, v = .number (.finite q) ∧ 1 ≤ q ∧ q ≤ 50 := by
  rw [blogSchema_ok_iff_showCount isUrl h d u p t e hero v hh hd hu hhero]
  cases v with
  | number x =>
    rw [zNumberMinMax_ok_iff]
    cases x with
    | finite q =>
      simp only [JsNumber.ltRat, JsNumber.gtRat, decide_eq_false_iff_not, not_lt, ne_eq,
        reduceCtorEq, not_false_eq_true, and_true, JsValue.number.injEq, JsNumber.finite.injEq]
      constructor
      · rintro ⟨h1, h2⟩
        exact ⟨q, rfl, h1, h2⟩
      · rintro ⟨q', rfl, h1, h2⟩
        exact ⟨h1, h2⟩
    | nan => simp
    | posInf => simp [JsNumber.gtRat]
    | negInf => simp [JsNumber.ltRat]
  | undefined => simp [zNumberMinMax]
  | null => simp [zNumberMinMax]
  | bool b => simp [zNumberMinMax]
  | string s => simp [zNumberMinMax]

/-- C13 (amended) at `showCount = 2.5`. -/
theorem blogSchema_showCount_any_number_witness :
    ("Blog".toList ≠ [] ∧ "Posts".toList ≠ [] ∧ "someone".toList ≠ []
      ∧ (JsValue.string [] = .undefined ∨ JsValue.string [] = .string []
        ∨ ∃ s, JsValue.string [] = .string s ∧ exampleIsUrl s = true))
    ∧ ((∃ data, blogSchema exampleIsUrl
          { heading := .string "Blog".toList, description := .string "Posts".toList,
            mediumUsername := .string "someone".toList,
            showCount := .number (.finite (5 / 2)), showProfile := .bool true,
            showTags := .bool true, enableSearch := .bool false, heroImage := .string [] }
          = .ok data)
        ↔ ∃ q : ℚ, JsValue.number (.finite (5 / 2)) = .number (.finite q) ∧ 1 ≤ q ∧ q ≤ 50) :=
  ⟨⟨by decide, by decide, by decide, Or.inr (Or.inl rfl)⟩,
    blogSchema_showCount_any_number exampleIsUrl "Blog".toList "Posts".toList
      "someone".toList true true false (.string []) (.number (.finite (5 / 2)))
      (by decide) (by decide) (by decide) (Or.inr (Or.inl rfl))⟩

/-! ### `projectSchema` -/

theorem zStringMin1_ok_iff (path message : String) (v : JsValue) :
    (∃ s, zStringMin1 path message v = .ok s) ↔ v.isNonEmptyString = true := by
  cases v with
  | string s =>
    cases s with
    | nil => simp [zStringMin1, JsValue.isNonEmptyString]
    | cons c cs => simp [zStringMin1, JsValue.isNonEmptyString]
  | undefined => simp [zStringMin1, JsValue.isNonEmptyString]
  | null => simp [zStringMin1, JsValue.isNonEmptyString]
  | bool b => simp [zStringMin1, JsValue.isNonEmptyString]
  | number x => simp [zStringMin1, JsValue.isNonEmptyString]

theorem zUrlOptionalOrEmpty_ok_iff (isUrl : JsString → Bool) (path message : String)
    (v : JsValue) :
    (∃ u, zUrlOptionalOrEmpty isUrl path message v = .ok u)
      ↔ v.isAbsentEmptyOrUrl isUrl = true := by
  cases v with
  | string s =>
    by_cases h1 : isUrl s = true
    · simp [zUrlOptionalOrEmpty, JsValue.isAbsentEmptyOrUrl, h1]
    · by_cases h2 : s = []
      · simp [zUrlOptionalOrEmpty, JsValue.isAbsentEmptyOrUrl, h1, h2]
      · have h3 : s.isEmpty = false := by cases s <;> simp_all
        simp [zUrlOptionalOrEmpty, JsValue.isAbsentEmptyOrUrl, h1, h2, h3]
  | undefined => simp [zUrlOptionalOrEmpty, JsValue.isAbsentEmptyOrUrl]
  | null => simp [zUrlOptionalOrEmpty, JsValue.isAbsentEmptyOrUrl]
  | bool b => simp [zUrlOptionalOrEmpty, JsValue.isAbsentEmptyOrUrl]
  | number x => simp [zUrlOptionalOrEmpty, JsValue.isAbsentEmptyOrUrl]

theorem zStringOptional_ofOptionString (path : String) (technologies : Option JsString) :
    zStringOptional path (JsValue.ofOptionString technologies) = .ok technologies := by
  cases technologies <;> rfl

/-- The object schema accepts exactly when each of its fields parses. -/
theorem projectSchema_ok_iff_fields (isUrl : JsString → Bool) (input : ProjectInput) :
    (∃ data, projectSchema isUrl input = .ok data)
      ↔ (∃ t, zStringMin1 "title" "Başlık gereklidir" input.title = .ok t)
        ∧ (∃ d, zStringMin1 "description" "Açıklama gereklidir" input.description = .ok d)
        ∧ (∃ g, zUrlOptionalOrEmpty isUrl "githubUrl" "Geçerli bir GitHub URL\x27si giriniz"
            input.githubUrl = .ok g)
        ∧ (∃ l, zUrlOptionalOrEmpty isUrl "demoUrl" "Geçerli bir demo URL\x27si giriniz"
            input.demoUrl = .ok l)
        ∧ (∃ tech, zStringOptional "technologies" input.technologies = .ok tech) := by
  unfold projectSchema
  cases zStringMin1 "title" "Başlık gereklidir" input.title <;>
    cases zStringMin1 "description" "Açıklama gereklidir" input.description <;>
    cases zUrlOptionalOrEmpty isUrl "githubUrl" "Geçerli bir GitHub URL\x27si giriniz"
      input.githubUrl <;>
    cases zUrlOptionalOrEmpty isUrl "demoUrl" "Geçerli bir demo URL\x27si giriniz"
      input.demoUrl <;>
    cases zStringOptional "technologies" input.technologies <;> simp

/-- C16: for a form input (any values in `title`, `description`, `githubUrl`, `demoUrl`; the
text field `technologies` a string or absent) `projectSchema` accepts exactly when the title
and the description are non-empty strings and each of `githubUrl` and `demoUrl` is absent,
the empty string or a well-formed URL; and every input whose title is the empty string is
rejected with an issue on the path `title`. -/
theorem projectSchema_accepts_iff (isUrl : JsString → Bool)
    (title description githubUrl demoUrl : JsValue) (technologies : Option JsString) :
    ((∃ data, projectSchema isUrl
        { title := title, description := description, githubUrl := githubUrl,
          demoUrl := demoUrl, technologies := JsValue.ofOptionString technologies } = .ok data)
      ↔ (title.isNonEmptyString = true ∧ description.isNonEmptyString = true
          ∧ githubUrl.isAbsentEmptyOrUrl isUrl = true
          ∧ demoUrl.isAbsentEmptyOrUrl isUrl = true))
    ∧ (∀ input : ProjectInput, input.title = .string [] →
        ∃ issues, projectSchema isUrl input = .error issues
          ∧ ∃ i ∈ issues, i.path = "title") := by
  constructor
  · rw [projectSchema_ok_iff_fields]
    simp only [zStringMin1_ok_iff, zUrlOptionalOrEmpty_ok_iff, zStringOptional_ofOptionString,
      Except.ok.injEq, exists_eq', and_true]
  · intro input ht
    have h1 : zStringMin1 "title" "Başlık gereklidir" input.title
        = .error [{ path := "title", code := .too_small,
                    message := some "Başlık gereklidir" }] := by
      rw [ht]; rfl
    refine ⟨issuesOf (zStringMin1 "title" "Başlık gereklidir" input.title)
      ++ issuesOf (zStringMin1 "description" "Açıklama gereklidir" input.description)
      ++ issuesOf (zUrlOptionalOrEmpty isUrl "githubUrl"
          "Geçerli bir GitHub URL\x27si giriniz" input.githubUrl)
      ++ issuesOf (zUrlOptionalOrEmpty isUrl "demoUrl"
          "Geçerli bir demo URL\x27si giriniz" input.demoUrl)
      ++ issuesOf (zStringOptional "technologies" input.technologies), ?_, ?_⟩
    · unfold projectSchema
      rw [h1]
    · refine ⟨{ path := "title", code := .too_small, message := some "Başlık gereklidir" },
        ?_, rfl⟩
      rw [h1]
      simp [issuesOf]

example : (∃ data, projectSchema exampleIsUrl exampleProjectInput = .ok data) := ⟨_, rfl⟩

example : projectSchema exampleIsUrl { exampleProjectInput with demoUrl := .string "x".toList }
    = .error [{ path := "demoUrl", code := .invalid_string,
                message := some "Geçerli bir demo URL\x27si giriniz" }] := by rfl

/-! ### The list editors -/

example : socialMediaSchema exampleIsUrl
    [{ name := .string "GitHub".toList, url := .string [], icon := .string "i".toList,
       order := .number .nan }]
    = .error [{ path := "platforms.0.url", code := .invalid_string,
                message := some "Geçerli bir URL giriniz" },
              { path := "platforms.0.order", code := .invalid_type, message := none }] := by
  rfl

example : technologySchema [{ name := .string [], technologies := [] }]
    = .error [{ path := "categories.0.name", code := .too_small,
                message := some "Kategori adı gereklidir" },
              { path := "categories.0.technologies", code := .too_small,
                message := some "En az bir teknoloji giriniz" }] := by
  rfl

example : filterIndexNe [10, 11, 12, 13] 1 = [10, 12, 13] := by decide

theorem zArrayFrom_ok_iff {element : Nat → ι → Except (List Issue) ο} {good : ι → Prop}
    (hgood : ∀ i x, (∃ v, element i x = .ok v) ↔ good x) :
    ∀ (l : List ι) (start : Nat),
      (∃ vs, zArrayFrom element start l = .ok vs) ↔ ∀ x ∈ l, good x
  | [], _ => by simp [zArrayFrom]
  | x :: xs, start => by
    have ih := zArrayFrom_ok_iff hgood xs (start + 1)
    have hx := hgood start x
    simp only [List.mem_cons, forall_eq_or_imp, ← ih, ← hx]
    cases h1 : element start x <;> cases h2 : zArrayFrom element (start + 1) xs <;>
      simp [zArrayFrom, h1, h2]

theorem zString_ok_iff (path : String) (v : JsValue) :
    (∃ s, zString path v = .ok s) ↔ ∃ s, v = .string s := by
  cases v <;> simp [zString]

theorem zStringArrayMin1_ok_iff (path message : String) (l : List JsValue) :
    (∃ vs, zStringArrayMin1 path message l = .ok vs)
      ↔ l ≠ [] ∧ ∀ t ∈ l, ∃ s, t = .string s := by
  have harr := @zArrayFrom_ok_iff JsValue JsString
    (fun i v => zString (path ++ "." ++ toString i) v)
    (fun v => ∃ s, v = .string s) (fun i x => zString_ok_iff _ x) l 0
  rw [← harr]
  unfold zStringArrayMin1 zArray
  cases l with
  | nil => simp [zArrayFrom]
  | cons x xs =>
    cases zArrayFrom (fun i v => zString (path ++ "." ++ toString i) v) 0 (x :: xs) <;> simp

theorem categorySchema_ok_iff (index : Nat) (c : CategoryInput) :
    (∃ v, categorySchema index c = .ok v)
      ↔ c.name.isNonEmptyString = true ∧ c.technologies ≠ []
        ∧ ∀ t ∈ c.technologies, ∃ s, t = .string s := by
  rw [← zStringMin1_ok_iff (elementPath "categories" index ".name") "Kategori adı gereklidir",
    ← zStringArrayMin1_ok_iff (elementPath "categories" index ".technologies")
      "En az bir teknoloji giriniz"]
  unfold categorySchema
  cases zStringMin1 (elementPath "categories" index ".name") "Kategori adı gereklidir" c.name <;>
    cases zStringArrayMin1 (elementPath "categories" index ".technologies")
      "En az bir teknoloji giriniz" c.technologies <;> simp

/-- C14, as the claim states it, fails: a category with a name whose technologies are `[""]`,
the default of `addCategory`, is accepted. -/
theorem technologySchema_accepts_blank_technology :
    technologySchema
        [{ name := .string "Frontend".toList,
           technologies := blankCategory.technologies.map JsValue.string }]
      = .ok [{ name := "Frontend".toList, technologies := [[]] }]
    ∧ blankCategory.technologies = [[]] := by
  refine ⟨by rfl, rfl⟩

/-- C14, amended: `technologySchema` accepts a categories list exactly when every category has
a non-empty name and a non-empty sequence of technology names each of which is a string,
empty or not. -/
theorem technologySchema_accepts_iff (categories : List CategoryInput) :
    (∃ data, technologySchema categories = .ok data)
      ↔ ∀ c ∈ categories, c.name.isNonEmptyString = true ∧ c.technologies ≠ []
          ∧ ∀ t ∈ c.technologies, ∃ s, t = .string s :=
  zArrayFrom_ok_iff (fun i c => categorySchema_ok_iff i c) categories 0

theorem zStringUrl_ok_iff (isUrl : JsString → Bool) (path message : String) (v : JsValue) :
    (∃ s, zStringUrl isUrl path message v = .ok s) ↔ ∃ s, v = .string s ∧ isUrl s = true := by
  cases v with
  | string s => by_cases h : isUrl s = true <;> simp [zStringUrl, h]
  | undefined => simp [zStringUrl]
  | null => simp [zStringUrl]
  | bool b => simp [zStringUrl]
  | number x => simp [zStringUrl]

theorem zNumber_ok_iff (path : String) (v : JsValue) :
    (∃ x, zNumber path v = .ok x) ↔ ∃ x, v = .number x ∧ x ≠ .nan := by
  cases v with
  | number x => cases x <;> simp [zNumber]
  | undefined => simp [zNumber]
  | null => simp [zNumber]
  | bool b => simp [zNumber]
  | string s => simp [zNumber]

theorem platformSchema_ok_iff (isUrl : JsString → Bool) (index : Nat) (p : PlatformInput) :
    (∃ v, platformSchema isUrl index p = .ok v)
      ↔ p.name.isNonEmptyString = true ∧ (∃ s, p.url = .string s ∧ isUrl s = true)
        ∧ p.icon.isNonEmptyString = true ∧ ∃ x, p.order = .number x ∧ x ≠ .nan := by
  rw [← zStringMin1_ok_iff (elementPath "platforms" index ".name") "Platform adı gereklidir",
    ← zStringUrl_ok_iff isUrl (elementPath "platforms" index ".url") "Geçerli bir URL giriniz",
    ← zStringMin1_ok_iff (elementPath "platforms" index ".icon") "İkon gereklidir",
    ← zNumber_ok_iff (elementPath "platforms" index ".order")]
  unfold platformSchema
  cases zStringMin1 (elementPath "platforms" index ".name") "Platform adı gereklidir" p.name <;>
    cases zStringUrl isUrl (elementPath "platforms" index ".url") "Geçerli bir URL giriniz"
      p.url <;>
    cases zStringMin1 (elementPath "platforms" index ".icon") "İkon gereklidir" p.icon <;>
    cases zNumber (elementPath "platforms" index ".order") p.order <;> simp

/-- C15, as the claim states it, fails: a platform with valid name, url and icon and the
non-integer `order` 1.5 is accepted. -/
theorem socialMediaSchema_accepts_fraction :
    socialMediaSchema exampleIsUrl
        [{ name := .string "GitHub".toList, url := .string "https://github.com/u".toList,
           icon := .string "fa-github".toList, order := .number (.finite (3 / 2)) }]
      = .ok [{ name := "GitHub".toList, url := "https://github.com/u".toList,
               icon := "fa-github".toList, order := .finite (3 / 2) }] := by
  rfl

/-- C15, amended: `socialMediaSchema` accepts a platforms list exactly when every platform has
a non-empty name, a url that is a well-formed URL, a non-empty icon identifier and an `order`
that is a number other than `NaN`, integer or not. -/
theorem socialMediaSchema_accepts_iff (isUrl : JsString → Bool)
    (platforms : List PlatformInput) :
    (∃ data, socialMediaSchema isUrl platforms = .ok data)
      ↔ ∀ p ∈ platforms, p.name.isNonEmptyString = true
          ∧ (∃ s, p.url = .string s ∧ isUrl s = true)
          ∧ p.icon.isNonEmptyString = true ∧ ∃ x, p.order = .number x ∧ x ≠ .nan :=
  zArrayFrom_ok_iff (fun i p => platformSchema_ok_iff isUrl i p) platforms 0

theorem filter_enumFrom_ne_of_lt (l : List α) (k i : Nat) (h : i < k) :
    ((l.enumFrom k).filter (fun ip => ip.1 != i)).map Prod.snd = l := by
  induction l generalizing k with
  | nil => rfl
  | cons x xs ih =>
    have hk : (k != i) = true := by simp; omega
    simp only [List.enumFrom_cons, List.filter_cons, hk, if_true, List.map_cons]
    rw [ih (k + 1) (by omega)]

theorem filter_enumFrom_eq_eraseIdx (l : List α) (k i : Nat) :
    ((l.enumFrom k).filter (fun ip => ip.1 != k + i)).map Prod.snd = l.eraseIdx i := by
  induction l generalizing k i with
  | nil => rfl
  | cons x xs ih =>
    cases i with
    | zero =>
      simp only [List.enumFrom_cons, List.filter_cons, Nat.add_zero, bne_self_eq_false,
        Bool.false_eq_true, if_false, List.eraseIdx_cons_zero]
      exact filter_enumFrom_ne_of_lt xs (k + 1) k (by omega)
    | succ j =>
      have hk : (k != k + (j + 1)) = true := by simp
      simp only [List.enumFrom_cons, List.filter_cons, hk, if_true, List.map_cons,
        List.eraseIdx_cons_succ]
      have := ih (k + 1) j
      rw [show k + 1 + j = k + (j + 1) by omega] at this
      rw [this]

theorem filterIndexNe_eq_eraseIdx (l : List α) (index : Nat) :
    filterIndexNe l index = l.eraseIdx index := by
  have := filter_enumFrom_eq_eraseIdx l 0 index
  simpa [filterIndexNe, List.enum] using this

/-- The facts of a deletion by position. -/
theorem eraseIdx_facts (l : List α) (index : Nat) :
    (index < l.length →
        (l.eraseIdx index).length = l.length - 1
        ∧ (∀ j, j < index → (l.eraseIdx index)[j]? = l[j]?)
        ∧ (∀ j, index ≤ j → (l.eraseIdx index)[j]? = l[j + 1]?))
    ∧ (l.length ≤ index → l.eraseIdx index = l) :=
  ⟨fun h => ⟨List.length_eraseIdx_of_lt h,
      fun j hj => List.getElem?_eraseIdx_of_lt l index j hj,
      fun j hj => List.getElem?_eraseIdx_of_ge l index j hj⟩,
    fun h => List.eraseIdx_of_length_le h⟩

/-- C18: `removePlatform(index)` and `removeCategory(index)` turn the list of length `n` into
the list with the element at position `index` deleted (and write it to the form): for
`index < n` its length is `n - 1`, the elements before `index` keep their index, the elements
after it move down by one; for `index ≥ n` the list is unchanged. -/
theorem remove_deletes_at_index (st : SocialMediaState) (ts : TechnologiesState)
    (index : Nat) :
    ((removePlatform index st).platforms = st.platforms.eraseIdx index
      ∧ (removePlatform index st).formPlatforms = (removePlatform index st).platforms
      ∧ (index < st.platforms.length →
          (removePlatform index st).platforms.length = st.platforms.length - 1
          ∧ (∀ j, j < index → (removePlatform index st).platforms[j]? = st.platforms[j]?)
          ∧ (∀ j, index ≤ j →
              (removePlatform index st).platforms[j]? = st.platforms[j + 1]?))
      ∧ (st.platforms.length ≤ index → (removePlatform index st).platforms = st.platforms))
    ∧ ((removeCategory index ts).categories = ts.categories.eraseIdx index
      ∧ (removeCategory index ts).formCategories = (removeCategory index ts).categories
      ∧ (index < ts.categories.length →
          (removeCategory index ts).categories.length = ts.categories.length - 1
          ∧ (∀ j, j < index → (removeCategory index ts).categories[j]? = ts.categories[j]?)
          ∧ (∀ j, index ≤ j →
              (removeCategory index ts).categories[j]? = ts.categories[j + 1]?))
      ∧ (ts.categories.length ≤ index →
          (removeCategory index ts).categories = ts.categories)) := by
  have hp : (removePlatform index st).platforms = st.platforms.eraseIdx index :=
    filterIndexNe_eq_eraseIdx _ _
  have hc : (removeCategory index ts).categories = ts.categories.eraseIdx index :=
    filterIndexNe_eq_eraseIdx _ _
  refine ⟨⟨hp, rfl, ?_, ?_⟩, ⟨hc, rfl, ?_, ?_⟩⟩
  · rw [hp]; exact (eraseIdx_facts st.platforms index).1
  · rw [hp]; exact (eraseIdx_facts st.platforms index).2
  · rw [hc]; exact (eraseIdx_facts ts.categories index).1
  · rw [hc]; exact (eraseIdx_facts ts.categories index).2

/-- C18 at a list of three platforms and index 1. -/
theorem remove_deletes_at_index_witness :
    (removePlatform 1
        { isLoading := false,
          platforms := [examplePlatform "a", examplePlatform "b", examplePlatform "c"],
          formPlatforms := [examplePlatform "a", examplePlatform "b", examplePlatform "c"] }
        ).platforms
      = [examplePlatform "a", examplePlatform "b", examplePlatform "c"].eraseIdx 1
    ∧ [examplePlatform "a", examplePlatform "b", examplePlatform "c"].eraseIdx 1
      = [examplePlatform "a", examplePlatform "c"] :=
  ⟨(remove_deletes_at_index
      { isLoading := false,
        platforms := [examplePlatform "a", examplePlatform "b", examplePlatform "c"],
        formPlatforms := [examplePlatform "a", examplePlatform "b", examplePlatform "c"] }
      exampleTechnologiesLoaded 1).1.1, by decide⟩

/-- When the form holds no unsaved edit, `addPlatform` and `addCategory` append the blank item
to the form list. -/
theorem add_appends_when_synced (st : SocialMediaState) (ts : TechnologiesState)
    (hs : st.formPlatforms = st.platforms) (ht : ts.formCategories = ts.categories) :
    (addPlatform st).formPlatforms
        = st.formPlatforms ++ [blankPlatform st.formPlatforms.length]
    ∧ (addCategory ts).formCategories = ts.formCategories ++ [blankCategory] := by
  simp [addPlatform, addCategory, hs, ht]

/-- C17: one platform `GitHub` is loaded and the operator renames it `GitLab` in the form
without saving; `addPlatform` then leaves the form list `GitHub`, blank: the edit is gone,
while the claim gives `GitLab`, blank. The same with `addCategory` after renaming the loaded
category `Frontend` to `Backend`. -/
theorem add_discards_unsaved_edits :
    (editPlatform 0 (examplePlatform "GitLab") exampleSocialLoaded).formPlatforms
        = [examplePlatform "GitLab"]
    ∧ (addPlatform (editPlatform 0 (examplePlatform "GitLab") exampleSocialLoaded)).formPlatforms
        = [examplePlatform "GitHub", blankPlatform 1]
    ∧ (addPlatform (editPlatform 0 (examplePlatform "GitLab") exampleSocialLoaded)).formPlatforms
        ≠ (editPlatform 0 (examplePlatform "GitLab") exampleSocialLoaded).formPlatforms
            ++ [blankPlatform 1]
    ∧ (editCategory 0 (exampleCategory "Backend") exampleTechnologiesLoaded).formCategories
        = [exampleCategory "Backend"]
    ∧ (addCategory (editCategory 0 (exampleCategory "Backend")
          exampleTechnologiesLoaded)).formCategories
        = [exampleCategory "Frontend", blankCategory] := by
  refine ⟨by decide, by decide, by decide, by decide, by decide⟩

/-! ### Submitting a list editor -/

theorem zArrayFrom_map_ok {element : Nat → ι → Except (List Issue) ο} {f : ο → ι}
    (h : ∀ i x v, element i (f x) = .ok v → v = x) :
    ∀ (l : List ο) (start : Nat) (vs : List ο),
      zArrayFrom element start (l.map f) = .ok vs → vs = l
  | [], _, vs, hvs => by
    simp only [List.map_nil, zArrayFrom, Except.ok.injEq] at hvs
    exact hvs.symm
  | x :: xs, start, vs, hvs => by
    simp only [List.map_cons, zArrayFrom] at hvs
    cases h1 : element start (f x) with
    | error e => simp [h1] at hvs
    | ok v =>
      cases h2 : zArrayFrom element (start + 1) (xs.map f) with
      | error e => simp [h1, h2] at hvs
      | ok ws =>
        simp only [h1, h2, Except.ok.injEq] at hvs
        rw [← hvs, h start x v h1, zArrayFrom_map_ok h xs (start + 1) ws h2]

theorem platformSchema_toInput (isUrl : JsString → Bool) (index : Nat) (p v : Platform)
    (h : platformSchema isUrl index p.toInput = .ok v) : v = p := by
  unfold platformSchema at h
  cases h1 : zStringMin1 (elementPath "platforms" index ".name") "Platform adı gereklidir"
      p.toInput.name <;>
    cases h2 : zStringUrl isUrl (elementPath "platforms" index ".url")
      "Geçerli bir URL giriniz" p.toInput.url <;>
    cases h3 : zStringMin1 (elementPath "platforms" index ".icon") "İkon gereklidir"
      p.toInput.icon <;>
    cases h4 : zNumber (elementPath "platforms" index ".order") p.toInput.order <;>
    simp only [h1, h2, h3, h4, reduceCtorEq] at h
  rename_i n u i o
  simp only [Except.ok.injEq] at h
  subst h
  have e1 : n = p.name := by
    simp only [Platform.toInput, zStringMin1] at h1
    split at h1 <;> simp_all
  have e2 : u = p.url := by
    simp only [Platform.toInput, zStringUrl] at h2
    split at h2 <;> simp_all
  have e3 : i = p.icon := by
    simp only [Platform.toInput, zStringMin1] at h3
    split at h3 <;> simp_all
  have e4 : o = p.order := by
    simp only [Platform.toInput] at h4
    cases hq : p.order <;> simp_all [zNumber]
  subst e1 e2 e3 e4
  rfl

theorem categorySchema_toInput (index : Nat) (c v : Category)
    (h : categorySchema index c.toInput = .ok v) : v = c := by
  unfold categorySchema at h
  cases h1 : zStringMin1 (elementPath "categories" index ".name") "Kategori adı gereklidir"
      c.toInput.name <;>
    cases h2 : zStringArrayMin1 (elementPath "categories" index ".technologies")
      "En az bir teknoloji giriniz" c.toInput.technologies <;>
    simp only [h1, h2, reduceCtorEq] at h
  rename_i n t
  simp only [Except.ok.injEq] at h
  subst h
  have e1 : n = c.name := by
    simp only [Category.toInput, zStringMin1] at h1
    split at h1 <;> simp_all
  have e2 : t = c.technologies := by
    simp only [Category.toInput, zStringArrayMin1, zArray] at h2
    cases h3 : zArrayFrom (fun i v =>
        zString (elementPath "categories" index ".technologies" ++ "." ++ toString i) v) 0
        (c.technologies.map JsValue.string) with
    | error e => simp [h3] at h2
    | ok ws =>
      have hws := @zArrayFrom_map_ok JsValue JsString (fun i v =>
          zString (elementPath "categories" index ".technologies" ++ "." ++ toString i) v)
        JsValue.string (fun i x v hv => by simpa [zString] using hv.symm)
        c.technologies 0 ws h3
      simp only [h3] at h2
      subst hws
      split at h2 <;> simp_all
  subst e1 e2
  rfl

theorem socialMedia_onSubmit_spec (env : EditorEnv) (store : StoredDoc Platform)
    (st : SocialMediaState) (platforms : List Platform) :
    SubmitSpec "socialMedia" "platforms" env store platforms (fun s => s.platforms) st
      (SocialMedia.onSubmit env store st platforms) := by
  unfold SubmitSpec SocialMedia.onSubmit storeUpdate
  cases store with
  | none => simp [EditorCall.isUpdate]
  | some field =>
    by_cases hu : env.updateFulfilled = true
    · by_cases hf : env.fetchFulfilled = true
      · simp [hu, hf, EditorCall.isUpdate, storeGet, fetchSocialMedia]
      · simp [hu, hf, EditorCall.isUpdate, storeGet, fetchSocialMedia]
    · simp [hu, EditorCall.isUpdate]

theorem technologies_onSubmit_spec (env : EditorEnv) (store : StoredDoc Category)
    (ts : TechnologiesState) (categories : List Category) :
    SubmitSpec "technologies" "categories" env store categories (fun s => s.categories) ts
      (Technologies.onSubmit env store ts categories) := by
  unfold SubmitSpec Technologies.onSubmit storeUpdate
  cases store with
  | none => simp [EditorCall.isUpdate]
  | some field =>
    by_cases hu : env.updateFulfilled = true
    · by_cases hf : env.fetchFulfilled = true
      · simp [hu, hf, EditorCall.isUpdate, storeGet, fetchTechnologies]
      · simp [hu, hf, EditorCall.isUpdate, storeGet, fetchTechnologies]
    · simp [hu, EditorCall.isUpdate]

/-- C19: a submit of the social media editor, and of the technologies editor, whose form array
is valid makes exactly one `updateDocument`, on `socialMedia/main` (resp. `technologies/main`),
setting `platforms` (resp. `categories`) to the entire form array; when the update is fulfilled
it is followed by a `getDocument` of the same document, the store holds the submitted array,
and the local list becomes the fetched array (a fetched document without the field gives the
empty list; a rejected re-fetch leaves the list as it was); when the update fails no re-fetch
is made and the local state is unchanged. -/
theorem editors_submit_spec (isUrl : JsString → Bool) (env : EditorEnv)
    (store : StoredDoc Platform) (st : SocialMediaState) (storeT : StoredDoc Category)
    (ts : TechnologiesState) (data : List Platform) (dataT : List Category)
    (hv : socialMediaSchema isUrl (st.formPlatforms.map Platform.toInput) = .ok data)
    (hvT : technologySchema (ts.formCategories.map Category.toInput) = .ok dataT) :
    SubmitSpec "socialMedia" "platforms" env store st.formPlatforms (fun s => s.platforms) st
        (SocialMedia.handleSubmit isUrl env store st)
    ∧ SubmitSpec "technologies" "categories" env storeT ts.formCategories
        (fun s => s.categories) ts (Technologies.handleSubmit env storeT ts)
    ∧ (∀ field s, (fetchSocialMedia (.found field) s).platforms = field.getD [])
    ∧ (∀ field s, (fetchTechnologies (.found field) s).categories = field.getD []) := by
  have hd : data = st.formPlatforms :=
    zArrayFrom_map_ok (fun i x v h => platformSchema_toInput isUrl i x v h) _ 0 data hv
  have hdT : dataT = ts.formCategories :=
    zArrayFrom_map_ok (fun i x v h => categorySchema_toInput i x v h) _ 0 dataT hvT
  subst hd hdT
  refine ⟨?_, ?_, fun _ _ => rfl, fun _ _ => rfl⟩
  · have : SocialMedia.handleSubmit isUrl env store st
        = SocialMedia.onSubmit env store st st.formPlatforms := by
      simp [SocialMedia.handleSubmit, hv]
    rw [this]
    exact socialMedia_onSubmit_spec env store st st.formPlatforms
  · have : Technologies.handleSubmit env storeT ts
        = Technologies.onSubmit env storeT ts ts.formCategories := by
      simp [Technologies.handleSubmit, hvT]
    rw [this]
    exact technologies_onSubmit_spec env storeT ts ts.formCategories

/-- C19 at the two loaded editors after renaming their item, every call fulfilled. -/
theorem editors_submit_spec_witness :
    (socialMediaSchema exampleIsUrl
        ((editPlatform 0 (examplePlatform "GitLab") exampleSocialLoaded).formPlatforms.map
          Platform.toInput) = .ok [examplePlatform "GitLab"]
      ∧ technologySchema
        ((editCategory 0 (exampleCategory "Backend")
          exampleTechnologiesLoaded).formCategories.map Category.toInput)
        = .ok [exampleCategory "Backend"])
    ∧ SubmitSpec "socialMedia" "platforms" exampleEditorEnv
        (some (some [examplePlatform "GitHub"]))
        (editPlatform 0 (examplePlatform "GitLab") exampleSocialLoaded).formPlatforms
        (fun s => s.platforms) (editPlatform 0 (examplePlatform "GitLab") exampleSocialLoaded)
        (SocialMedia.handleSubmit exampleIsUrl exampleEditorEnv
          (some (some [examplePlatform "GitHub"]))
          (editPlatform 0 (examplePlatform "GitLab") exampleSocialLoaded))
    ∧ SubmitSpec "technologies" "categories" exampleEditorEnv
        (some (some [exampleCategory "Frontend"]))
        (editCategory 0 (exampleCategory "Backend") exampleTechnologiesLoaded).formCategories
        (fun s => s.categories)
        (editCategory 0 (exampleCategory "Backend") exampleTechnologiesLoaded)
        (Technologies.handleSubmit exampleEditorEnv (some (some [exampleCategory "Frontend"]))
          (editCategory 0 (exampleCategory "Backend") exampleTechnologiesLoaded))
    ∧ (∀ field s, (fetchSocialMedia (.found field) s).platforms = field.getD [])
    ∧ (∀ field s, (fetchTechnologies (.found field) s).categories = field.getD []) :=
  ⟨⟨by rfl, by rfl⟩,
    editors_submit_spec exampleIsUrl exampleEditorEnv _ _ _ _ _ _ (by rfl) (by rfl)⟩

example : (SocialMedia.handleSubmit exampleIsUrl exampleEditorEnv
    (some (some [examplePlatform "GitHub"]))
    (editPlatform 0 (examplePlatform "GitLab") exampleSocialLoaded)).state.platforms
    = [examplePlatform "GitLab"] := by decide

/-! ### The loading flag of the public pages -/

/-- On the paths of `fetchConfig` that do not reach `fetchPosts` (no configuration document, no
Medium user name, a rejected `getDoc`) the loading flag is left as it was. -/
theorem fetchConfig_keeps_loading (E : Engine) (feed : FeedResponse) (st : BlogPageState)
    (config : ConfigOutcome)
    (h : config = .absent ∨ (∃ m, config = .threw m)
      ∨ ∃ c, config = .found c ∧ truthy c.mediumUsername = false) :
    (fetchConfig E config feed st).isLoading = st.isLoading
    ∧ (st.isLoading = true → blogPageView (fetchConfig E config feed st) = .skeleton) := by
  rcases h with rfl | ⟨m, rfl⟩ | ⟨c, rfl, hc⟩
  · exact ⟨rfl, fun hl => by simp [blogPageView, fetchConfig, hl]⟩
  · exact ⟨rfl, fun hl => by simp [blogPageView, fetchConfig, hl]⟩
  · exact ⟨by simp [fetchConfig, hc], fun hl => by simp [blogPageView, fetchConfig, hc, hl]⟩

/-- Function `fetchPosts` ends the loading on every path. -/
theorem fetchPosts_not_loading (E : Engine) (feed : FeedResponse) (showCount : Option Int)
    (st : BlogPageState) : (fetchPosts E feed showCount st).isLoading = false := by
  unfold fetchPosts
  split
  · rfl
  · split <;> rfl

/-- When the configuration has a Medium user name, `fetchPosts` runs and ends the loading,
whatever the feed answers. -/
theorem fetchConfig_settles_with_username (E : Engine) (feed : FeedResponse)
    (st : BlogPageState) (c : BlogConfig) (hc : truthy c.mediumUsername = true) :
    (fetchConfig E (.found c) feed st).isLoading = false := by
  simp only [fetchConfig, hc, if_true]
  exact fetchPosts_not_loading E feed _ _

/-- The other five public pages end their mount with the loading flag false, whatever the
fetches answer. -/
theorem other_pages_settle (about : FetchOutcome δ) (contact : FetchOutcome δ)
    (mkRecord : JsString → δ → ρ) (docs : Option (List (JsString × δ))) (id : JsString)
    (detail : FetchOutcome δ) (home : FetchOutcome δh) (count : Option Nat)
    (tech : FetchOutcome δt) (s1 s2 : DocPageState δ) (s3 : ProjectsPageState ρ)
    (s4 : ProjectDetailState ρ) (s5 : HeroSectionState δh δt) :
    (AboutPage.fetchContent about s1).isLoading = false
    ∧ (ContactPage.fetchContactData contact s2).isLoading = false
    ∧ (ProjectsPage.fetchProjects mkRecord docs s3).loading = false
    ∧ (ProjectDetail.fetchProject mkRecord id detail s4).loading = false
    ∧ (HeroSection.fetchData home count tech s5).isLoading = false := by
  refine ⟨?_, ?_, ?_, ?_, ?_⟩
  · cases about <;> rfl
  · cases contact <;> rfl
  · cases docs <;> rfl
  · cases detail <;> rfl
  · cases home <;> cases count <;> cases tech <;> rfl

/-- C20: `BlogPage` mounted when the configuration document is absent, when it has no Medium
user name, and when its fetch is rejected: an error message is set, the loading flag is still
true after the mount has settled, and the view rendered is the skeleton, not the error. -/
theorem blogPage_stuck_loading :
    (fetchConfig exampleEngine .absent (.data "ok".toList []) BlogPageState.initial).isLoading
        = true
    ∧ (fetchConfig exampleEngine .absent (.data "ok".toList []) BlogPageState.initial).error
        = some "Firebase\x27de blog konfigürasyonu bulunamadı.".toList
    ∧ blogPageView (fetchConfig exampleEngine .absent (.data "ok".toList [])
        BlogPageState.initial) = .skeleton
    ∧ (fetchConfig exampleEngine (.found { mediumUsername := none, showCount := some 10 })
        (.data "ok".toList []) BlogPageState.initial).isLoading = true
    ∧ blogPageView (fetchConfig exampleEngine
        (.found { mediumUsername := none, showCount := some 10 })
        (.data "ok".toList []) BlogPageState.initial) = .skeleton
    ∧ (fetchConfig exampleEngine (.threw "offline".toList) (.data "ok".toList [])
        BlogPageState.initial).isLoading = true
    ∧ (fetchConfig exampleEngine (.threw "offline".toList) (.data "ok".toList [])
        BlogPageState.initial).error
        = some "Konfigürasyon getirme hatası: offline".toList
    ∧ blogPageView (fetchConfig exampleEngine (.threw "offline".toList) (.data "ok".toList [])
        BlogPageState.initial) = .skeleton := by
  refine ⟨by decide, by decide, by decide, by decide, by decide, by decide, by decide,
    by decide⟩

/-! ### Records of stored documents -/

theorem lookup_setProperty (object : Fields) (key k : JsString) (value : FieldValue) :
    (setProperty object key value).lookup k
      = if k = key then some value else object.lookup k := by
  induction object with
  | nil =>
    by_cases hk : k = key
    · subst hk; simp [setProperty]
    · have : (k == key) = false := by simpa using hk
      simp [setProperty, List.lookup_cons, this, hk]
  | cons x xs ih =>
    obtain ⟨a, b⟩ := x
    by_cases hak : a = key
    · subst hak
      by_cases hk : k = a
      · subst hk; simp [setProperty]
      · have : (k == a) = false := by simpa using hk
        simp [setProperty, List.lookup_cons, this, hk]
    · by_cases hk : k = key
      · subst hk
        have : (k == a) = false := by simpa using fun h => hak h.symm
        simp [setProperty, hak, List.lookup_cons, this, ih]
      · by_cases hka : k = a
        · subst hka; simp [setProperty, hak, hk]
        · have : (k == a) = false := by simpa using hka
          simp [setProperty, hak, List.lookup_cons, this, ih, hk]

/-- A key the source lacks is read from the target. -/
theorem lookup_objectSpread_of_not_mem (target source : Fields) (k : JsString)
    (h : k ∉ source.map Prod.fst) :
    (objectSpread target source).lookup k = target.lookup k := by
  induction source generalizing target with
  | nil => rfl
  | cons x xs ih =>
    simp only [List.map_cons, List.mem_cons, not_or] at h
    have := ih (setProperty target x.1 x.2) h.2
    simp only [objectSpread, List.foldl_cons] at this ⊢
    rw [this, lookup_setProperty, if_neg h.1]

/-- A property of the source is in the spread with the source's value. -/
theorem lookup_objectSpread_of_mem (target source : Fields) (k : JsString) (v : FieldValue)
    (hnodup : (source.map Prod.fst).Nodup) (h : (k, v) ∈ source) :
    (objectSpread target source).lookup k = some v := by
  induction source generalizing target with
  | nil => simp at h
  | cons x xs ih =>
    simp only [List.map_cons, List.nodup_cons] at hnodup
    rcases List.mem_cons.1 h with hx | hx
    · subst hx
      have := lookup_objectSpread_of_not_mem (setProperty target k v) xs k hnodup.1
      simp only [objectSpread, List.foldl_cons] at this ⊢
      rw [this, lookup_setProperty, if_pos rfl]
    · have := ih (setProperty target x.1 x.2) hnodup.2 hx
      simpa only [objectSpread, List.foldl_cons] using this

theorem mem_of_lookup_eq_some (object : Fields) (k : JsString) (v : FieldValue)
    (h : object.lookup k = some v) : (k, v) ∈ object := by
  induction object with
  | nil => simp at h
  | cons x xs ih =>
    obtain ⟨a, b⟩ := x
    by_cases hk : k = a
    · subst hk
      simp at h
      simp [h]
    · have : (k == a) = false := by simpa using hk
      simp only [List.lookup_cons, this] at h
      exact List.mem_cons_of_mem _ (ih h)

theorem not_mem_keys_of_lookup_eq_none (object : Fields) (k : JsString)
    (h : object.lookup k = none) : k ∉ object.map Prod.fst := by
  induction object with
  | nil => simp
  | cons x xs ih =>
    obtain ⟨a, b⟩ := x
    by_cases hk : k = a
    · subst hk; simp at h
    · have : (k == a) = false := by simpa using hk
      simp only [List.lookup_cons, this] at h
      simp only [List.map_cons, List.mem_cons, not_or]
      exact ⟨hk, ih h⟩

/-- Reading the record `{ id: d, ...m }`: the value of `m` where `m` has the key, else the
value of `{ id: d }`. -/
theorem lookup_projectRecord (d : JsString) (m : Fields) (k : JsString)
    (hnodup : (m.map Prod.fst).Nodup) :
    (projectRecord d m).lookup k
      = match m.lookup k with
        | some v => some v
        | none => if k = "id".toList then some (.scalar (.string d)) else none := by
  cases h : m.lookup k with
  | some v =>
    exact lookup_objectSpread_of_mem _ m k v hnodup (mem_of_lookup_eq_some m k v h)
  | none =>
    rw [projectRecord, lookup_objectSpread_of_not_mem _ m k (not_mem_keys_of_lookup_eq_none m k h)]
    generalize "id".toList = key
    by_cases hk : k = key
    · subst hk; simp
    · have : (k == key) = false := by simpa using hk
      simp [List.lookup_cons, this, hk]

/-- The record `{ id: d, ...m }` of a document whose data has no field `id`: its `id` is the
document id `d`, and every other field is read as in `m`. -/
theorem projectRecord_of_no_id (d : JsString) (m : Fields) (hnodup : (m.map Prod.fst).Nodup)
    (hid : m.lookup "id".toList = none) :
    (projectRecord d m).lookup "id".toList = some (.scalar (.string d))
    ∧ ∀ k, k ≠ "id".toList → (projectRecord d m).lookup k = m.lookup k := by
  refine ⟨?_, ?_⟩
  · rw [lookup_projectRecord d m _ hnodup, hid]
    simp
  · intro k hk
    rw [lookup_projectRecord d m k hnodup]
    cases m.lookup k with
    | some v => rfl
    | none => exact if_neg hk

/-- The record `{ id: d, ...m }` of a document whose data has a field `id`: that field, and
every other one, is read as in `m`. -/
theorem projectRecord_of_id (d : JsString) (m : Fields) (v : FieldValue)
    (hnodup : (m.map Prod.fst).Nodup) (hid : m.lookup "id".toList = some v) :
    (projectRecord d m).lookup "id".toList = some v
    ∧ ∀ k, k ≠ "id".toList → (projectRecord d m).lookup k = m.lookup k := by
  refine ⟨?_, ?_⟩
  · rw [lookup_projectRecord d m _ hnodup, hid]
  · intro k hk
    rw [lookup_projectRecord d m k hnodup]
    cases m.lookup k with
    | some v => rfl
    | none => exact if_neg hk

example : projectRecord "abc".toList exampleDoc
    = ("id".toList, .scalar (.string "abc".toList)) :: exampleDoc := by decide

/-- The mount of `ProjectDetail` for every path id: one `getDoc` of `projects/id`; a document
found becomes the project `{ id, ...data }` with no redirect, and when its data has no field
`id` the record has the path id and the other fields of the data; a document not found gives
one redirect to `/projects` and leaves the project as it was. -/
theorem projectDetail_mount_spec (getDoc : JsString → JsString → FetchOutcome Fields)
    (id : JsString) (st : ProjectDetailState Fields) :
    (ProjectDetail.mount getDoc id st).1 = [("projects".toList, id)]
    ∧ (∀ m, getDoc "projects".toList id = .found m →
        (ProjectDetail.mount getDoc id st).2.project = some (projectRecord id m)
        ∧ (ProjectDetail.mount getDoc id st).2.navigations = st.navigations
        ∧ ((m.map Prod.fst).Nodup → m.lookup "id".toList = none →
            (projectRecord id m).lookup "id".toList = some (.scalar (.string id))
            ∧ ∀ k, k ≠ "id".toList → (projectRecord id m).lookup k = m.lookup k))
    ∧ (getDoc "projects".toList id = .absent →
        (ProjectDetail.mount getDoc id st).2.project = st.project
        ∧ (ProjectDetail.mount getDoc id st).2.navigations
            = st.navigations ++ ["/projects".toList]) := by
  refine ⟨rfl, ?_, ?_⟩
  · intro m hm
    refine ⟨?_, ?_, fun hnodup hid => projectRecord_of_no_id id m hnodup hid⟩
    · simp only [ProjectDetail.mount, hm, ProjectDetail.fetchProject]
    · simp only [ProjectDetail.mount, hm, ProjectDetail.fetchProject]
  · intro hm
    constructor
    · simp only [ProjectDetail.mount, hm, ProjectDetail.fetchProject]
    · simp only [ProjectDetail.mount, hm, ProjectDetail.fetchProject]

/-- On `AboutPage` and `ContactPage` a rejected fetch and an absent document leave the same
state. -/
theorem doc_pages_error_as_absent (st : DocPageState δ) :
    AboutPage.fetchContent .threw st = AboutPage.fetchContent .absent st
    ∧ ContactPage.fetchContactData .threw st = ContactPage.fetchContactData .absent st :=
  ⟨rfl, rfl⟩

/-- C21: `ProjectDetail` mounted for the path id `abc`. When `getDoc` is rejected no redirect
is issued, the project stays `null` and the page rendered is blank; when the document is
absent the redirect to `/projects` is issued. The two runs end in different states. -/
theorem detail_fetch_error_blank_page :
    (ProjectDetail.mount (fun _ _ => .threw) "abc".toList ProjectDetailState.initial).2.navigations
        = []
    ∧ (ProjectDetail.mount (fun _ _ => .threw) "abc".toList ProjectDetailState.initial).2.project
        = none
    ∧ projectDetailView
        (ProjectDetail.mount (fun _ _ => .threw) "abc".toList ProjectDetailState.initial).2
        = .blank
    ∧ (ProjectDetail.mount (fun _ _ => .absent) "abc".toList ProjectDetailState.initial).2.navigations
        = ["/projects".toList]
    ∧ (ProjectDetail.mount (fun _ _ => .threw) "abc".toList ProjectDetailState.initial).2
        ≠ (ProjectDetail.mount (fun _ _ => .absent) "abc".toList ProjectDetailState.initial).2 := by
  refine ⟨rfl, rfl, rfl, rfl, ?_⟩
  decide

/-- C22: `ProjectDetail` mounted for the path id `abc` when the stored document has the data
`{ id: "other", title: "Site" }`: one `getDoc` of `projects/abc`, no redirect, and the project
is the data itself, whose `id` is `other` and not the document id `abc`. -/
theorem detail_project_id_not_path_id :
    (ProjectDetail.mount (fun _ _ => .found exampleDocWithId) "abc".toList
        ProjectDetailState.initial).1 = [("projects".toList, "abc".toList)]
    ∧ (ProjectDetail.mount (fun _ _ => .found exampleDocWithId) "abc".toList
        ProjectDetailState.initial).2.navigations = []
    ∧ (ProjectDetail.mount (fun _ _ => .found exampleDocWithId) "abc".toList
        ProjectDetailState.initial).2.project = some exampleDocWithId
    ∧ exampleDocWithId.lookup "id".toList = some (.scalar (.string "other".toList))
    ∧ FieldValue.scalar (.string "other".toList) ≠ .scalar (.string "abc".toList) := by
  refine ⟨rfl, rfl, ?_, ?_, ?_⟩ <;> decide

/-- C25: the stored project document `abc` with the data `{ id: "other", title: "Site" }`:
the record of the public list, of the admin list and of the detail view has `id` equal to
`other`, the value of the data, and not the document id `abc`; `title` is as stored. -/
theorem record_id_taken_from_data :
    (ProjectsPage.fetchProjects projectRecord (some [("abc".toList, exampleDocWithId)])
        ProjectsPageState.initial).projects.map (fun r => r.lookup "id".toList)
      = [some (.scalar (.string "other".toList))]
    ∧ (Projects.fetchProjects (some [("abc".toList, exampleDocWithId)])
        { projects := [], isLoading := true, error := none }).projects.map
          (fun r => r.lookup "id".toList)
      = [some (.scalar (.string "other".toList))]
    ∧ (ProjectDetail.fetchProject projectRecord "abc".toList (.found exampleDocWithId)
        ProjectDetailState.initial).project.map (fun r => r.lookup "id".toList)
      = some (some (.scalar (.string "other".toList)))
    ∧ (projectRecord "abc".toList exampleDocWithId).lookup "title".toList
      = some (.scalar (.string "Site".toList))
    ∧ FieldValue.scalar (.string "other".toList) ≠ .scalar (.string "abc".toList) := by
  refine ⟨?_, ?_, ?_, ?_, ?_⟩ <;> decide

/-! ### `HeroSection`: the mount and the technology count -/

/-- C23, as the claim states it, fails: `HeroSection` mounted when the home content and the
project list are fetched and the technologies fetch is rejected: the claim has `content` set to
the home data and `projectCount` to 3; both keep their initial values. -/
theorem heroSection_slices_lost_with_later_failure :
    (HeroSection.fetchData (.found "home".toList) (some 3) (.threw : FetchOutcome TechDoc)
        HeroSectionState.initial).content = none
    ∧ (HeroSection.fetchData (.found "home".toList) (some 3) (.threw : FetchOutcome TechDoc)
        HeroSectionState.initial).projectCount = 0
    ∧ (HeroSection.fetchData (.found "home".toList) none (.found ([] : TechDoc))
        HeroSectionState.initial).content = none := by
  refine ⟨rfl, rfl, rfl⟩

/-- C23, amended: the three fetches of `HeroSection` are awaited in turn and the three slices
are set together after the last one. When all three are fulfilled, `content`, `projectCount`
and `technologies` are set to the fetched data; when any one is rejected, none of the three
changes and only the loading flag is cleared. -/
theorem heroSection_all_or_nothing (st : HeroSectionState δh δt) :
    (∀ (homeData : Option δh) (n : Nat) (techData : Option δt),
        HeroSection.fetchData (.ofData homeData) (some n) (.ofData techData) st
          = { content := homeData, technologies := techData, projectCount := n,
              isLoading := false })
    ∧ (∀ (count : Option Nat) (tech : FetchOutcome δt),
        HeroSection.fetchData .threw count tech st = { st with isLoading := false })
    ∧ (∀ (home : FetchOutcome δh) (tech : FetchOutcome δt),
        HeroSection.fetchData home none tech st = { st with isLoading := false })
    ∧ (∀ (home : FetchOutcome δh) (count : Option Nat),
        HeroSection.fetchData home count .threw st = { st with isLoading := false }) := by
  refine ⟨?_, ?_, ?_, ?_⟩
  · intro homeData n techData
    cases homeData <;> cases techData <;> rfl
  · intro count tech
    cases count <;> cases tech <;> rfl
  · intro home tech
    cases home <;> cases tech <;> rfl
  · intro home count
    cases home <;> cases count <;> rfl

theorem foldl_add_arrayLength (values : List TechValue) (start : Nat) :
    values.foldl (fun total category => total + category.arrayLength) start
      = start + (values.map TechValue.arrayLength).sum := by
  induction values generalizing start with
  | nil => simp
  | cons v vs ih => simp [List.foldl_cons, ih, Nat.add_assoc]

/-- The count of `HeroSection` on the two shapes of the catalog: on the mapping shape the total
number of technologies, on the `categories` shape the number of categories; 0 on the empty
value. -/
theorem totalTechnologies_by_shape :
    (∀ mapping : List (JsString × List TechItem),
        totalTechnologies (some (catalogOfMapping mapping))
          = (mapping.map (fun category => category.2.length)).sum)
    ∧ (∀ categories : List Category,
        totalTechnologies (some (catalogOfCategories categories)) = categories.length)
    ∧ totalTechnologies none = 0 ∧ totalTechnologies (some []) = 0 := by
  refine ⟨?_, ?_, rfl, rfl⟩
  · intro mapping
    simp only [totalTechnologies, foldl_add_arrayLength, catalogOfMapping, List.map_map,
      Nat.zero_add]
    rfl
  · intro categories
    simp [totalTechnologies, catalogOfCategories, TechValue.arrayLength]

/-- C27: the technologies editor saves two categories holding three technologies (`React`,
`Vue`; `Node`); `HeroSection` fetches that document: the claim gives the figure 3, the
component shows 2, the length of the `categories` array. -/
theorem totalTechnologies_counts_categories :
    (Technologies.onSubmit exampleEditorEnv (some (some [])) exampleTechnologiesLoaded
        exampleCategories).store = some (some exampleCategories)
    ∧ totalTechnologies
        (HeroSection.fetchData (.found "home".toList) (some 0)
          (techDocOfStore (Technologies.onSubmit exampleEditorEnv (some (some []))
            exampleTechnologiesLoaded exampleCategories).store)
          HeroSectionState.initial).technologies = 2
    ∧ ((exampleCategories.map (fun category => category.technologies.length)).sum) = 3 := by
  refine ⟨by decide, by decide, by decide⟩

/-! ### `fetchPosts`: the error paths -/

/-- C24: `fetchPosts` sets an error exactly when the feed cannot be used. For a request that
throws and for a response whose status is not `ok`, an error message is set, the posts and the
displayed list stay as they were, and the loading flag becomes false. For a response with the
status `ok` the error stays as it was (none from the state at mount), the posts are as many as
the feed's items, and the loading flag becomes false. -/
theorem fetchPosts_error_iff_unusable (E : Engine) (showCount : Option Int)
    (st : BlogPageState) :
    (∀ message,
        (fetchPosts E (.threw message) showCount st).error
          = some ("Yazıları getirme hatası: ".toList ++ message)
        ∧ truthy (fetchPosts E (.threw message) showCount st).error = true
        ∧ (fetchPosts E (.threw message) showCount st).posts = st.posts
        ∧ (fetchPosts E (.threw message) showCount st).filteredPosts = st.filteredPosts
        ∧ (fetchPosts E (.threw message) showCount st).isLoading = false)
    ∧ (∀ status items, status ≠ "ok".toList →
        (fetchPosts E (.data status items) showCount st).error
          = some "Medium yazılarını çekerken hata oluştu.".toList
        ∧ truthy (fetchPosts E (.data status items) showCount st).error = true
        ∧ (fetchPosts E (.data status items) showCount st).posts = st.posts
        ∧ (fetchPosts E (.data status items) showCount st).filteredPosts = st.filteredPosts
        ∧ (fetchPosts E (.data status items) showCount st).isLoading = false)
    ∧ (∀ items,
        (fetchPosts E (.data "ok".toList items) showCount st).error = st.error
        ∧ (fetchPosts E (.data "ok".toList items) showCount BlogPageState.initial).error = none
        ∧ (fetchPosts E (.data "ok".toList items) showCount st).posts.length = items.length
        ∧ (fetchPosts E (.data "ok".toList items) showCount st).isLoading = false) := by
  refine ⟨?_, ?_, ?_⟩
  · intro message
    refine ⟨rfl, ?_, rfl, rfl, rfl⟩
    simp [fetchPosts, truthy]
  · intro status items hs
    have h : fetchPosts E (.data status items) showCount st
        = { st with
            error := some "Medium yazılarını çekerken hata oluştu.".toList, isLoading := false } := by
      simp only [fetchPosts, if_neg hs]
    rw [h]
    exact ⟨rfl, rfl, rfl, rfl, rfl⟩
  · intro items
    refine ⟨?_, ?_, ?_, fetchPosts_not_loading E _ showCount st⟩
    · simp [fetchPosts]
    · simp [fetchPosts, BlogPageState.initial]
    · rw [fetchPosts_posts_ok, List.length_map]
      exact (jsSort_perm (compareFn E) items).length_eq

example : (fetchPosts exampleEngine (.data "error".toList [exampleItem "a" "1000" none]) none
    BlogPageState.initial).error = some "Medium yazılarını çekerken hata oluştu.".toList
    ∧ (fetchPosts exampleEngine (.data "error".toList [exampleItem "a" "1000" none]) none
    BlogPageState.initial).posts = [] := by
  refine ⟨rfl, rfl⟩

/-! ### The theme provider -/

/-- C26, as the claim states it, fails: the saved theme is the empty string and the system
prefers dark: the claim has the flag false (the saved value exists and is not `dark`); the flag
is true. -/
theorem initialDarkMode_empty_saved_value :
    initialDarkMode (some []) true = true
    ∧ (some [] : Option JsString) ≠ some "dark".toList := by
  refine ⟨rfl, by decide⟩

/-- C26, amended: for every non-empty saved theme value the flag is true exactly when the value
is `dark`, whatever the system preference; when no theme is saved, or the saved value is the
empty string, the flag equals the system preference. The values the provider itself saves are
`dark` and `light`, and the flag read back from them is the flag that was saved. -/
theorem initialDarkMode_spec (prefersDark : Bool) :
    (∀ value : JsString, value ≠ [] →
        (initialDarkMode (some value) prefersDark = true ↔ value = "dark".toList))
    ∧ initialDarkMode none prefersDark = prefersDark
    ∧ initialDarkMode (some []) prefersDark = prefersDark
    ∧ (∀ (isDarkMode : Bool) (browser : ThemeBrowser),
        initialDarkMode (themeEffect isDarkMode browser).savedTheme prefersDark = isDarkMode
        ∧ initialDarkMode (themeEffect (toggleTheme isDarkMode) browser).savedTheme prefersDark
            = !isDarkMode) := by
  refine ⟨?_, rfl, rfl, ?_⟩
  · intro value hv
    cases value with
    | nil => exact absurd rfl hv
    | cons c cs => simp [initialDarkMode, truthy]
  · intro isDarkMode browser
    cases isDarkMode <;> exact ⟨rfl, rfl⟩

example : initialDarkMode (some "dark".toList) false = true
    ∧ initialDarkMode (some "light".toList) true = false
    ∧ initialDarkMode (some "system".toList) true = false := by decide

/-! ### The search indicator -/

/-- A pending timer always comes with the indicator on. -/
theorem pending_implies_searching (E : Engine) (st : BlogPageState) (e : SearchEvent)
    (h : st.timer.isSome = true → st.isSearching = true) :
    (searchStep E st e).timer.isSome = true → (searchStep E st e).isSearching = true := by
  cases e with
  | queryChange t q =>
    by_cases hq : q = st.searchQuery
    · simpa only [searchStep, if_pos hq] using h
    · simp only [searchStep, if_neg hq]
      intro _
      rfl
  | timerFire t =>
    cases htm : st.timer with
    | none =>
      simp only [searchStep, htm]
      rw [htm] at h
      exact h
    | some tm =>
      by_cases hdue : tm.due ≤ t
      · simp only [searchStep, htm, if_pos hdue]
        cases searchFilter E tm.posts tm.searchQuery tm.showCount <;> simp
      · simp only [searchStep, htm, if_neg hdue]
        intro _
        exact h (by simp [htm])

/-- When every post has a description, a step keeps the indicator equal to "a timer is
pending". -/
theorem searching_iff_pending_step (E : Engine) (P : List FeedPost) (showCount : Option Int)
    (hP : ∀ p ∈ P, p.description ≠ none) (st : BlogPageState) (e : SearchEvent)
    (hc : Coherent E P showCount st) (h : st.isSearching = st.timer.isSome) :
    (searchStep E st e).isSearching = (searchStep E st e).timer.isSome := by
  cases e with
  | queryChange t q =>
    by_cases hq : q = st.searchQuery
    · simpa only [searchStep, if_pos hq] using h
    · simp only [searchStep, if_neg hq]
      rfl
  | timerFire t =>
    cases htm : st.timer with
    | none =>
      simp only [searchStep, htm]
      rw [htm] at h
      exact h
    | some tm =>
      obtain ⟨_, _, h3⟩ := hc
      rw [htm] at h3
      obtain ⟨h4, _, h6⟩ := h3
      by_cases hdue : tm.due ≤ t
      · have hres := searchFilter_of_described E P tm.searchQuery showCount hP
        simp only [searchStep, htm, if_pos hdue, h4, h6, hres]
        rfl
      · simp only [searchStep, htm, if_neg hdue]
        rw [h, htm]

/-- When every item of the feed has a description: after any events on the loaded page the
indicator is on exactly when a timer is pending. -/
theorem searching_iff_pending_of_described (E : Engine) (items : List FeedItem) (n : Int)
    (t0 : Nat) (es : List SearchEvent) (hdesc : ∀ it ∈ items, it.description ≠ none) :
    (searchRun E (loadedPage E items n t0) es).isSearching
      = (searchRun E (loadedPage E items n t0) es).timer.isSome := by
  have hP : ∀ p ∈ (loadedPage E items n t0).posts, p.description ≠ none := by
    intro p hp
    simp only [loadedPage, searchEffect, fetchPosts, if_true, List.mem_map] at hp
    obtain ⟨it, hit, rfl⟩ := hp
    exact hdesc it ((jsSort_perm _ items).subset hit)
  have h0 : Coherent E (loadedPage E items n t0).posts (some n) (loadedPage E items n t0) :=
    ⟨rfl, rfl, rfl, rfl, rfl⟩
  have key : ∀ (es : List SearchEvent) (st : BlogPageState),
      Coherent E (loadedPage E items n t0).posts (some n) st →
      st.isSearching = st.timer.isSome →
      (searchRun E st es).isSearching = (searchRun E st es).timer.isSome := by
    intro es
    induction es with
    | nil => intro st _ h; exact h
    | cons e es ih =>
      intro st hc h
      exact ih (searchStep E st e) (coherent_searchStep E _ (some n) hP st e hc)
        (searching_iff_pending_step E _ (some n) hP st e hc h)
  exact key es _ h0 rfl

/-- C28: the fetched posts `ab`, `Hello` (no description), `xylophone`. After the first
computation has run the indicator is off. The query changes to `x` at time 1000 and its timer
runs at time 1300: the callback raises a `TypeError` at `Hello`, so no computation is pending
any more and the indicator is still on, and it stays on at every later timer event. -/
theorem isSearching_stuck_after_typeError :
    (searchRun exampleEngine (loadedPage exampleEngine exampleFeed 10 0)
        [.timerFire 300]).isSearching = false
    ∧ (searchRun exampleEngine (loadedPage exampleEngine exampleFeed 10 0)
        [.timerFire 300, .queryChange 1000 "x".toList, .timerFire 1300]).timer.isSome = false
    ∧ (searchRun exampleEngine (loadedPage exampleEngine exampleFeed 10 0)
        [.timerFire 300, .queryChange 1000 "x".toList, .timerFire 1300]).isSearching = true
    ∧ (searchRun exampleEngine (loadedPage exampleEngine exampleFeed 10 0)
        [.timerFire 300, .queryChange 1000 "x".toList, .timerFire 1300,
          .timerFire 5000]).isSearching = true := by
  refine ⟨by decide, by decide, by decide, by decide⟩

/-! ### The round trip of the tags through the editor -/

theorem intercalate_cons_cons (sep a b : JsString) (l : List JsString) :
    sep.intercalate (a :: b :: l) = a ++ sep ++ sep.intercalate (b :: l) := by
  simp [List.intercalate, List.intersperse]

theorem intercalate_cons_head (sep a : JsString) (c : Char) (l : List JsString) :
    sep.intercalate ((c :: a) :: l) = c :: sep.intercalate (a :: l) := by
  cases l with
  | nil => simp [List.intercalate, List.intersperse]
  | cons b l => simp [intercalate_cons_cons]

theorem intercalate_cons_ne_nil (sep a : JsString) (l : List JsString) (ha : a ≠ []) :
    sep.intercalate (a :: l) ≠ [] := by
  cases l with
  | nil => simpa [List.intercalate, List.intersperse] using ha
  | cons b l => simp [intercalate_cons_cons, ha]

/-- Joining with `", "` is joining with `","` after a space is put before every element but
the first. -/
theorem jsJoin_comma_space (t : JsString) (ts : List JsString) :
    jsJoin ", ".toList (t :: ts) = [','].intercalate (t :: ts.map (fun x => ' ' :: x)) := by
  induction ts generalizing t with
  | nil => simp [jsJoin, List.intercalate, List.intersperse]
  | cons t2 ts ih =>
    have ih2 := ih t2
    simp only [jsJoin] at ih2 ⊢
    rw [intercalate_cons_cons, ih2, List.map_cons, intercalate_cons_cons, intercalate_cons_head]
    simp

/-- A non-empty string without white space at its ends is its own trim. -/
theorem jsTrim_of_trimmed (t : JsString) (hhead : ∀ c ∈ t.head?, isJsWhiteSpace c = false)
    (hlast : ∀ c ∈ t.getLast?, isJsWhiteSpace c = false) : jsTrim t = t := by
  have h1 : t.dropWhile isJsWhiteSpace = t := by
    cases t with
    | nil => rfl
    | cons a as =>
      have := hhead a (by simp)
      simp [List.dropWhile_cons, this]
  have h2 : List.rdropWhile isJsWhiteSpace t = t := by
    rw [List.rdropWhile_eq_self_iff]
    intro hl
    have := hlast (t.getLast hl) (by simp [List.getLast?_eq_getLast _ hl])
    simp [this]
  unfold jsTrim
  rw [h1]
  exact h2

theorem jsTrim_space_cons (t : JsString) : jsTrim (' ' :: t) = jsTrim t := by
  have : isJsWhiteSpace ' ' = true := by decide
  simp [jsTrim, List.dropWhile_cons, this]

/-- The string `handleEdit` builds from well-formed tags is normalised back to them. -/
theorem technologiesArray_handleEdit (T : List JsString)
    (h : ∀ t ∈ T, t ≠ [] ∧ ',' ∉ t ∧ (∀ c ∈ t.head?, isJsWhiteSpace c = false)
      ∧ (∀ c ∈ t.getLast?, isJsWhiteSpace c = false)) :
    technologiesArray (some (handleEditTechnologies (some T))) = T := by
  cases T with
  | nil => rfl
  | cons t ts =>
    have ht := h t (List.mem_cons_self _ _)
    have hne : jsJoin ", ".toList (t :: ts) ≠ [] := intercalate_cons_ne_nil _ t ts ht.1
    have hsplit : jsSplitComma (jsJoin ", ".toList (t :: ts))
        = t :: ts.map (fun x => ' ' :: x) := by
      rw [jsSplitComma_eq_splitOn, jsJoin_comma_space]
      apply List.splitOn_intercalate
      · intro l hl
        rcases List.mem_cons.1 hl with rfl | hl
        · exact ht.2.1
        · obtain ⟨x, hx, rfl⟩ := List.mem_map.1 hl
          have hx2 := (h x (List.mem_cons_of_mem _ hx)).2.1
          simp only [List.mem_cons, not_or]
          exact ⟨by decide, hx2⟩
      · simp
    simp only [technologiesArray, handleEditTechnologies, if_neg hne, hsplit, List.map_cons,
      List.map_map]
    have h1 : jsTrim t = t := jsTrim_of_trimmed t ht.2.2.1 ht.2.2.2
    have h2 : ts.map ((fun tech => jsTrim tech) ∘ fun x => ' ' :: x) = ts := by
      conv_rhs => rw [← List.map_id ts]
      apply List.map_congr_left
      intro x hx
      have hx2 := h x (List.mem_cons_of_mem _ hx)
      simp only [Function.comp, jsTrim_space_cons, id]
      exact jsTrim_of_trimmed x hx2.2.2.1 hx2.2.2.2
    rw [h1, h2]
    apply List.filter_eq_self.2
    intro a ha
    simpa using (h a ha).1

/-- C29: for every tag sequence `T` whose tags are non-empty, free of commas and of white
space at their ends, the form string `handleEdit` builds is the tags joined with `", "`, and
the normalisation of `onSubmit` gives exactly `T` back; so a project opened with `handleEdit`
and submitted with that string is updated with the tags `T`. The empty sequence gives the empty
string, which is normalised to the empty sequence. -/
theorem tags_round_trip (T : List JsString)
    (h : ∀ t ∈ T, t ≠ [] ∧ ',' ∉ t ∧ (∀ c ∈ t.head?, isJsWhiteSpace c = false)
      ∧ (∀ c ∈ t.getLast?, isJsWhiteSpace c = false)) :
    handleEditTechnologies (some T) = jsJoin ", ".toList T
    ∧ technologiesArray (some (handleEditTechnologies (some T))) = T
    ∧ (∀ (env : SubmitEnv) (st : ProjectsState) (project : SelectedProject)
        (data : ProjectFormData),
        uploadSucceeds env (handleEdit project (some T) st).1 →
        data.technologies = some (handleEdit project (some T) st).2 →
        ∃ (pre : List RepoCall) (doc : ProjectData),
          doc.technologies = T
          ∧ (onSubmit env (handleEdit project (some T) st).1 data).2
            = pre ++ .updateDocument "projects".toList project.id doc
              :: (if env.writeOk then [.listDocuments "projects".toList] else []))
    ∧ handleEditTechnologies (some []) = []
    ∧ technologiesArray (some (handleEditTechnologies (some []))) = [] := by
  refine ⟨rfl, technologiesArray_handleEdit T h, ?_, rfl, rfl⟩
  intro env st project data hup hdata
  obtain ⟨pre, doc, _, htech, _, _, hcalls⟩ :=
    onSubmit_calls_of_upload env (handleEdit project (some T) st).1 data hup
  refine ⟨pre, doc, ?_, hcalls⟩
  rw [htech, hdata]
  exact technologiesArray_handleEdit T h

/-- C29 at the tags `React`, `Tailwind CSS`: the form string is `React, Tailwind CSS`. -/
theorem tags_round_trip_witness :
    (∀ t ∈ exampleTags, t ≠ [] ∧ ',' ∉ t ∧ (∀ c ∈ t.head?, isJsWhiteSpace c = false)
      ∧ (∀ c ∈ t.getLast?, isJsWhiteSpace c = false))
    ∧ handleEditTechnologies (some exampleTags) = "React, Tailwind CSS".toList
    ∧ technologiesArray (some (handleEditTechnologies (some exampleTags))) = exampleTags :=
  have hyp : ∀ t ∈ exampleTags, t ≠ [] ∧ ',' ∉ t
      ∧ (∀ c ∈ t.head?, isJsWhiteSpace c = false)
      ∧ (∀ c ∈ t.getLast?, isJsWhiteSpace c = false) := by
    intro t ht
    simp only [exampleTags, List.mem_cons, List.mem_singleton, List.not_mem_nil, or_false] at ht
    rcases ht with rfl | rfl
    · refine ⟨by decide, by decide, ?_, ?_⟩
      · intro c hc
        obtain rfl : 'R' = c := by simpa using hc
        decide
      · intro c hc
        obtain rfl : 't' = c := by simpa using hc
        decide
    · refine ⟨by decide, by decide, ?_, ?_⟩
      · intro c hc
        obtain rfl : 'T' = c := by simpa using hc
        decide
      · intro c hc
        obtain rfl : 'S' = c := by simpa using hc
        decide
  ⟨hyp, by decide, (tags_round_trip exampleTags hyp).2.1⟩

/-! ### The tags of a project on the public pages -/

/-- A record whose `techStack` is the array `T` is shown with the first three tags of `T` and
the badge `+k` for the `k` further ones on the card, and with all of `T` on the detail page. -/
theorem techStackChips_of_techStack (project : Fields) (T : List JsString)
    (h : project.lookup "techStack".toList = some (.list T)) :
    ProjectsPage.techStackChips project
      = .ok (T.take 3, if T.length > 3 then some (T.length - 3) else none)
    ∧ ProjectDetail.techStackChips project = .ok T := by
  constructor
  · simp only [ProjectsPage.techStackChips, h]
  · simp only [ProjectDetail.techStackChips, h]

/-- No document written by the admin editor has a field `techStack`: for every written
document and every document id the public card and the detail page show no tag. -/
theorem written_document_without_techStack (doc : ProjectData) (id : JsString) :
    (projectRecord id doc.toFields).lookup "techStack".toList = none
    ∧ (projectRecord id doc.toFields).lookup "technologies".toList
        = some (.list doc.technologies)
    ∧ ProjectsPage.techStackChips (projectRecord id doc.toFields) = .ok ([], none)
    ∧ ProjectDetail.techStackChips (projectRecord id doc.toFields) = .ok [] := by
  have hnodup : (doc.toFields.map Prod.fst).Nodup := by
    cases hg : doc.githubUrl <;> cases hd : doc.demoUrl <;> cases hc : doc.createdAt <;>
      simp [ProjectData.toFields, optionalField, hg, hd, hc]
  have h1 : (projectRecord id doc.toFields).lookup "techStack".toList = none := by
    rw [lookup_projectRecord id _ _ hnodup]
    cases hg : doc.githubUrl <;> cases hd : doc.demoUrl <;> cases hc : doc.createdAt <;>
      simp [ProjectData.toFields, optionalField, hg, hd, hc, List.lookup_cons]
  have h2 : (projectRecord id doc.toFields).lookup "technologies".toList
      = some (.list doc.technologies) := by
    rw [lookup_projectRecord id _ _ hnodup]
    cases hg : doc.githubUrl <;> cases hd : doc.demoUrl <;> cases hc : doc.createdAt <;>
      simp [ProjectData.toFields, optionalField, hg, hd, hc, List.lookup_cons]
  refine ⟨h1, h2, ?_, ?_⟩
  · simp only [ProjectsPage.techStackChips, h1]
  · simp only [ProjectDetail.techStackChips, h1]

/-- C30: the valid form `exampleProjectInput` (tags `React`, `Tailwind CSS`, `Firebase`)
submitted for a new project. The written document holds the three tags in its field
`technologies` and has no field `techStack`; the public card and the detail page, which read
`techStack`, show no tag, where the claim has them show the three. -/
theorem admin_tags_not_rendered :
    ((handleSubmit exampleIsUrl exampleEnv (exampleNewProject none)
        exampleProjectInput).calls.filterMap RepoCall.written).map
          (fun doc => doc.technologies)
      = [["React".toList, "Tailwind CSS".toList, "Firebase".toList]]
    ∧ ((handleSubmit exampleIsUrl exampleEnv (exampleNewProject none)
        exampleProjectInput).calls.filterMap RepoCall.written).map
          (fun doc => (projectRecord "abc".toList doc.toFields).lookup "techStack".toList)
      = [none]
    ∧ ((handleSubmit exampleIsUrl exampleEnv (exampleNewProject none)
        exampleProjectInput).calls.filterMap RepoCall.written).map
          (fun doc => ProjectsPage.techStackChips (projectRecord "abc".toList doc.toFields))
      = [.ok ([], none)]
    ∧ ((handleSubmit exampleIsUrl exampleEnv (exampleNewProject none)
        exampleProjectInput).calls.filterMap RepoCall.written).map
          (fun doc => ProjectDetail.techStackChips (projectRecord "abc".toList doc.toFields))
      = [.ok []] := by
  refine ⟨by decide, by decide, by rfl, by rfl⟩

end WebSitem
